import Mathlib

/-!
# github-rally-hook: the push synchronisation service (`rally/service.go`)

A shallow embedding of the service that turns the commits of a push event into
changesets of the tracker.

* Go strings are `String`; the regular expression engine works on `List Char`.
* Go maps are association lists with unique keys (`GoMap`); a `nil` map is `none`.
* The tracker is everything behind `s.client.Do`: a function from the requests sent
  so far (the newest last) to a reply.  A reply is a transport error or a body, and a
  body is described by what `json.NewDecoder(...).Decode` makes of it for each of the
  three result types the service decodes into.
* Every function of the service threads a `World`: the log of the requests sent and the
  process-wide `userCache`.  A run-time panic is the outcome `Outcome.panic`.
* `http.NewRequest` is taken to succeed for the URLs built from the configured
  `RallyURL` (a well-formed base URL).  The state update is sent to a reference taken
  from a reply of the tracker: whether that text parses as a URL is the parameter
  `URLParse` of the service, and when it does not, `UpdateState` panics (it drops the
  error of `http.NewRequest` and `DecorateRequest` dereferences the nil request).
* The transport is modelled from the header value and the decoded body of a request on:
  `servePush` is the handler the routes install (the header moved into the context, the
  decoder, the middleware, the endpoint, then `encodeError` or the status 200).  The
  library functions `CheckHMAC` calls are a parameter (`Signing`).
-/

namespace Rally

/-! ## The regular expressions of package `regexp` used by the service -/

/-- Perl character classes: `\d` is `[0-9]`, `\s` is `[\t\n\f\r ]`. -/
inductive PerlClass where
  | digit
  | space
  deriving DecidableEq, Repr

/-- Membership of a character in a Perl class. -/
def PerlClass.test : PerlClass → Char → Bool
  | .digit, c => c.isDigit
  | .space, c => c == '\t' || c == '\n' || c == '\x0c' || c == '\r' || c == ' '

/-- The fragment of the regexp syntax the service's patterns are written in. -/
inductive Regex where
  | empty
  | lit (c : Char)
  | perl (k : PerlClass)
  | cat (a b : Regex)
  | alt (a b : Regex)
  | plus (a : Regex)
  | cap (i : Nat) (a : Regex)
  deriving Repr

/-- A literal string. -/
def Regex.str : List Char → Regex
  | [] => .empty
  | [c] => .lit c
  | c :: cs => .cat (.lit c) (Regex.str cs)

/-- The capture groups of a thread, the newest first. -/
abbrev Caps := List (Nat × List Char)

/-- The greedy loop of `a+`: `step` runs `a` once; every way of going round again
comes before stopping. An iteration that consumes nothing is not repeated. -/
def plusLoop (step : List Char → Caps → List (List Char × Caps)) :
    Nat → List Char → Caps → List (List Char × Caps)
  | 0, _, _ => []
  | n + 1, s, caps =>
    (step s caps).flatMap fun r =>
      if r.1.length < s.length then plusLoop step n r.1 r.2 ++ [r] else [r]

/-- All the ways `re` matches a prefix of `s`, in the order a backtracking search
finds them (the order of preference of package `regexp`): the rest of the input and
the capture groups of each. -/
def runRe : Regex → List Char → Caps → List (List Char × Caps)
  | .empty, s, caps => [(s, caps)]
  | .lit c, s, caps =>
    match s with
    | x :: xs => if x = c then [(xs, caps)] else []
    | [] => []
  | .perl k, s, caps =>
    match s with
    | x :: xs => if k.test x then [(xs, caps)] else []
    | [] => []
  | .cat a b, s, caps => (runRe a s caps).flatMap fun r => runRe b r.1 r.2
  | .alt a b, s, caps => runRe a s caps ++ runRe b s caps
  | .plus a, s, caps => plusLoop (runRe a) (s.length + 1) s caps
  | .cap i a, s, caps =>
    (runRe a s caps).map fun r => (r.1, (i, s.take (s.length - r.1.length)) :: r.2)

/-- The number of capture groups of a pattern. -/
def Regex.numCap : Regex → Nat
  | .empty => 0
  | .lit _ => 0
  | .perl _ => 0
  | .cat a b => a.numCap + b.numCap
  | .alt a b => a.numCap + b.numCap
  | .plus a => a.numCap
  | .cap _ a => a.numCap + 1

/-- The preferred match of `re` at the start of `s`. -/
def Regex.exec (re : Regex) (s : List Char) : Option (List Char × Caps) :=
  (runRe re s []).head?

/-- The text of group `i` of a thread (empty when the group took no part). -/
def capText (caps : Caps) (i : Nat) : String :=
  match caps.lookup i with
  | some t => String.mk t
  | none => ""

/-- The submatch slice of a match of `re` on `s` that leaves `rest`: the matched text,
then the text of each group. -/
def submatch (re : Regex) (s rest : List Char) (caps : Caps) : List String :=
  String.mk (s.take (s.length - rest.length)) ::
    (List.range re.numCap).map fun i => capText caps (i + 1)

/-- The unanchored search of `MatchString` on a list of characters. -/
def matchChars (re : Regex) : List Char → Bool
  | [] => (re.exec []).isSome
  | c :: cs => (re.exec (c :: cs)).isSome || matchChars re cs

/-- Go `Regexp.MatchString`. -/
def MatchString (re : Regex) (s : String) : Bool :=
  matchChars re s.data

/-- The loop of `Regexp.allMatches`: `skip` characters still belong to the previous
match; `adj` says the previous match ended right here (an empty match is not
accepted there). -/
def allMatches (re : Regex) : List Char → Nat → Bool → List (List String)
  | [], _, adj =>
    match re.exec [] with
    | some r => if adj then [] else [submatch re [] r.1 r.2]
    | none => []
  | _ :: cs, skip + 1, _ => allMatches re cs skip true
  | c :: cs, 0, adj =>
    match re.exec (c :: cs) with
    | none => allMatches re cs 0 false
    | some r =>
      if (c :: cs).length - r.1.length = 0 then
        (if adj then [] else [submatch re (c :: cs) r.1 r.2]) ++ allMatches re cs 0 false
      else
        submatch re (c :: cs) r.1 r.2 ::
          allMatches re cs ((c :: cs).length - r.1.length - 1) true

/-- Go `Regexp.FindAllStringSubmatch(s, -1)`. -/
def FindAllStringSubmatch (re : Regex) (s : String) : List (List String) :=
  allMatches re s.data 0 false

/-- The pattern `\d+`. -/
def digitsRe : Regex := .plus (.perl .digit)

/-- The pattern `(D|DE|DS|TA|TC|S|US)\d+` of `FindRallyArtifact`. -/
def artifactRegex : Regex :=
  .cat
    (.cap 1
      (.alt (Regex.str "D".data) (.alt (Regex.str "DE".data) (.alt (Regex.str "DS".data)
        (.alt (Regex.str "TA".data) (.alt (Regex.str "TC".data)
          (.alt (Regex.str "S".data) (Regex.str "US".data))))))))
    digitsRe

/-! ## Data model (`rally/models.go`) -/

/-- The configuration fields the service reads. -/
structure Config where
  RallyURL : String
  APIToken : String
  Workspace : String

/-- The author of a commit. -/
structure Author where
  Name : String
  Email : String

/-- A commit of a push event (the fields the service reads). -/
structure Commit where
  ID : String
  Message : String
  Timestamp : String
  Author : Author
  Added : List String
  Removed : List String
  Modified : List String

/-- One result of a query. -/
structure RallyResult where
  Ref : String

/-- The `QueryResult` member of a query response: `TotalResultCount` is the decoded
number (a `float64` in the source, only ever compared with zero). -/
structure QueryResult where
  TotalResultCount : Int
  Results : List RallyResult

/-- A decoded query response. -/
structure RallyQueryResults where
  QueryResult : QueryResult

/-- The `Object` member of a create response. -/
structure CreateObject where
  Ref : String

/-- The `CreateResult` member of a create response. -/
structure CreateResult where
  Object : CreateObject

/-- A decoded create response. -/
structure RallyCreateResult where
  CreateResult : CreateResult

/-- The `Object` member of an update response. -/
structure UpdateObject where
  ScheduleState : String

/-- The `OperationResult` member of an update response. -/
structure OperationResult where
  Errors : List String
  Object : UpdateObject

/-- Modelled from the spec: the declaration of the type `UpdateResult` that
`UpdateState` decodes into is not among the sources; these are the members the
service reads, `OperationResult.Object.ScheduleState` (the state the tracker
reports) and `OperationResult.Errors`. -/
structure UpdateResult where
  OperationResult : OperationResult

/-- A reference to a tracker object (the member the service sets). -/
structure Reference where
  Ref : String
  deriving DecidableEq

/-- The changeset sent to the tracker (the members the service sets; the others
keep their zero value and are left out of the encoding). -/
structure Changeset where
  Artifacts : List Reference
  Author : String
  CommitTimestamp : String
  Message : String
  Revision : String
  SCMRepository : String
  Uri : String

/-! ## JSON bodies (`encoding/json`) -/

/-- The JSON values the service sends. -/
inductive Json where
  | str (s : String)
  | arr (l : List Json)
  | obj (fields : List (String × Json))

/-- A string member tagged `omitempty`: left out when empty. -/
def omitemptyStr (key value : String) : List (String × Json) :=
  if value = "" then [] else [(key, .str value)]

/-- The encoding of a `Reference` (`_ref,omitempty`). -/
def marshalReference (r : Reference) : Json :=
  .obj (omitemptyStr "_ref" r.Ref)

/-- The encoding of a `Changeset`: the members in the order of the declaration,
each left out when empty. -/
def marshalChangeset (c : Changeset) : Json :=
  .obj ((if c.Artifacts.isEmpty then [] else [("Artifacts", .arr (c.Artifacts.map marshalReference))])
    ++ omitemptyStr "Author" c.Author
    ++ omitemptyStr "CommitTimestamp" c.CommitTimestamp
    ++ omitemptyStr "Message" c.Message
    ++ omitemptyStr "Revision" c.Revision
    ++ omitemptyStr "SCMRepository" c.SCMRepository
    ++ omitemptyStr "Uri" c.Uri)

/-- The member `key` of a JSON object. -/
def Json.field (j : Json) (key : String) : Option Json :=
  match j with
  | .obj fields => fields.lookup key
  | _ => none

/-! ## The tracker and the state of the process -/

/-- An outbound HTTP request: `query` is the value of the URL parameter `query`. -/
structure Request where
  method : String
  url : String
  query : Option String
  header : List (String × String)
  body : Option Json

/-- A response body, by what decoding it into each result type gives (`none`: the
decoder returns an error). -/
structure Body where
  asQuery : Option RallyQueryResults
  asCreate : Option RallyCreateResult
  asUpdate : Option UpdateResult

/-- What `client.Do` returns: an error or a response. -/
inductive Reply where
  | transportError
  | response (b : Body)

/-- The tracker: its reply to the newest request of the requests sent so far. -/
abbrev Tracker := List Request → Reply

/-- Go maps from strings to strings: `none` is the nil map, the entries have distinct
keys. -/
abbrev GoMap := Option (List (String × String))

/-- The entries of a map (none for the nil map). -/
def GoMap.entries (m : GoMap) : List (String × String) := m.getD []

/-- Go `len(m)`. -/
def GoMap.len (m : GoMap) : Nat := m.entries.length

/-- Go `v, ok := m[k]`. -/
def GoMap.get? (m : GoMap) (k : String) : Option String := m.entries.lookup k

/-- Go `m[k]`: the zero value when the key is absent. -/
def GoMap.get (m : GoMap) (k : String) : String := (m.get? k).getD ""

/-- Writing `k ↦ v` into the entries of a map. -/
def setEntry (k v : String) : List (String × String) → List (String × String)
  | [] => [(k, v)]
  | e :: es => if e.1 = k then (k, v) :: es else e :: setEntry k v es

/-- The order in which a `range` statement visits the entries of a map: chosen by the
run time, possibly differently each time (it is indexed by the requests sent so far). -/
abbrev MapOrder := List Request → List (String × String) → List (String × String)

/-- A map order visits every entry once. -/
def MapOrder.fair (ord : MapOrder) : Prop := ∀ log es, (ord log es).Perm es

/-- The state of the process: the requests sent and the global `userCache`. -/
structure World where
  log : List Request
  userCache : GoMap

/-- The result of running a function: it returns, or the goroutine panics. -/
inductive Outcome (α : Type) where
  | ret (a : α)
  | panic
  deriving DecidableEq

/-- The kinds of Go `error` values of the service. -/
inductive GoError where
  | transport
  | decode
  | msg (text : String)
  deriving DecidableEq

/-- Whether `url.Parse`, which `http.NewRequest` calls, accepts a raw URL. The URLs
built from the configured `RallyURL` are taken to parse; a reference taken from a reply
of the tracker need not. The service is modelled for every such function. -/
abbrev URLParse := String → Bool

/-- `s.client.Do(req)` with the body decoded lazily by the caller. -/
def doRequest (tr : Tracker) (req : Request) (w : World) : Reply × World :=
  (tr (w.log ++ [req]), { w with log := w.log ++ [req] })

/-! ## The service (`rally/service.go`) -/

/-- `DecorateRequest`: the header carrying the API token. -/
def DecorateRequest (cfg : Config) (req : Request) : Request :=
  { req with header := ("ZSESSIONID", cfg.APIToken) :: req.header.filter (fun h => h.1 != "ZSESSIONID") }

/-- `http.NewRequest(http.MethodGet, url, nil)` with the parameter `query` set. -/
def getRequest (cfg : Config) (url query : String) : Request :=
  DecorateRequest cfg { method := "GET", url := url, query := some query, header := [], body := none }

/-- `http.NewRequest(http.MethodPost, url, body)`. -/
def postRequest (cfg : Config) (url : String) (body : Json) : Request :=
  DecorateRequest cfg { method := "POST", url := url, query := none, header := [], body := some body }

/-- The `typeMap` of `FindRallyArtifact`. -/
def typeMap : List (String × String) :=
  [("D", "defect"), ("DE", "defect"), ("DS", "defectsuite"), ("TA", "task"),
   ("TC", "testcase"), ("S", "hierarchicalrequirement"), ("US", "hierarchicalrequirement")]

/-- The lookup request of `FindRallyArtifact` for one identifier. -/
def artifactRequest (cfg : Config) (artifactID artifactType : String) : Request :=
  getRequest cfg (cfg.RallyURL ++ "/slm/webservice/v2.0/" ++ (typeMap.lookup artifactType).getD "")
    ("(FormattedID = " ++ artifactID ++ ")")

/-- The loop of `FindRallyArtifact` over `result_slice`. -/
def findLoop (cfg : Config) (tr : Tracker) :
    List (List String) → List (String × String) → World → Outcome GoMap × World
  | [], artifacts, w => (.ret (some artifacts), w)
  | v :: vs, artifacts, w =>
    if v.length > 0 then
      match v[0]?, v[1]? with
      | some artifactID, some artifactType =>
        match doRequest tr (artifactRequest cfg artifactID artifactType) w with
        | (.transportError, w1) => findLoop cfg tr vs artifacts w1
        | (.response b, w1) =>
          match b.asQuery with
          | none => findLoop cfg tr vs artifacts w1
          | some rallyresponse =>
            if rallyresponse.QueryResult.TotalResultCount = 0 then
              findLoop cfg tr vs artifacts w1
            else
              match rallyresponse.QueryResult.Results[0]? with
              | some r => findLoop cfg tr vs (setEntry artifactID r.Ref artifacts) w1
              | none => (.panic, w1)
      | _, _ => (.panic, w)
    else findLoop cfg tr vs artifacts w

/-- `FindRallyArtifact`: the map from the identifiers of the commit message to their
references. -/
def FindRallyArtifact (cfg : Config) (tr : Tracker) (commit : Commit) (w : World) :
    Outcome GoMap × World :=
  if MatchString artifactRegex commit.Message then
    let result_slice := FindAllStringSubmatch artifactRegex commit.Message
    if result_slice.length > 0 then findLoop cfg tr result_slice [] w
    else (.ret none, w)
  else (.ret none, w)

/-- The characters with a meaning of their own in the regexp syntax. -/
def regexMeta : List Char := "\\.+*?()|[]\x7b\x7d^$".data

/-- Parsing an identifier spliced into a pattern: a text without special characters
is the literal text. Other texts are outside the fragment modelled here (`none`). -/
def parseLiteral (text : String) : Option Regex :=
  if text.data.all (fun c => !regexMeta.contains c) then some (Regex.str text.data) else none

/-- The pattern `(STARTS|BEGINS)\s` followed by the pattern of the identifier. -/
def startRegex (idRe : Regex) : Regex :=
  .cat (.cat (.cap 1 (.alt (Regex.str "STARTS".data) (Regex.str "BEGINS".data))) (.perl .space)) idRe

/-- The pattern `(COMPLETES|FINISHES)\s` followed by the pattern of the identifier. -/
def completeRegex (idRe : Regex) : Regex :=
  .cat (.cat (.cap 1 (.alt (Regex.str "COMPLETES".data) (Regex.str "FINISHES".data))) (.perl .space)) idRe

/-- `checkForStatus`: whether the message starts, and whether it completes, the
artifact (`none`: the identifier is outside the fragment of `parseLiteral`). -/
def checkForStatus (message artifactID : String) : Option (Bool × Bool) :=
  match parseLiteral artifactID with
  | none => none
  | some idRe =>
    let start := if MatchString (startRegex idRe) message then true else false
    let complete := if MatchString (completeRegex idRe) message then true else false
    some (start, complete)

/-- The body of a state update. -/
def updatePayload (state : String) : Json :=
  .obj [("HierarchicalRequirement", .obj [("ScheduleState", .str state)])]

/-- `UpdateState`: the error it returns (`none` is `nil`). The reference is the URL of
the request; when it does not parse `http.NewRequest` returns a nil request, its error
is dropped, and `DecorateRequest` dereferences the nil request: a panic before
anything is sent. -/
def UpdateState (up : URLParse) (cfg : Config) (tr : Tracker) (ref state : String) (w : World) :
    Outcome (Option GoError) × World :=
  if up ref then
    match doRequest tr (postRequest cfg ref (updatePayload state)) w with
    | (.transportError, w1) => (.ret (some .transport), w1)
    | (.response b, w1) =>
      match b.asUpdate with
      | none => (.ret (some .decode), w1)
      | some updateResult =>
        if updateResult.OperationResult.Object.ScheduleState != state then
          (.ret (some (.msg "failed to update state")), w1)
        else (.ret none, w1)
  else (.panic, w)

/-- The body of a change-create request (the keys of a Go map are encoded sorted). -/
def changeBody (action changeset path uri : String) : Json :=
  .obj [("Change", .obj [("Action", .str action), ("Changeset", .str changeset),
    ("PathAndFilename", .str path), ("Uri", .str uri)])]

/-- `AddChange`: one change of a changeset. -/
def AddChange (cfg : Config) (tr : Tracker) (action changeset path uri : String) (w : World) :
    Option GoError × World :=
  match doRequest tr
      (postRequest cfg (cfg.RallyURL ++ "/slm/webservice/v2.0/change/create")
        (changeBody action changeset path uri)) w with
  | (.transportError, w1) => (some .transport, w1)
  | (.response b, w1) =>
    match b.asCreate with
    | none => (some .decode, w1)
    | some _ => (none, w1)

/-- The user query of `AddChangeSet`. -/
def userRequest (cfg : Config) (author : String) : Request :=
  getRequest cfg (cfg.RallyURL ++ "/slm/webservice/v2.0/user") ("(UserName = " ++ author ++ ")")

/-- The assignment `userCache[author] = v`: it panics on the nil map. -/
def cacheStore (author v : String) (w : World) : Outcome Unit × World :=
  match w.userCache with
  | none => (.panic, w)
  | some es => (.ret (), { w with userCache := some (setEntry author v es) })

/-- The first block of `AddChangeSet`: the author's reference is looked up unless the
cache has an entry for the author. -/
def cacheUser (cfg : Config) (tr : Tracker) (author : String) (w : World) : Outcome Unit × World :=
  match w.userCache.get? author with
  | some _ => (.ret (), w)
  | none =>
    match doRequest tr (userRequest cfg author) w with
    | (.transportError, w1) => cacheStore author "" w1
    | (.response b, w1) =>
      match b.asQuery with
      | none => cacheStore author "" w1
      | some rallyresponse =>
        match rallyresponse.QueryResult.Results with
        | [r] => cacheStore author r.Ref w1
        | _ => cacheStore author "" w1

/-- The state `AddChangeSet` derives from the two results of `checkForStatus`. -/
def targetState (starts completes : Bool) : String :=
  let state := ""
  let state := if starts then "In-Progress" else state
  let state := if completes then "Completed" else state
  state

/-- The loop of `AddChangeSet` over the entries of `rallyRef`, in the order they are
visited: it collects the references and updates the state of the artifacts; the error
`UpdateState` returns is only printed, a panic of `UpdateState` ends the run. A key
outside the fragment of `parseLiteral` stops the run, as a pattern `MustCompile`
rejects does; the keys `FindRallyArtifact` produces are identifiers, inside it. -/
def stateLoop (up : URLParse) (cfg : Config) (tr : Tracker) (message : String) :
    List (String × String) → List Reference → World → Outcome (List Reference) × World
  | [], artifactRefs, w => (.ret artifactRefs, w)
  | (k, v) :: es, artifactRefs, w =>
    match checkForStatus message k with
    | none => (.panic, w)
    | some (starts, completes) =>
      let state := targetState starts completes
      if state != "" then
        match UpdateState up cfg tr v state w with
        | (.panic, w1) => (.panic, w1)
        | (.ret _, w1) => stateLoop up cfg tr message es (artifactRefs ++ [{ Ref := v }]) w1
      else
        stateLoop up cfg tr message es (artifactRefs ++ [{ Ref := v }]) w

/-- One of the three loops of `AddChangeSet` over the paths of a commit. -/
def changeLoop (cfg : Config) (tr : Tracker) (action changeSetRef repoURL branch : String) :
    List String → World → World
  | [], w => w
  | path :: paths, w =>
    changeLoop cfg tr action changeSetRef repoURL branch paths
      (AddChange cfg tr action changeSetRef path (repoURL ++ "/blob/" ++ branch ++ "/" ++ path) w).2

/-- The changeset `AddChangeSet` builds. -/
def buildChangeset (c : Commit) (scmrepo repoURL userRef : String) (artifactRefs : List Reference) :
    Changeset :=
  let changeSet : Changeset :=
    { SCMRepository := scmrepo, Revision := c.ID, Message := c.Message,
      Uri := repoURL ++ "/commit/" ++ c.ID, CommitTimestamp := c.Timestamp,
      Artifacts := [], Author := "" }
  let changeSet := if artifactRefs.length > 0 then { changeSet with Artifacts := artifactRefs } else changeSet
  let changeSet := if userRef != "" then { changeSet with Author := userRef } else changeSet
  changeSet

/-- The changeset-create request for a changeset. -/
def changesetRequest (cfg : Config) (changeSet : Changeset) : Request :=
  postRequest cfg (cfg.RallyURL ++ "/slm/webservice/v2.0/changeset/create")
    (.obj [("Changeset", marshalChangeset changeSet)])

/-- `AddChangeSet`: records one commit, the error it returns (`none` is `nil`). -/
def AddChangeSet (up : URLParse) (cfg : Config) (tr : Tracker) (ord : MapOrder) (c : Commit) (scmrepo : String)
    (rallyRef : GoMap) (repoURL branch : String) (w : World) : Outcome (Option GoError) × World :=
  let author := c.Author.Email
  match cacheUser cfg tr author w with
  | (.panic, w1) => (.panic, w1)
  | (.ret _, w1) =>
    match (if rallyRef.len > 0 then stateLoop up cfg tr c.Message (ord w1.log rallyRef.entries) [] w1
           else (.ret [], w1)) with
    | (.panic, w2) => (.panic, w2)
    | (.ret artifactRefs, w2) =>
      let userRef := w2.userCache.get author
      let changeSet := buildChangeset c scmrepo repoURL userRef artifactRefs
      match doRequest tr (changesetRequest cfg changeSet) w2 with
      | (.transportError, w3) => (.ret (some .transport), w3)
      | (.response b, w3) =>
        match b.asCreate with
        | none => (.ret (some .decode), w3)
        | some rallyCreateResponse =>
          let changeSetRef := rallyCreateResponse.CreateResult.Object.Ref
          if changeSetRef = "" then (.ret (some (.msg "unable to create changeset")), w3)
          else
            let w4 := changeLoop cfg tr "A" changeSetRef repoURL branch c.Added w3
            let w5 := changeLoop cfg tr "M" changeSetRef repoURL branch c.Modified w4
            let w6 := changeLoop cfg tr "R" changeSetRef repoURL branch c.Removed w5
            (.ret none, w6)

/-- The repository of a push event (the fields the service reads). -/
structure Repository where
  Name : String
  URL : String

/-- A push event (the fields the service reads). -/
structure PushEvent where
  Ref : String
  Commits : List Commit
  Repository : Repository

/-- The response of `ReceivePush` (its `Errors` member is never set). -/
structure PushResponse where
  Result : String
  deriving DecidableEq

/-- Go `strings.Split(s, "/")` on the characters of `s`. -/
def splitSlash : List Char → List (List Char)
  | [] => [[]]
  | c :: cs =>
    if c = '/' then [] :: splitSlash cs
    else
      match splitSlash cs with
      | seg :: segs => (c :: seg) :: segs
      | [] => [[c]]

/-- The branch `ReceivePush` takes from the ref of a push: the last element of the
split ref (the empty string if there were none). -/
def branchOf (ref : String) : String :=
  let splitRef := splitSlash ref.data
  if splitRef.length > 0 then
    match splitRef.getLast? with
    | some seg => String.mk seg
    | none => ""
  else ""

/-- The workspace query of `ValidateOrg`. -/
def workspaceRequest (cfg : Config) (orgname : String) : Request :=
  getRequest cfg (cfg.RallyURL ++ "/slm/webservice/v2.0/workspace") ("(name = " ++ orgname ++ ")")

/-- `ValidateOrg`: the reference of the workspace and whether it was found. -/
def ValidateOrg (cfg : Config) (tr : Tracker) (orgname : String) (w : World) :
    (String × Bool) × World :=
  match doRequest tr (workspaceRequest cfg orgname) w with
  | (.transportError, w1) => (("", false), w1)
  | (.response b, w1) =>
    match b.asQuery with
    | none => (("", false), w1)
    | some rallyresponse =>
      match rallyresponse.QueryResult.Results with
      | [r] => ((r.Ref, true), w1)
      | _ => (("", false), w1)

/-- The repository query of `GetOrCreateSCMRepository`. -/
def scmRepositoryRequest (cfg : Config) (repo : String) : Request :=
  getRequest cfg (cfg.RallyURL ++ "/slm/webservice/v2.0/scmrepository") ("(name = " ++ repo ++ ")")

/-- The body of the repository-create request (the keys of a Go map are encoded
sorted). -/
def scmCreateBody (repo repoURL workspace : String) : Json :=
  .obj [("SCMRepository", .obj [("Description", .str "GitHub-Service push Changesets"),
    ("Name", .str repo), ("SCMType", .str "GitHub"), ("Uri", .str repoURL),
    ("Workspace", .str workspace)])]

/-- The repository-create request of `GetOrCreateSCMRepository`. -/
def scmCreateRequest (cfg : Config) (repo repoURL workspace : String) : Request :=
  postRequest cfg (cfg.RallyURL ++ "/slm/webservice/v2.0/scmrepository" ++ "/create")
    (scmCreateBody repo repoURL workspace)

/-- `GetOrCreateSCMRepository`: the reference of the repository and the error
(`none` is `nil`). -/
def GetOrCreateSCMRepository (cfg : Config) (tr : Tracker) (repo repoURL workspace : String)
    (w : World) : (String × Option GoError) × World :=
  match doRequest tr (scmRepositoryRequest cfg repo) w with
  | (.transportError, w1) => (("", some .transport), w1)
  | (.response b, w1) =>
    match b.asQuery with
    | none => (("", some .decode), w1)
    | some rallyresponse =>
      match rallyresponse.QueryResult.Results with
      | [r] => ((r.Ref, none), w1)
      | _ =>
        match doRequest tr (scmCreateRequest cfg repo repoURL workspace) w1 with
        | (.transportError, w2) => (("", some .transport), w2)
        | (.response b2, w2) =>
          match b2.asCreate with
          | none => (("", some .decode), w2)
          | some rallyCreateResponse =>
            ((rallyCreateResponse.CreateResult.Object.Ref, none), w2)

/-- The loop of the goroutine of `ReceivePush` over the commits of the push: the
artifacts of each commit are resolved and its changeset is added; the error
`AddChangeSet` returns is dropped. A panic ends the goroutine. -/
def commitLoop (up : URLParse) (cfg : Config) (tr : Tracker) (ord : MapOrder) (scmrepo repoURL branch : String) :
    List Commit → World → Outcome Unit × World
  | [], w => (.ret (), w)
  | c :: cs, w =>
    match FindRallyArtifact cfg tr c w with
    | (.panic, w1) => (.panic, w1)
    | (.ret refs, w1) =>
      match AddChangeSet up cfg tr ord c scmrepo refs repoURL branch w1 with
      | (.panic, w2) => (.panic, w2)
      | (.ret _, w2) => commitLoop up cfg tr ord scmrepo repoURL branch cs w2

/-- The goroutine `ReceivePush` starts: the repository is looked up or created (an
error is only logged), the user cache is replaced by a new empty map, and the commits
are processed in their order. -/
def pushTask (up : URLParse) (cfg : Config) (tr : Tracker) (ord : MapOrder) (event : PushEvent)
    (repo repoURL branch workspaceRef : String) (w : World) : Outcome Unit × World :=
  match GetOrCreateSCMRepository cfg tr repo repoURL workspaceRef w with
  | ((scmrepo, _), w1) =>
    commitLoop up cfg tr ord scmrepo repoURL branch event.Commits { w1 with userCache := some [] }

/-- The arguments of the goroutine `ReceivePush` starts: what it captured of the push
and the workspace reference. -/
structure Spawned where
  repo : String
  repoURL : String
  branch : String
  workspaceRef : String
  deriving DecidableEq

/-- What `ReceivePush` gives back: the response, the error (`none` is `nil`), and the
goroutine it started, if any. -/
structure PushResult where
  response : PushResponse
  err : Option GoError
  started : Option Spawned
  deriving DecidableEq

/-- `ReceivePush` up to its return: the branch, the repository name and URL are taken
from the event and the workspace is validated; when it is found the goroutine is
started and the push is answered at once. -/
def ReceivePush (cfg : Config) (tr : Tracker) (event : PushEvent) (w : World) :
    PushResult × World :=
  let branch := branchOf event.Ref
  let repo := event.Repository.Name
  let repoURL := event.Repository.URL
  match ValidateOrg cfg tr cfg.Workspace w with
  | ((_, false), w1) =>
    ({ response := { Result := "workspace not found" }, err := some (.msg "workspace not found"),
       started := none }, w1)
  | ((workspaceRef, true), w1) =>
    ({ response := { Result := "created" }, err := none,
       started := some { repo := repo, repoURL := repoURL, branch := branch,
                         workspaceRef := workspaceRef } }, w1)

/-- A push handled to the end with nothing else running: `ReceivePush`, then the
goroutine it started, if any. -/
def handlePush (up : URLParse) (cfg : Config) (tr : Tracker) (ord : MapOrder) (event : PushEvent) (w : World) :
    PushResult × Outcome Unit × World :=
  match ReceivePush cfg tr event w with
  | (res, w1) =>
    match res.started with
    | none => (res, .ret (), w1)
    | some g =>
      match pushTask up cfg tr ord event g.repo g.repoURL g.branch g.workspaceRef w1 with
      | (out, w2) => (res, out, w2)

/-! ## Definitions used in the statements -/

/-- What the preferred match of `\d+` leaves of an input. -/
def afterDigits (s : List Char) (caps : Caps) : Option (List Char × Caps) :=
  match s with
  | [] => none
  | d :: t => if d.isDigit then some (t.dropWhile Char.isDigit, caps) else none

/-- The prefixes an identifier can have. -/
def artifactPrefixes : List String := ["D", "DE", "DS", "TA", "TC", "S", "US"]

/-- An identifier begins at the start of `s`: a prefix, then a digit. -/
def IdStart (s : List Char) : Prop :=
  ∃ p ∈ artifactPrefixes, ∃ d t, d.isDigit = true ∧ s = p.data ++ d :: t

/-- A match of the identifier pattern: its prefix and its digits. -/
structure IdMatch where
  pfx : String
  digits : List Char

/-- The identifier of a match. -/
def IdMatch.id (m : IdMatch) : String := String.mk (m.pfx.data ++ m.digits)

/-- The submatch slice of a match: the identifier and the captured prefix. -/
def IdMatch.toSubmatch (m : IdMatch) : List String := [m.id, m.pfx]

/-- The leftmost non-overlapping matches of a text, in the words of the description:
where no identifier begins the scan moves on by one character; where one begins it is
a prefix followed by all the digits that follow, and the scan goes on after them. -/
inductive Scan : List Char → List IdMatch → Prop where
  | done : Scan [] []
  | skip (c : Char) (cs : List Char) (ms : List IdMatch) :
      ¬ IdStart (c :: cs) → Scan cs ms → Scan (c :: cs) ms
  | take (p : String) (ds rest : List Char) (ms : List IdMatch) :
      p ∈ artifactPrefixes → ds ≠ [] → (∀ d ∈ ds, d.isDigit = true) →
      (∀ d t, rest = d :: t → d.isDigit = false) → Scan rest ms →
      Scan (p.data ++ ds ++ rest) (⟨p, ds⟩ :: ms)

/-- The lookup requests for a list of matches, one for each, in their order. -/
def lookupRequests (cfg : Config) (ms : List IdMatch) : List Request :=
  ms.map fun m => artifactRequest cfg m.id m.pfx

/-- The text contains a substring of the form of an identifier: a prefix followed by
at least one digit. -/
def ContainsId (s : List Char) : Prop :=
  ∃ pre p ds post, p ∈ artifactPrefixes ∧ ds ≠ [] ∧ (∀ d ∈ ds, d.isDigit = true) ∧
    s = pre ++ p.data ++ ds ++ post

/-- The tracker collection of a prefix, as the description lists them. -/
def collectionOf (p : String) : String :=
  if p = "D" ∨ p = "DE" then "defect"
  else if p = "DS" then "defectsuite"
  else if p = "TA" then "task"
  else if p = "TC" then "testcase"
  else if p = "S" ∨ p = "US" then "hierarchicalrequirement"
  else ""

/-- What a lookup finds: the reference of the first result of a decodable response
with a non-zero result count. -/
def Reply.found : Reply → Option String
  | .transportError => none
  | .response b =>
    match b.asQuery with
    | none => none
    | some rr =>
      if rr.QueryResult.TotalResultCount = 0 then none
      else rr.QueryResult.Results.head?.map fun r => r.Ref

/-- Every decodable response with a non-zero result count carries a result. -/
def WellFormed (tr : Tracker) : Prop :=
  ∀ log b rr, tr log = .response b → b.asQuery = some rr →
    rr.QueryResult.TotalResultCount ≠ 0 → rr.QueryResult.Results ≠ []

/-- The lookups of a run, in their order: the identifier looked up and what was
found, the tracker answering the requests sent so far. -/
def lookupTrace (cfg : Config) (tr : Tracker) : List IdMatch → List Request →
    List (String × Option String)
  | [], _ => []
  | m :: ms, log =>
    (m.id, (tr (log ++ [artifactRequest cfg m.id m.pfx])).found) ::
      lookupTrace cfg tr ms (log ++ [artifactRequest cfg m.id m.pfx])

/-- What the last lookup for `id` that found something found. -/
def lastHit (id : String) : List (String × Option String) → Option String
  | [] => none
  | e :: es =>
    match lastHit id es with
    | some r => some r
    | none => if e.1 = id then e.2 else none

/-- The whitespace characters of the pattern `\s`: tab, line feed, form feed, carriage
return and space. -/
def isWhitespace (c : Char) : Prop :=
  c = '\t' ∨ c = '\n' ∨ c = '\x0c' ∨ c = '\r' ∨ c = ' '

/-- The message contains one of the keywords, immediately followed by one whitespace
character, immediately followed by the identifier. -/
def Signals (keywords : List String) (message id : String) : Prop :=
  ∃ pre kw ws post, kw ∈ keywords ∧ isWhitespace ws ∧
    message.data = pre ++ kw.data ++ ws :: (id.data ++ post)

/-- The pattern `(k1|k2)\s` followed by a literal text. -/
def keywordRegex (k1 k2 : List Char) (idRe : Regex) : Regex :=
  .cat (.cat (.cap 1 (.alt (Regex.str k1) (Regex.str k2))) (.perl .space)) idRe

/-- The state-update request for a reference and a state. -/
def updateRequest (cfg : Config) (ref state : String) : Request :=
  postRequest cfg ref (updatePayload state)

/-- The change-create request for a path. -/
def changeRequest (cfg : Config) (action changeSetRef repoURL branch path : String) : Request :=
  postRequest cfg (cfg.RallyURL ++ "/slm/webservice/v2.0/change/create")
    (changeBody action changeSetRef path (repoURL ++ "/blob/" ++ branch ++ "/" ++ path))

/-- The state-update requests for the entries of a map, in the order they are visited:
one for each entry whose derived state is not empty. -/
def updateRequests (cfg : Config) (message : String) (es : List (String × String)) : List Request :=
  es.flatMap fun e =>
    match checkForStatus message e.1 with
    | some (starts, completes) =>
      if targetState starts completes = "" then []
      else [updateRequest cfg e.2 (targetState starts completes)]
    | none => []

/-- The entries `AddChangeSet` visits: none when the map is empty. -/
def visited (ord : MapOrder) (rallyRef : GoMap) (log : List Request) : List (String × String) :=
  if rallyRef.len > 0 then ord log rallyRef.entries else []

/-- The identifiers of a map are made of letters and digits. -/
def AlnumKeys (es : List (String × String)) : Prop :=
  ∀ e ∈ es, e.1.data.all Char.isAlphanum = true

/-- What the cache block of `AddChangeSet` stores for a reply to the user query. -/
def userRefOf : Reply → String
  | .transportError => ""
  | .response b =>
    match b.asQuery with
    | none => ""
    | some rr =>
      match rr.QueryResult.Results with
      | [r] => r.Ref
      | _ => ""

/-- The world after the cache block of `AddChangeSet`. -/
def afterCache (cfg : Config) (tr : Tracker) (c : Commit) (w : World) : World :=
  (cacheUser cfg tr c.Author.Email w).2

/-- The entries of `rallyRef` in the order `AddChangeSet` visits them. -/
def commitEntries (cfg : Config) (tr : Tracker) (ord : MapOrder) (c : Commit) (rallyRef : GoMap)
    (w : World) : List (String × String) :=
  visited ord rallyRef (afterCache cfg tr c w).log

/-- The world in which `AddChangeSet` sends the changeset-create request: after the
cache block and the state updates. -/
def beforeChangeset (cfg : Config) (tr : Tracker) (ord : MapOrder) (c : Commit) (rallyRef : GoMap)
    (w : World) : World :=
  { log := (afterCache cfg tr c w).log ++
      updateRequests cfg c.Message (commitEntries cfg tr ord c rallyRef w),
    userCache := (afterCache cfg tr c w).userCache }

/-- The changeset `AddChangeSet` sends for a commit. -/
def commitChangeset (cfg : Config) (tr : Tracker) (ord : MapOrder) (c : Commit)
    (scmrepo : String) (rallyRef : GoMap) (repoURL : String) (w : World) : Changeset :=
  buildChangeset c scmrepo repoURL ((afterCache cfg tr c w).userCache.get c.Author.Email)
    ((commitEntries cfg tr ord c rallyRef w).map fun e => { Ref := e.2 })

/-- The change-create requests of a commit: the added, the modified, then the removed
paths. -/
def changeRequests (cfg : Config) (c : Commit) (changeSetRef repoURL branch : String) :
    List Request :=
  c.Added.map (changeRequest cfg "A" changeSetRef repoURL branch) ++
  c.Modified.map (changeRequest cfg "M" changeSetRef repoURL branch) ++
  c.Removed.map (changeRequest cfg "R" changeSetRef repoURL branch)

/-- A reference that is not a URL: `url.Parse` rejects the escape `%zz` of its path. -/
def badRef : String := "https://rally.example/obj/%zz"

/-- The URL parsing of the examples: it rejects `badRef`, as `url.Parse` does, and
accepts the other URLs of the examples. -/
def exampleParse : URLParse := fun url => url != badRef

/-- `AddChangeSet` up to its changeset-create request: the cache block, then the loop
over the resolved artifacts. It gives the references collected and the world in which
the changeset-create request is sent, or a panic. -/
def untilChangeset (up : URLParse) (cfg : Config) (tr : Tracker) (ord : MapOrder) (c : Commit)
    (rallyRef : GoMap) (w : World) : Outcome (List Reference) × World :=
  match cacheUser cfg tr c.Author.Email w with
  | (.panic, w1) => (.panic, w1)
  | (.ret _, w1) =>
    if rallyRef.len > 0 then stateLoop up cfg tr c.Message (ord w1.log rallyRef.entries) [] w1
    else (.ret [], w1)

/-- The changeset of a commit, in the words of the description: the repository
reference, the commit id, the commit message, the commit URL, the commit timestamp, the
user reference and the references of the artifacts. -/
def changesetOf (c : Commit) (scmrepo repoURL userRef : String) (artifactRefs : List Reference) :
    Changeset :=
  { SCMRepository := scmrepo, Revision := c.ID, Message := c.Message,
    Uri := repoURL ++ "/commit/" ++ c.ID, CommitTimestamp := c.Timestamp,
    Author := userRef, Artifacts := artifactRefs }

/-- The names of the members a changeset can have in a request body. -/
def changesetMembers : List String :=
  ["Artifacts", "Author", "CommitTimestamp", "Message", "Revision", "SCMRepository", "Uri"]

/-- Every reference a lookup of the tracker finds parses as a URL. -/
def FoundRefsParse (up : URLParse) (tr : Tracker) : Prop :=
  ∀ log ref, (tr log).found = some ref → up ref = true

/-- A configuration. -/
def cfg0 : Config :=
  { RallyURL := "https://rally.example", APIToken := "1234abcde", Workspace := "Comcast" }

/-- A process that has sent nothing, its user cache allocated and empty. -/
def world0 : World := { log := [], userCache := some [] }

/-- A commit with one added, two modified and one removed path. -/
def commitOf (message : String) : Commit :=
  { ID := "abc123", Message := message, Timestamp := "2019-01-01T00:00:00Z",
    Author := { Name := "Dev", Email := "dev@example.com" },
    Added := ["a.go"], Modified := ["m1.go", "m2.go"], Removed := ["r.go"] }

/-- A tracker whose responses report one result and carry none. -/
def countOnlyTracker : Tracker := fun _ =>
  .response { asQuery := some ⟨⟨1, []⟩⟩, asCreate := none, asUpdate := none }

/-- A tracker that finds one object for every query and creates every object. -/
def okTracker : Tracker := fun _ =>
  .response { asQuery := some ⟨⟨1, [⟨"https://rally.example/obj/1"⟩]⟩⟩,
              asCreate := some ⟨⟨⟨"https://rally.example/obj/2"⟩⟩⟩, asUpdate := none }

/-- A tracker that answers nothing. -/
def downTracker : Tracker := fun _ => .transportError

/-- The entries of a map visited in the order they are stored. -/
def storedOrder : MapOrder := fun _ es => es

/-- The query of the newest request. -/
def lastQuery (log : List Request) : Option String :=
  match log.getLast? with
  | some r => r.query
  | none => none

/-- A tracker that knows the artifacts of the given identifiers, and no other. -/
def knowingTracker (known : List String) : Tracker := fun log =>
  if (known.map fun id => some ("(FormattedID = " ++ id ++ ")")).contains (lastQuery log) then
    .response { asQuery := some ⟨⟨1, [⟨"https://rally.example/obj/1"⟩]⟩⟩,
                asCreate := none, asUpdate := none }
  else
    .response { asQuery := some ⟨⟨0, []⟩⟩, asCreate := none, asUpdate := none }

/-- The resolved artifacts of the concrete commit. -/
def refs0 : GoMap := some [("US1", "https://rally.example/obj/1")]

/-- The results of a query reply: none for a transport failure or an undecodable
response. -/
def Reply.results : Reply → Option (List RallyResult)
  | .transportError => none
  | .response b =>
    match b.asQuery with
    | none => none
    | some rr => some rr.QueryResult.Results

/-- A push of two commits to the branch `master`. -/
def event0 : PushEvent :=
  { Ref := "refs/heads/master",
    Commits := [commitOf "STARTS US1 - fix", commitOf "Fix the build"],
    Repository := { Name := "r", URL := "https://github.com/o/r" } }

/-- A tracker that finds nothing and creates objects without a reference. -/
def emptyRefTracker : Tracker := fun _ =>
  .response { asQuery := some ⟨⟨0, []⟩⟩, asCreate := some ⟨⟨⟨""⟩⟩⟩, asUpdate := none }

/-- A tracker that finds two objects for every query. -/
def twoResultsTracker : Tracker := fun _ =>
  .response { asQuery := some ⟨⟨2, [⟨"https://rally.example/obj/1"⟩,
                ⟨"https://rally.example/obj/2"⟩]⟩⟩,
              asCreate := none, asUpdate := none }

/-- A tracker whose responses cannot be decoded. -/
def garbageTracker : Tracker := fun _ =>
  .response { asQuery := none, asCreate := none, asUpdate := none }

/-- A tracker like `okTracker`, except that its response to the lookup of `US1` reports
one result and carries none. -/
def missingResultTracker : Tracker := fun log =>
  if lastQuery log = some "(FormattedID = US1)" then countOnlyTracker log else okTracker log

/-- A tracker like `okTracker`, except that the lookup of `US1` finds the reference
`badRef`. -/
def badRefTracker : Tracker := fun log =>
  if lastQuery log = some "(FormattedID = US1)" then
    .response { asQuery := some ⟨⟨1, [⟨badRef⟩]⟩⟩, asCreate := none, asUpdate := none }
  else okTracker log

/-- A changeset-create request: a request whose body is an object with the one member
`Changeset`. -/
def Request.isChangesetCreate (r : Request) : Bool :=
  match r.body with
  | some (.obj [(k, _)]) => k == "Changeset"
  | _ => false

/-- The requests the service sends for a push to a repository and a branch: the
workspace query, the repository query and create, the artifact query, the user query,
the state update, the changeset create and the change create. -/
inductive ServiceRequest (cfg : Config) (repoURL branch : String) : Request → Prop where
  | workspace (orgname : String) : ServiceRequest cfg repoURL branch (workspaceRequest cfg orgname)
  | repository (repo : String) : ServiceRequest cfg repoURL branch (scmRepositoryRequest cfg repo)
  | repositoryCreate (repo url workspace : String) :
      ServiceRequest cfg repoURL branch (scmCreateRequest cfg repo url workspace)
  | artifact (artifactID artifactType : String) :
      ServiceRequest cfg repoURL branch (artifactRequest cfg artifactID artifactType)
  | user (author : String) : ServiceRequest cfg repoURL branch (userRequest cfg author)
  | update (ref state : String) : ServiceRequest cfg repoURL branch (updateRequest cfg ref state)
  | changeset (cs : Changeset) : ServiceRequest cfg repoURL branch (changesetRequest cfg cs)
  | change (action ref path : String) :
      ServiceRequest cfg repoURL branch (changeRequest cfg action ref repoURL branch path)

/-- The world `w2` comes from `w` by sending requests that all satisfy `P`. -/
def Sends (P : Request → Prop) (w w2 : World) : Prop :=
  ∃ new, w2.log = w.log ++ new ∧ ∀ q ∈ new, P q

/-- The `Uri` member of the body of a change-create request (none for other
requests). -/
def Request.changeUri (q : Request) : Option String :=
  match q.body with
  | some (.obj [(k, change)]) =>
    if k == "Change" then
      match change.field "Uri" with
      | some (.str uri) => some uri
      | _ => none
    else none
  | _ => none

/-- A push of one commit to the branch `feature/x`. -/
def event2 : PushEvent :=
  { Ref := "refs/heads/feature/x",
    Commits := [commitOf "Fix the build"],
    Repository := { Name := "r", URL := "https://github.com/o/r" } }

/-- A request carries the authentication header: its one header line is `ZSESSIONID`
with the API token of the configuration. -/
def Authenticated (cfg : Config) (q : Request) : Prop :=
  q.header = [("ZSESSIONID", cfg.APIToken)]

/-- The URL of the newest request. -/
def lastUrl (log : List Request) : Option String :=
  match log.getLast? with
  | some r => some r.url
  | none => none

/-- A tracker that does not answer the repository query and answers everything else as
`inner` does. -/
def repositoryDownTracker (inner : Tracker) : Tracker := fun log =>
  if lastUrl log = some "https://rally.example/slm/webservice/v2.0/scmrepository" then
    .transportError
  else inner log

/-- Whether the changeset of a changeset-create request has the member `key`. -/
def Request.changesetHas (q : Request) (key : String) : Bool :=
  match q.body with
  | some body =>
    match body.field "Changeset" with
    | some cs => (cs.field key).isSome
    | none => false
  | none => false

/-! ## The transport (`rally/transport.go`, `rally/middleware.go`, `rally/endpoints.go`) -/

/-- The `error` values that reach `encodeError`: the five values `transport.go`
declares, compared by identity, and any other value. -/
inductive HttpError where
  | ErrBadRouting
  | ErrInvalidArgument
  | ErrUnauthorized
  | ErrInvalidToken
  | ErrForbidden
  | other (e : GoError)
  deriving DecidableEq

/-- `encodeError`: the status code it writes. -/
def encodeError (err : HttpError) : Nat :=
  let code := 500
  match err with
  | .ErrInvalidArgument => 400
  | .ErrUnauthorized => 401
  | .ErrForbidden => 403
  | .ErrInvalidToken => 401
  | _ => code

/-- A request handed to an endpoint: a push event or a value of another type. -/
inductive EndpointRequest where
  | pushEvent (event : PushEvent)
  | otherValue

/-- `decodePushEventRequest`, given what decoding the body as a push event yields
(`none`: the decoder returns an error). -/
def decodePushEventRequest (decoded : Option PushEvent) : Except HttpError EndpointRequest :=
  match decoded with
  | none => .error .ErrInvalidArgument
  | some event => .ok (.pushEvent event)

/-- What an endpoint returns: the result of `ReceivePush` if it was called, and the
error (`none` is `nil`). -/
structure EndpointResult where
  result : Option PushResult
  err : Option HttpError

/-- `MakePushEventEndpoint`: the endpoint of the service. -/
def MakePushEventEndpoint (cfg : Config) (tr : Tracker) (request : EndpointRequest) (w : World) :
    EndpointResult × World :=
  match request with
  | .otherValue => ({ result := none, err := some .ErrInvalidArgument }, w)
  | .pushEvent req =>
    match ReceivePush cfg tr req w with
    | (res, w1) => ({ result := some res, err := res.err.map HttpError.other }, w1)

/-- The fields of `Authorizor` the check reads. -/
structure Authorizor where
  SecretToken : String
  SignatureRequired : Bool

/-- The library functions `CheckHMAC` calls: `json.Marshal` of a push event, and `Verify`
of the HMAC-SHA1 signing method, which takes the signed text, the signature and the key
and returns an error unless the signature is the one of the text under the key. -/
structure Signing where
  marshal : PushEvent → Except GoError String
  verify : String → String → String → Option GoError

/-- `CheckHMAC`: `signature` is the string the context holds for `X-Hub-Signature`, if
any. The type assertion on the request panics for a value that is not a push event. -/
def CheckHMAC (sg : Signing) (a : Authorizor) (signature : Option String)
    (request : EndpointRequest) : Outcome (Option GoError) :=
  let ok := signature.isSome
  let signature := signature.getD ""
  if !ok && !a.SignatureRequired then .ret none
  else
    match request with
    | .otherValue => .panic
    | .pushEvent event =>
      match sg.marshal event with
      | .error err => .ret (some err)
      | .ok requestBytes =>
        match sg.verify requestBytes signature a.SecretToken with
        | some err => .ret (some err)
        | none => .ret none

/-- `ValidatePayload`: the middleware that runs `CheckHMAC` before the next endpoint. -/
def ValidatePayload (sg : Signing) (a : Authorizor) (signature : Option String)
    (next : EndpointRequest → World → EndpointResult × World)
    (request : EndpointRequest) (w : World) : Outcome EndpointResult × World :=
  match CheckHMAC sg a signature request with
  | .panic => (.panic, w)
  | .ret (some err) => (.ret { result := none, err := some (.other err) }, w)
  | .ret none =>
    match next request w with
    | (res, w1) => (.ret res, w1)

/-- `HTTPToContext` of the server: the value of the header `X-Hub-Signature` is put
into the context unless it is empty. -/
def HTTPToContext (header : String) : Option String :=
  if header.length = 0 then none else some header

/-- What the server answers to a request: the status code, and the result of
`ReceivePush` if it was called. -/
structure Served where
  status : Nat
  result : Option PushResult

/-- The handler `MakeRoutes` builds for a push: the header is moved to the context, the
body is decoded, the middleware and the endpoint run; an error of the decoder or of the
endpoint is written by `encodeError`, and a response without error with the status
200. -/
def servePush (sg : Signing) (a : Authorizor) (cfg : Config) (tr : Tracker) (header : String)
    (decoded : Option PushEvent) (w : World) : Outcome Served × World :=
  let signature := HTTPToContext header
  match decodePushEventRequest decoded with
  | .error err => (.ret { status := encodeError err, result := none }, w)
  | .ok request =>
    match ValidatePayload sg a signature (MakePushEventEndpoint cfg tr) request w with
    | (.panic, w1) => (.panic, w1)
    | (.ret res, w1) =>
      match res.err with
      | some err => (.ret { status := encodeError err, result := res.result }, w1)
      | none => (.ret { status := 200, result := res.result }, w1)

/-- A stand-in for the signing method in the examples: the signature of a text under a
key is the key, a colon and the text; a push event is encoded as its ref. -/
def exampleSigning : Signing :=
  { marshal := fun event => .ok event.Ref,
    verify := fun text signature key =>
      if signature = key ++ ":" ++ text then none else some (.msg "signature is invalid") }

/-- The signature `exampleSigning` accepts for a text and a key. -/
def exampleSign (text key : String) : String := key ++ ":" ++ text

/-- An authorizor that requires a signature. -/
def auth0 : Authorizor := { SecretToken := "secret", SignatureRequired := true }

/-- An authorizor that does not require a signature. -/
def auth1 : Authorizor := { SecretToken := "secret", SignatureRequired := false }

/-! ## Facts about the regular expression engine -/

theorem runRe_str (p s : List Char) (caps : Caps) :
    runRe (Regex.str p) s caps = if p <+: s then [(s.drop p.length, caps)] else [] := by
  induction p generalizing s with
  | nil => simp [Regex.str, runRe]
  | cons c cs ih =>
    cases s with
    | nil => cases cs <;> simp [Regex.str, runRe]
    | cons x xs =>
      cases cs with
      | nil =>
        by_cases hx : x = c
        · subst hx; simp [Regex.str, runRe]
        · have : ¬ ([c] <+: x :: xs) := by
            rintro ⟨t, ht⟩; simp at ht; exact hx ht.1.symm
          simp [Regex.str, runRe, hx, this]
      | cons c2 cs2 =>
        by_cases hx : x = c
        · subst hx
          simp only [Regex.str, runRe, if_true, List.flatMap_cons, List.flatMap_nil,
            List.append_nil]
          rw [show Regex.str (c2 :: cs2) = Regex.str (c2 :: cs2) from rfl, ih xs]
          simp [List.cons_prefix_cons]
        · have : ¬ (c :: c2 :: cs2 <+: x :: xs) := by
            rintro ⟨t, ht⟩; simp at ht; exact hx ht.1.symm
          simp [Regex.str, runRe, hx, this]

theorem plusLoop_digit_head (step : List Char → Caps → List (List Char × Caps))
    (hstep : ∀ s caps, step s caps =
      match s with
      | x :: xs => if x.isDigit then [(xs, caps)] else []
      | [] => [])
    (n : Nat) (s : List Char) (caps : Caps) (hn : s.length < n) :
    (plusLoop step n s caps).head? = afterDigits s caps := by
  induction n generalizing s with
  | zero => omega
  | succ n ih =>
    cases s with
    | nil => simp [plusLoop, hstep, afterDigits]
    | cons d t =>
      by_cases hd : d.isDigit = true
      · simp only [plusLoop, hstep, hd, if_true, List.flatMap_cons,
          List.flatMap_nil, List.append_nil, List.length_cons, Nat.lt_succ_self]
        rw [List.head?_append, ih t (by simpa using hn)]
        cases t with
        | nil => simp [afterDigits, hd]
        | cons d2 t2 =>
          by_cases hd2 : d2.isDigit = true
          · simp [afterDigits, hd, hd2, List.dropWhile]
          · simp [afterDigits, hd, hd2, List.dropWhile]
      · simp [plusLoop, hstep, hd, afterDigits]

theorem runRe_digit_step (s : List Char) (caps : Caps) :
    runRe (.perl .digit) s caps =
      match s with
      | x :: xs => if x.isDigit then [(xs, caps)] else []
      | [] => [] := by
  cases s <;> simp [runRe, PerlClass.test]

theorem runRe_digits_nil (caps : Caps) : runRe digitsRe [] caps = [] := by
  simp [digitsRe, runRe, plusLoop]

theorem runRe_digits_not (d : Char) (t : List Char) (caps : Caps) (hd : d.isDigit = false) :
    runRe digitsRe (d :: t) caps = [] := by
  simp [digitsRe, runRe, plusLoop, PerlClass.test, hd]

theorem runRe_digits_head (d : Char) (t : List Char) (caps : Caps) (hd : d.isDigit = true) :
    (runRe digitsRe (d :: t) caps).head? = some (t.dropWhile Char.isDigit, caps) := by
  have h := plusLoop_digit_head (runRe (.perl .digit)) runRe_digit_step
    ((d :: t).length + 1) (d :: t) caps (Nat.lt_succ_self _)
  simpa [digitsRe, runRe, hd, afterDigits] using h

theorem runRe_cat (a b : Regex) (s : List Char) (caps : Caps) :
    runRe (.cat a b) s caps = (runRe a s caps).flatMap fun r => runRe b r.1 r.2 := by
  simp [runRe]

theorem runRe_alt (a b : Regex) (s : List Char) (caps : Caps) :
    runRe (.alt a b) s caps = runRe a s caps ++ runRe b s caps := by
  simp [runRe]

theorem runRe_cap (i : Nat) (a : Regex) (s : List Char) (caps : Caps) :
    runRe (.cap i a) s caps =
      (runRe a s caps).map fun r => (r.1, (i, s.take (s.length - r.1.length)) :: r.2) := by
  simp [runRe]

theorem exec_idStart (p : String) (hp : p ∈ artifactPrefixes) (d : Char) (t : List Char)
    (hd : d.isDigit = true) :
    artifactRegex.exec (p.data ++ d :: t) = some (t.dropWhile Char.isDigit, [(1, p.data)]) := by
  have hE : d ≠ 'E' := by rintro rfl; simp at hd
  have hS : d ≠ 'S' := by rintro rfl; simp at hd
  simp only [artifactPrefixes, List.mem_cons, List.mem_singleton, List.mem_nil_iff, or_false] at hp
  have hE2 : ¬ ('E' = d) := fun h => hE h.symm
  have hS2 : ¬ ('S' = d) := fun h => hS h.symm
  have nE : ∀ (u : List Char) (caps : Caps), runRe digitsRe ('E' :: u) caps = [] :=
    fun u caps => runRe_digits_not 'E' u caps (by decide)
  have nS : ∀ (u : List Char) (caps : Caps), runRe digitsRe ('S' :: u) caps = [] :=
    fun u caps => runRe_digits_not 'S' u caps (by decide)
  have hh := fun caps => runRe_digits_head d t caps hd
  rcases hp with rfl | rfl | rfl | rfl | rfl | rfl | rfl <;>
    simp only [Regex.exec, artifactRegex, runRe_cat, runRe_alt, runRe_cap, runRe_str] <;>
    simp [hE2, hS2, nE, nS, hh]

theorem mem_runRe_digits (r : List Char × Caps) (u : List Char) (caps : Caps)
    (h : r ∈ runRe digitsRe u caps) : ∃ d t, u = d :: t ∧ d.isDigit = true := by
  cases u with
  | nil => simp [runRe_digits_nil] at h
  | cons d t =>
    by_cases hd : d.isDigit = true
    · exact ⟨d, t, rfl, hd⟩
    · simp [runRe_digits_not d t caps (by simpa using hd)] at h

theorem mem_prefix_branch (p : String) (hp : p ∈ artifactPrefixes) (s : List Char)
    (r0 : List Char × Caps) (d : Char) (t : List Char) (hd : d.isDigit = true)
    (h0 : r0 ∈ (if p.data <+: s then [(s.drop p.data.length, ([] : Caps))] else []))
    (ht : r0.1 = d :: t) : IdStart s := by
  split_ifs at h0 with hpre
  · obtain ⟨u, rfl⟩ := hpre
    simp only [List.mem_singleton] at h0
    subst h0
    simp only [List.drop_left] at ht
    exact ⟨p, hp, d, t, hd, by rw [ht]⟩
  · simp at h0

theorem exec_not_idStart (s : List Char) (h : ¬ IdStart s) : artifactRegex.exec s = none := by
  unfold Regex.exec
  cases hrun : runRe artifactRegex s [] with
  | nil => rfl
  | cons r rs =>
    exfalso
    apply h
    have hr : r ∈ runRe artifactRegex s [] := by rw [hrun]; exact List.mem_cons_self _ _
    simp only [artifactRegex, runRe_cat, runRe_alt, runRe_cap, runRe_str, List.mem_flatMap,
      List.mem_map, List.mem_append] at hr
    obtain ⟨r1, ⟨r0, hr0, rfl⟩, hr⟩ := hr
    obtain ⟨d, t, ht, hd⟩ := mem_runRe_digits _ _ _ hr
    simp only at ht
    rcases hr0 with h0 | h0 | h0 | h0 | h0 | h0 | h0
    · exact mem_prefix_branch "D" (by decide) s r0 d t hd h0 ht
    · exact mem_prefix_branch "DE" (by decide) s r0 d t hd h0 ht
    · exact mem_prefix_branch "DS" (by decide) s r0 d t hd h0 ht
    · exact mem_prefix_branch "TA" (by decide) s r0 d t hd h0 ht
    · exact mem_prefix_branch "TC" (by decide) s r0 d t hd h0 ht
    · exact mem_prefix_branch "S" (by decide) s r0 d t hd h0 ht
    · exact mem_prefix_branch "US" (by decide) s r0 d t hd h0 ht

theorem allMatches_of_exec_none (re : Regex) (c : Char) (cs : List Char) (adj : Bool)
    (h : re.exec (c :: cs) = none) :
    allMatches re (c :: cs) 0 adj = allMatches re cs 0 false := by
  simp [allMatches, h]

theorem allMatches_of_exec_some (re : Regex) (c : Char) (cs : List Char) (adj : Bool)
    (r : List Char × Caps) (h : re.exec (c :: cs) = some r)
    (hlen : (c :: cs).length - r.1.length ≠ 0) :
    allMatches re (c :: cs) 0 adj =
      submatch re (c :: cs) r.1 r.2 ::
        allMatches re cs ((c :: cs).length - r.1.length - 1) true := by
  simp only [allMatches, h]
  rw [if_neg hlen]

theorem allMatches_skip (re : Regex) (pre rest : List Char) :
    allMatches re (pre ++ rest) pre.length true = allMatches re rest 0 true := by
  induction pre with
  | nil => rfl
  | cons c cs ih => simpa [allMatches] using ih

theorem prefix_data_cons (p : String) (hp : p ∈ artifactPrefixes) :
    ∃ a as, p.data = a :: as := by
  simp only [artifactPrefixes, List.mem_cons, List.mem_singleton, List.mem_nil_iff, or_false] at hp
  rcases hp with rfl | rfl | rfl | rfl | rfl | rfl | rfl <;> exact ⟨_, _, rfl⟩

theorem not_idStart_nil : ¬ IdStart [] := by
  rintro ⟨p, hp, d, t, _, h⟩
  obtain ⟨a, as, ha⟩ := prefix_data_cons p hp
  rw [ha] at h
  simp at h

/-- What `allMatches` does where an identifier begins. -/
theorem allMatches_idStart (p : String) (hp : p ∈ artifactPrefixes) (d : Char) (t : List Char)
    (hd : d.isDigit = true) (adj : Bool) :
    allMatches artifactRegex (p.data ++ d :: t) 0 adj =
      IdMatch.toSubmatch ⟨p, d :: t.takeWhile Char.isDigit⟩ ::
        allMatches artifactRegex (t.dropWhile Char.isDigit) 0 true := by
  obtain ⟨a, as, ha⟩ := prefix_data_cons p hp
  have hex := exec_idStart p hp d t hd
  have htd : t.takeWhile Char.isDigit ++ t.dropWhile Char.isDigit = t :=
    List.takeWhile_append_dropWhile _ _
  have hlenT : t.length = (t.takeWhile Char.isDigit).length + (t.dropWhile Char.isDigit).length := by
    have := congrArg List.length htd
    simp only [List.length_append] at this
    omega
  have hpm : String.mk (a :: as) = p := by rw [← ha]
  rw [ha] at hex ⊢
  simp only [List.cons_append] at hex ⊢
  rw [allMatches_of_exec_some artifactRegex a (as ++ d :: t) adj _ hex
    (by simp only [List.length_cons, List.length_append]; omega)]
  have hcs : as ++ d :: t = (as ++ d :: t.takeWhile Char.isDigit) ++ t.dropWhile Char.isDigit := by
    simp [htd]
  have hskip : (a :: (as ++ d :: t)).length - (t.dropWhile Char.isDigit).length - 1 =
      (as ++ d :: t.takeWhile Char.isDigit).length := by
    simp only [List.length_cons, List.length_append]; omega
  simp only [hskip]
  congr 1
  · have htake : (a :: (as ++ d :: t)).take
        ((a :: (as ++ d :: t)).length - (t.dropWhile Char.isDigit).length) =
        a :: (as ++ d :: t.takeWhile Char.isDigit) := by
      have h1 : (a :: (as ++ d :: t)).length - (t.dropWhile Char.isDigit).length =
          (a :: (as ++ d :: t.takeWhile Char.isDigit)).length := by
        simp only [List.length_cons, List.length_append]; omega
      rw [h1]
      have h2 : a :: (as ++ d :: t) =
          (a :: (as ++ d :: t.takeWhile Char.isDigit)) ++ t.dropWhile Char.isDigit := by
        simp [htd]
      conv_lhs => rw [h2]
      exact List.take_left' rfl
    simp only [submatch, htake, IdMatch.toSubmatch, IdMatch.id, ha]
    have hn : artifactRegex.numCap = 1 := by decide
    simp [hn, capText, List.range, List.range.loop, hpm]
  · conv_lhs => rw [hcs]
    exact allMatches_skip _ _ _

theorem allMatches_artifact_adj (s : List Char) :
    allMatches artifactRegex s 0 true = allMatches artifactRegex s 0 false := by
  cases s with
  | nil => simp [allMatches, exec_not_idStart [] not_idStart_nil]
  | cons c cs =>
    by_cases h : IdStart (c :: cs)
    · obtain ⟨p, hp, d, t, hd, hs⟩ := h
      rw [hs, allMatches_idStart p hp d t hd true, allMatches_idStart p hp d t hd false]
    · rw [allMatches_of_exec_none _ _ _ _ (exec_not_idStart _ h),
        allMatches_of_exec_none _ _ _ _ (exec_not_idStart _ h)]

theorem dropWhile_head_not (t : List Char) :
    ∀ d u, t.dropWhile Char.isDigit = d :: u → d.isDigit = false := by
  induction t with
  | nil => intro d u h; simp at h
  | cons x xs ih =>
    intro d u h
    by_cases hx : x.isDigit = true
    · rw [List.dropWhile_cons_of_pos hx] at h
      exact ih d u h
    · rw [List.dropWhile_cons_of_neg hx] at h
      simp only [List.cons.injEq] at h
      rw [← h.1]
      simpa using hx

/-- The submatches `FindAllStringSubmatch` finds are the leftmost non-overlapping
matches of the text. -/
theorem allMatches_scan (s : List Char) :
    ∃ ms, Scan s ms ∧ allMatches artifactRegex s 0 false = ms.map IdMatch.toSubmatch := by
  generalize hn : s.length = n
  induction n using Nat.strong_induction_on generalizing s with
  | _ n ih =>
    cases s with
    | nil =>
      exact ⟨[], Scan.done, by simp [allMatches, exec_not_idStart [] not_idStart_nil]⟩
    | cons c cs =>
      by_cases h : IdStart (c :: cs)
      · obtain ⟨p, hp, d, t, hd, hs⟩ := h
        have hlen : (t.dropWhile Char.isDigit).length < n := by
          have h1 := congrArg List.length hs
          have h2 : (t.dropWhile Char.isDigit).length ≤ t.length :=
            (List.dropWhile_suffix _).length_le
          simp only [List.length_cons, List.length_append] at h1
          simp only [List.length_cons] at hn
          omega
        obtain ⟨ms, hms, hall⟩ := ih _ hlen (t.dropWhile Char.isDigit) rfl
        refine ⟨⟨p, d :: t.takeWhile Char.isDigit⟩ :: ms, ?_, ?_⟩
        · have hs2 : c :: cs =
              p.data ++ (d :: t.takeWhile Char.isDigit) ++ t.dropWhile Char.isDigit := by
            rw [hs]; simp [List.takeWhile_append_dropWhile]
          rw [hs2]
          refine Scan.take p _ _ ms hp (by simp) ?_ (dropWhile_head_not t) hms
          intro x hx
          rcases List.mem_cons.mp hx with rfl | hx
          · exact hd
          · exact (List.mem_takeWhile_imp hx)
        · rw [hs, allMatches_idStart p hp d t hd false, allMatches_artifact_adj, hall]
          rfl
      · have hlen : cs.length < n := by simp only [List.length_cons] at hn; omega
        obtain ⟨ms, hms, hall⟩ := ih _ hlen cs rfl
        exact ⟨ms, Scan.skip c cs ms h hms,
          by rw [allMatches_of_exec_none _ _ _ _ (exec_not_idStart _ h), hall]⟩

theorem allMatches_of_not_match (re : Regex) (s : List Char) (h : matchChars re s = false)
    (adj : Bool) : allMatches re s 0 adj = [] := by
  induction s generalizing adj with
  | nil =>
    unfold matchChars at h
    cases hex : re.exec [] with
    | none => simp [allMatches, hex]
    | some r => simp [hex] at h
  | cons c cs ih =>
    unfold matchChars at h
    cases hex : re.exec (c :: cs) with
    | none =>
      rw [allMatches_of_exec_none _ _ _ _ hex]
      simp only [hex, Option.isSome_none, Bool.false_or] at h
      exact ih h false
    | some r => simp [hex] at h

theorem prefix_no_digit (p : String) (hp : p ∈ artifactPrefixes) :
    ∀ c ∈ p.data, c.isDigit = false := by
  simp only [artifactPrefixes, List.mem_cons, List.mem_singleton, List.mem_nil_iff, or_false] at hp
  rcases hp with rfl | rfl | rfl | rfl | rfl | rfl | rfl <;> decide

theorem takeWhile_append_stop (q : Char → Bool) (l r : List Char) (hl : ∀ x ∈ l, q x = true)
    (hr : ∀ d t, r = d :: t → q d = false) : (l ++ r).takeWhile q = l := by
  induction l with
  | nil =>
    cases r with
    | nil => rfl
    | cons d t => simp [List.takeWhile, hr d t rfl]
  | cons x xs ih =>
    have hx : q x = true := hl x (List.mem_cons_self _ _)
    simp only [List.cons_append, List.takeWhile_cons, hx, if_true]
    rw [ih (fun y hy => hl y (List.mem_cons_of_mem _ hy))]

theorem split_unique (q : Char → Bool) (l1 l2 r1 r2 : List Char)
    (h1 : ∀ x ∈ l1, q x = true) (h2 : ∀ x ∈ l2, q x = true)
    (hr1 : ∀ d t, r1 = d :: t → q d = false) (hr2 : ∀ d t, r2 = d :: t → q d = false)
    (e : l1 ++ r1 = l2 ++ r2) : l1 = l2 ∧ r1 = r2 := by
  have e1 := takeWhile_append_stop q l1 r1 h1 hr1
  have e2 := takeWhile_append_stop q l2 r2 h2 hr2
  rw [e] at e1
  have hl : l1 = l2 := by rw [← e1, e2]
  subst hl
  exact ⟨rfl, List.append_cancel_left e⟩

theorem idStart_of_take (p : String) (hp : p ∈ artifactPrefixes) (ds rest : List Char)
    (hds : ds ≠ []) (hall : ∀ d ∈ ds, d.isDigit = true) : IdStart (p.data ++ ds ++ rest) := by
  cases ds with
  | nil => exact absurd rfl hds
  | cons d ds2 =>
    exact ⟨p, hp, d, ds2 ++ rest, hall d (List.mem_cons_self _ _), by simp⟩

theorem take_unique (p p2 : String) (hp : p ∈ artifactPrefixes) (hp2 : p2 ∈ artifactPrefixes)
    (ds ds2 rest rest2 : List Char) (hds : ds ≠ []) (hds2 : ds2 ≠ [])
    (hall : ∀ d ∈ ds, d.isDigit = true) (hall2 : ∀ d ∈ ds2, d.isDigit = true)
    (hrest : ∀ d t, rest = d :: t → d.isDigit = false)
    (hrest2 : ∀ d t, rest2 = d :: t → d.isDigit = false)
    (e : p.data ++ ds ++ rest = p2.data ++ ds2 ++ rest2) : p = p2 ∧ ds = ds2 ∧ rest = rest2 := by
  have hstop : ∀ (ds rest : List Char), ds ≠ [] → (∀ d ∈ ds, d.isDigit = true) →
      ∀ d t, ds ++ rest = d :: t → (!d.isDigit) = false := by
    intro ds rest hds hall d t h
    cases ds with
    | nil => exact absurd rfl hds
    | cons d0 ds0 =>
      simp only [List.cons_append, List.cons.injEq] at h
      rw [← h.1, hall d0 (List.mem_cons_self _ _)]; rfl
  rw [List.append_assoc, List.append_assoc] at e
  obtain ⟨h1, h2⟩ := split_unique (fun c => !c.isDigit) p.data p2.data (ds ++ rest) (ds2 ++ rest2)
    (fun x hx => by simp [prefix_no_digit p hp x hx])
    (fun x hx => by simp [prefix_no_digit p2 hp2 x hx])
    (hstop ds rest hds hall) (hstop ds2 rest2 hds2 hall2) e
  obtain ⟨h3, h4⟩ := split_unique Char.isDigit ds ds2 rest rest2 hall hall2 hrest hrest2 h2
  refine ⟨?_, h3, h4⟩
  cases p; cases p2; simp_all

theorem Scan.unique_aux {s : List Char} {ms : List IdMatch} (h : Scan s ms) :
    ∀ s2 ms2, Scan s2 ms2 → s = s2 → ms = ms2 := by
  induction h with
  | done =>
    intro s2 ms2 h2 e
    cases h2 with
    | done => rfl
    | skip c cs ms2 _ _ => simp at e
    | take p ds rest ms hp hds hall hrest hs =>
      exact absurd (e ▸ idStart_of_take p hp ds rest hds hall) not_idStart_nil
  | skip c cs ms hn _ ih =>
    intro s2 ms2 h2 e
    cases h2 with
    | done => simp at e
    | skip c2 cs2 ms2 _ hs2 =>
      simp only [List.cons.injEq] at e
      exact ih cs2 ms2 hs2 e.2
    | take p ds rest ms hp hds hall hrest hs =>
      exact absurd (e ▸ idStart_of_take p hp ds rest hds hall) hn
  | take p ds rest ms hp hds hall hrest _ ih =>
    intro s2 ms2 h2 e
    cases h2 with
    | done => exact absurd (e ▸ idStart_of_take p hp ds rest hds hall) not_idStart_nil
    | skip c2 cs2 ms2 hn2 _ =>
      exact absurd (e ▸ idStart_of_take p hp ds rest hds hall) hn2
    | take p2 ds2 rest2 ms2 hp2 hds2 hall2 hrest2 hs2 =>
      obtain ⟨h1, h2, h3⟩ := take_unique p p2 hp hp2 ds ds2 rest rest2 hds hds2 hall hall2
        hrest hrest2 e
      subst h1; subst h2
      rw [ih rest2 ms2 hs2 h3]

/-- The leftmost non-overlapping matches of a text are determined by the text. -/
theorem Scan.unique {s : List Char} {ms ms2 : List IdMatch} (h : Scan s ms) (h2 : Scan s ms2) :
    ms = ms2 :=
  Scan.unique_aux h s ms2 h2 rfl

theorem findAll_of_scan (message : String) (ms : List IdMatch) (h : Scan message.data ms) :
    FindAllStringSubmatch artifactRegex message = ms.map IdMatch.toSubmatch := by
  obtain ⟨ms2, h2, hall⟩ := allMatches_scan message.data
  rw [Scan.unique h h2]
  exact hall

/-! ## Facts about `FindRallyArtifact` -/

theorem FindRallyArtifact_eq (cfg : Config) (tr : Tracker) (commit : Commit) (w : World)
    (ms : List IdMatch) (h : Scan commit.Message.data ms) :
    FindRallyArtifact cfg tr commit w =
      if ms.isEmpty then (.ret none, w) else findLoop cfg tr (ms.map IdMatch.toSubmatch) [] w := by
  have hall := findAll_of_scan commit.Message ms h
  unfold FindRallyArtifact
  by_cases hm : MatchString artifactRegex commit.Message = true
  · simp only [hm, if_true, hall, List.length_map]
    cases ms with
    | nil => simp
    | cons m ms => simp
  · have hm2 : matchChars artifactRegex commit.Message.data = false := by
      simpa [MatchString] using hm
    have hnil := allMatches_of_not_match artifactRegex commit.Message.data hm2 false
    have : ms = [] := by
      have h3 : ms.map IdMatch.toSubmatch = [] := by
        rw [← hall]; exact hnil
      simpa using h3
    simp [hm, this]

theorem findLoop_cons (cfg : Config) (tr : Tracker) (m : IdMatch) (vs : List (List String))
    (artifacts : List (String × String)) (w : World) :
    findLoop cfg tr (m.toSubmatch :: vs) artifacts w =
      match tr (w.log ++ [artifactRequest cfg m.id m.pfx]) with
      | .transportError =>
        findLoop cfg tr vs artifacts { w with log := w.log ++ [artifactRequest cfg m.id m.pfx] }
      | .response b =>
        match b.asQuery with
        | none =>
          findLoop cfg tr vs artifacts { w with log := w.log ++ [artifactRequest cfg m.id m.pfx] }
        | some rallyresponse =>
          if rallyresponse.QueryResult.TotalResultCount = 0 then
            findLoop cfg tr vs artifacts
              { w with log := w.log ++ [artifactRequest cfg m.id m.pfx] }
          else
            match rallyresponse.QueryResult.Results[0]? with
            | some r =>
              findLoop cfg tr vs (setEntry m.id r.Ref artifacts)
                { w with log := w.log ++ [artifactRequest cfg m.id m.pfx] }
            | none => (.panic, { w with log := w.log ++ [artifactRequest cfg m.id m.pfx] }) := by
  simp only [findLoop, IdMatch.toSubmatch, doRequest, List.length_cons, List.length_nil,
    Nat.zero_lt_succ, if_true, List.getElem?_cons_zero, List.getElem?_cons_succ]
  cases tr (w.log ++ [artifactRequest cfg m.id m.pfx]) with
  | transportError => rfl
  | response b => simp only

/-- The requests `findLoop` sends are the lookup requests of the matches, in their
order, up to the point where it stops; when it returns it has sent them all. It does
not touch the user cache. -/
theorem findLoop_log (cfg : Config) (tr : Tracker) (ms : List IdMatch)
    (artifacts : List (String × String)) (w : World) :
    ∃ issued, issued <+: lookupRequests cfg ms ∧
      (findLoop cfg tr (ms.map IdMatch.toSubmatch) artifacts w).2 =
        { log := w.log ++ issued, userCache := w.userCache } ∧
      (∀ m, (findLoop cfg tr (ms.map IdMatch.toSubmatch) artifacts w).1 = .ret m →
        issued = lookupRequests cfg ms) := by
  induction ms generalizing artifacts w with
  | nil => exact ⟨[], by simp [lookupRequests], by simp [findLoop], by simp [lookupRequests]⟩
  | cons m ms ih =>
    have key : ∀ arts2, ∃ issued, issued <+: lookupRequests cfg (m :: ms) ∧
        (findLoop cfg tr (ms.map IdMatch.toSubmatch) arts2
          { w with log := w.log ++ [artifactRequest cfg m.id m.pfx] }).2 =
          { log := w.log ++ issued, userCache := w.userCache } ∧
        (∀ r, (findLoop cfg tr (ms.map IdMatch.toSubmatch) arts2
          { w with log := w.log ++ [artifactRequest cfg m.id m.pfx] }).1 = .ret r →
          issued = lookupRequests cfg (m :: ms)) := by
      intro arts2
      obtain ⟨issued, h1, h2, h3⟩ :=
        ih arts2 { w with log := w.log ++ [artifactRequest cfg m.id m.pfx] }
      refine ⟨artifactRequest cfg m.id m.pfx :: issued, ?_, ?_, ?_⟩
      · simpa [lookupRequests, List.cons_prefix_cons] using h1
      · rw [h2]; simp
      · intro r hr
        rw [h3 r hr]; simp [lookupRequests]
    rw [List.map_cons, findLoop_cons]
    cases tr (w.log ++ [artifactRequest cfg m.id m.pfx]) with
    | transportError => exact key artifacts
    | response b =>
      simp only
      cases b.asQuery with
      | none => exact key artifacts
      | some rr =>
        simp only
        by_cases hc : rr.QueryResult.TotalResultCount = 0
        · simp only [hc, if_true]; exact key artifacts
        · simp only [hc, if_false]
          cases rr.QueryResult.Results[0]? with
          | some r => exact key _
          | none =>
            refine ⟨[artifactRequest cfg m.id m.pfx], ?_, rfl, ?_⟩
            · simp [lookupRequests, List.cons_prefix_cons]
            · intro r hr; simp at hr

/-- The lookup of the first match is always sent. -/
theorem findLoop_first (cfg : Config) (tr : Tracker) (m : IdMatch) (ms : List IdMatch)
    (artifacts : List (String × String)) (w : World) :
    ∃ more, (findLoop cfg tr ((m :: ms).map IdMatch.toSubmatch) artifacts w).2.log =
      w.log ++ artifactRequest cfg m.id m.pfx :: more := by
  have key : ∀ arts2, ∃ more,
      (findLoop cfg tr (ms.map IdMatch.toSubmatch) arts2
        { w with log := w.log ++ [artifactRequest cfg m.id m.pfx] }).2.log =
        w.log ++ artifactRequest cfg m.id m.pfx :: more := by
    intro arts2
    obtain ⟨issued, _, h2, _⟩ :=
      findLoop_log cfg tr ms arts2 { w with log := w.log ++ [artifactRequest cfg m.id m.pfx] }
    exact ⟨issued, by rw [h2]; simp⟩
  rw [List.map_cons, findLoop_cons]
  cases tr (w.log ++ [artifactRequest cfg m.id m.pfx]) with
  | transportError => exact key artifacts
  | response b =>
    dsimp only
    cases b.asQuery with
    | none => exact key artifacts
    | some rr =>
      dsimp only
      split_ifs
      · exact key artifacts
      · cases rr.QueryResult.Results[0]? with
        | some r => exact key _
        | none => exact ⟨[], rfl⟩

theorem scan_nil_of_not_containsId {s : List Char} {ms : List IdMatch} (h : Scan s ms)
    (hn : ¬ ContainsId s) : ms = [] := by
  induction h with
  | done => rfl
  | skip c cs ms _ _ ih =>
    apply ih
    rintro ⟨pre, p, ds, post, hp, hds, hall, e⟩
    exact hn ⟨c :: pre, p, ds, post, hp, hds, hall, by rw [e]; simp⟩
  | take p ds rest ms hp hds hall _ _ _ =>
    exact absurd ⟨[], p, ds, rest, hp, hds, hall, by simp⟩ hn

theorem not_containsId_of_no_digit (s : List Char) (h : ∀ c ∈ s, c.isDigit = false) :
    ¬ ContainsId s := by
  rintro ⟨pre, p, ds, post, _, hds, hall, e⟩
  cases ds with
  | nil => exact hds rfl
  | cons d ds2 =>
    have hmem : d ∈ s := by rw [e]; simp
    have := h d hmem
    rw [hall d (List.mem_cons_self _ _)] at this
    exact absurd this (by decide)

theorem typeMap_lookup (p : String) (hp : p ∈ artifactPrefixes) :
    (typeMap.lookup p).getD "" = collectionOf p ∧ collectionOf p ≠ "" := by
  simp only [artifactPrefixes, List.mem_cons, List.mem_singleton, List.mem_nil_iff, or_false] at hp
  rcases hp with rfl | rfl | rfl | rfl | rfl | rfl | rfl <;> decide

theorem artifactRequest_of_prefix (cfg : Config) (m : IdMatch) (hp : m.pfx ∈ artifactPrefixes) :
    artifactRequest cfg m.id m.pfx =
      { method := "GET", url := cfg.RallyURL ++ "/slm/webservice/v2.0/" ++ collectionOf m.pfx,
        query := some ("(FormattedID = " ++ m.id ++ ")"),
        header := [("ZSESSIONID", cfg.APIToken)], body := none } ∧
    collectionOf m.pfx ≠ "" := by
  obtain ⟨h1, h2⟩ := typeMap_lookup m.pfx hp
  refine ⟨?_, h2⟩
  simp only [artifactRequest, getRequest, DecorateRequest, h1]
  simp

theorem scan_match_shape {s : List Char} {ms : List IdMatch} (h : Scan s ms) :
    ∀ m ∈ ms, m.pfx ∈ artifactPrefixes ∧ m.digits ≠ [] ∧ (∀ d ∈ m.digits, d.isDigit = true) := by
  induction h with
  | done => intro m hm; simp at hm
  | skip c cs ms _ _ ih => exact ih
  | take p ds rest ms hp hds hall _ _ ih =>
    intro m hm
    rcases List.mem_cons.mp hm with rfl | hm
    · exact ⟨hp, hds, hall⟩
    · exact ih m hm

theorem prefix_all_alpha (p : String) (hp : p ∈ artifactPrefixes) :
    ∀ c ∈ p.data, c.isAlpha = true := by
  simp only [artifactPrefixes, List.mem_cons, List.mem_singleton, List.mem_nil_iff, or_false] at hp
  rcases hp with rfl | rfl | rfl | rfl | rfl | rfl | rfl <;> decide

theorem lookup_setEntry (k v id : String) (es : List (String × String)) :
    (setEntry k v es).lookup id = if id = k then some v else es.lookup id := by
  induction es with
  | nil =>
    by_cases h : id = k
    · simp [setEntry, List.lookup, h]
    · have : (id == k) = false := by simpa using h
      simp [setEntry, List.lookup, h, this]
  | cons e es ih =>
    obtain ⟨a, b⟩ := e
    by_cases hak : a = k
    · subst hak
      by_cases h : id = a
      · simp [setEntry, List.lookup, h]
      · have : (id == a) = false := by simpa using h
        simp [setEntry, List.lookup, h, this]
    · by_cases h : id = k
      · subst h
        have : (id == a) = false := by simpa using fun h2 => hak h2.symm
        simp [setEntry, List.lookup, hak, this, ih]
      · simp only [setEntry, hak, if_false, List.lookup, ih, h]

/-- With a well-formed tracker `findLoop` returns, having sent every lookup request;
the map it returns holds, for every identifier, what the last lookup that found
something found, and otherwise what the map held before. -/
theorem findLoop_wellFormed (cfg : Config) (tr : Tracker) (hwf : WellFormed tr)
    (ms : List IdMatch) (artifacts : List (String × String)) (w : World) :
    ∃ arts2, findLoop cfg tr (ms.map IdMatch.toSubmatch) artifacts w =
        (.ret (some arts2), { log := w.log ++ lookupRequests cfg ms, userCache := w.userCache }) ∧
      ∀ id, arts2.lookup id =
        match lastHit id (lookupTrace cfg tr ms w.log) with
        | some r => some r
        | none => artifacts.lookup id := by
  induction ms generalizing artifacts w with
  | nil => exact ⟨artifacts, by simp [findLoop, lookupRequests], by simp [lookupTrace, lastHit]⟩
  | cons m ms ih =>
    have miss : (tr (w.log ++ [artifactRequest cfg m.id m.pfx])).found = none →
        ∃ arts2, findLoop cfg tr (ms.map IdMatch.toSubmatch) artifacts
            { w with log := w.log ++ [artifactRequest cfg m.id m.pfx] } =
          (.ret (some arts2),
            { log := w.log ++ lookupRequests cfg (m :: ms), userCache := w.userCache }) ∧
          ∀ id, arts2.lookup id =
            match lastHit id (lookupTrace cfg tr (m :: ms) w.log) with
            | some r => some r
            | none => artifacts.lookup id := by
      intro hf
      obtain ⟨arts2, h1, h2⟩ :=
        ih artifacts { w with log := w.log ++ [artifactRequest cfg m.id m.pfx] }
      refine ⟨arts2, by rw [h1]; simp [lookupRequests], ?_⟩
      intro id
      rw [h2 id]
      simp only [lookupTrace, lastHit, hf]
      cases lastHit id (lookupTrace cfg tr ms (w.log ++ [artifactRequest cfg m.id m.pfx])) with
      | some r => rfl
      | none => simp
    rw [List.map_cons, findLoop_cons]
    cases htr : tr (w.log ++ [artifactRequest cfg m.id m.pfx]) with
    | transportError => exact miss (by rw [htr]; rfl)
    | response b =>
      simp only
      cases hq : b.asQuery with
      | none => exact miss (by rw [htr]; simp [Reply.found, hq])
      | some rr =>
        simp only
        by_cases hc : rr.QueryResult.TotalResultCount = 0
        · simp only [hc, if_true]
          exact miss (by rw [htr]; simp [Reply.found, hq, hc])
        · simp only [hc, if_false]
          have hne := hwf _ b rr htr hq hc
          cases hres : rr.QueryResult.Results with
          | nil => exact absurd hres hne
          | cons r rs =>
            simp only [List.getElem?_cons_zero]
            obtain ⟨arts2, h1, h2⟩ := ih (setEntry m.id r.Ref artifacts)
              { w with log := w.log ++ [artifactRequest cfg m.id m.pfx] }
            refine ⟨arts2, by rw [h1]; simp [lookupRequests], ?_⟩
            intro id
            rw [h2 id]
            have hf : (tr (w.log ++ [artifactRequest cfg m.id m.pfx])).found = some r.Ref := by
              rw [htr]; simp [Reply.found, hq, hc, hres]
            simp only [lookupTrace, lastHit, hf, lookup_setEntry]
            cases lastHit id (lookupTrace cfg tr ms (w.log ++ [artifactRequest cfg m.id m.pfx])) with
            | some r2 => rfl
            | none =>
              by_cases hid : id = m.id
              · simp [hid]
              · have : ¬ m.id = id := fun h => hid h.symm
                simp [hid, this]

/-! ## Facts about `checkForStatus` -/

theorem space_test_iff (c : Char) : PerlClass.space.test c = true ↔ isWhitespace c := by
  simp [PerlClass.test, isWhitespace, or_assoc]

theorem mem_runRe_str (p s : List Char) (caps : Caps) (r : List Char × Caps)
    (h : r ∈ runRe (Regex.str p) s caps) : s = p ++ r.1 ∧ r.2 = caps := by
  rw [runRe_str] at h
  split_ifs at h with hp
  · obtain ⟨t, rfl⟩ := hp
    simp only [List.mem_singleton] at h
    subst h
    simp
  · simp at h

theorem mem_runRe_str_append (p t : List Char) (caps : Caps) :
    (t, caps) ∈ runRe (Regex.str p) (p ++ t) caps := by
  rw [runRe_str]
  simp

theorem exec_keyword_isSome (k1 k2 id s : List Char) :
    ((keywordRegex k1 k2 (Regex.str id)).exec s).isSome = true ↔
      ∃ ws t, isWhitespace ws ∧ (s = k1 ++ ws :: (id ++ t) ∨ s = k2 ++ ws :: (id ++ t)) := by
  have hsome : ((keywordRegex k1 k2 (Regex.str id)).exec s).isSome = true ↔
      ∃ r, r ∈ runRe (keywordRegex k1 k2 (Regex.str id)) s [] := by
    unfold Regex.exec
    cases runRe (keywordRegex k1 k2 (Regex.str id)) s [] with
    | nil => simp
    | cons a l => simp
  rw [hsome]
  constructor
  · rintro ⟨r, hr⟩
    simp only [keywordRegex, runRe_cat, runRe_alt, runRe_cap, List.mem_flatMap, List.mem_map,
      List.mem_append] at hr
    obtain ⟨r2, ⟨r1, ⟨r0, hr0, rfl⟩, hr2⟩, hr⟩ := hr
    simp only at hr2
    obtain ⟨hid, _⟩ := mem_runRe_str _ _ _ _ hr
    cases h0 : r0.1 with
    | nil => rw [h0] at hr2; simp [runRe] at hr2
    | cons x xs =>
      rw [h0] at hr2
      simp only [runRe, List.mem_ite_nil_right, List.mem_singleton] at hr2
      obtain ⟨hx, rfl⟩ := hr2
      simp only at hid
      refine ⟨x, r.1, (space_test_iff x).mp hx, ?_⟩
      rcases hr0 with h | h
      · left
        obtain ⟨e, _⟩ := mem_runRe_str _ _ _ _ h
        rw [e, h0, hid]
      · right
        obtain ⟨e, _⟩ := mem_runRe_str _ _ _ _ h
        rw [e, h0, hid]
  · rintro ⟨ws, t, hws, hs⟩
    have hsp := (space_test_iff ws).mpr hws
    simp only [keywordRegex, runRe_cat, runRe_alt, runRe_cap, List.mem_flatMap, List.mem_map,
      List.mem_append]
    have h2 : ∀ c : Caps, (id ++ t, c) ∈ runRe (.perl .space) (ws :: (id ++ t)) c := by
      intro c; simp [runRe, hsp]
    have h3 : ∀ c : Caps, (t, c) ∈ runRe (Regex.str id) (id ++ t) c :=
      fun c => mem_runRe_str_append _ _ _
    rcases hs with rfl | rfl
    · exact ⟨(t, _), (id ++ t, _), ⟨(ws :: (id ++ t), _),
        ⟨(ws :: (id ++ t), []), Or.inl (mem_runRe_str_append _ _ _), rfl⟩, h2 _⟩, h3 _⟩
    · exact ⟨(t, _), (id ++ t, _), ⟨(ws :: (id ++ t), _),
        ⟨(ws :: (id ++ t), []), Or.inr (mem_runRe_str_append _ _ _), rfl⟩, h2 _⟩, h3 _⟩

theorem matchChars_iff (re : Regex) (s : List Char) :
    matchChars re s = true ↔ ∃ pre suf, s = pre ++ suf ∧ (re.exec suf).isSome = true := by
  induction s with
  | nil =>
    simp only [matchChars]
    constructor
    · intro h; exact ⟨[], [], rfl, h⟩
    · rintro ⟨pre, suf, e, h⟩
      have : suf = [] := by
        have := congrArg List.length e
        simp only [List.length_nil, List.length_append] at this
        exact List.length_eq_zero.mp (by omega)
      rw [this] at h; exact h
  | cons c cs ih =>
    simp only [matchChars, Bool.or_eq_true, ih]
    constructor
    · rintro (h | ⟨pre, suf, e, h⟩)
      · exact ⟨[], c :: cs, rfl, h⟩
      · exact ⟨c :: pre, suf, by rw [e]; rfl, h⟩
    · rintro ⟨pre, suf, e, h⟩
      cases pre with
      | nil => left; simp only [List.nil_append] at e; rw [e]; exact h
      | cons x xs =>
        right
        simp only [List.cons_append, List.cons.injEq] at e
        exact ⟨xs, suf, e.2, h⟩

theorem matchString_keyword_iff (k1 k2 : String) (message id : String) :
    MatchString (keywordRegex k1.data k2.data (Regex.str id.data)) message = true ↔
      Signals [k1, k2] message id := by
  unfold MatchString Signals
  rw [matchChars_iff]
  constructor
  · rintro ⟨pre, suf, e, h⟩
    obtain ⟨ws, t, hws, hs⟩ := (exec_keyword_isSome _ _ _ _).mp h
    rcases hs with rfl | rfl
    · exact ⟨pre, k1, ws, t, by simp, hws, by rw [e]; simp⟩
    · exact ⟨pre, k2, ws, t, by simp, hws, by rw [e]; simp⟩
  · rintro ⟨pre, kw, ws, post, hkw, hws, e⟩
    refine ⟨pre, kw.data ++ ws :: (id.data ++ post), by rw [e]; simp, ?_⟩
    rw [exec_keyword_isSome]
    simp only [List.mem_cons, List.mem_singleton, List.mem_nil_iff, or_false] at hkw
    rcases hkw with rfl | rfl
    · exact ⟨ws, post, hws, Or.inl rfl⟩
    · exact ⟨ws, post, hws, Or.inr rfl⟩

theorem meta_not_alphanum (c : Char) (h : c ∈ regexMeta) : c.isAlphanum = false := by
  simp only [regexMeta, List.mem_cons, List.mem_singleton, List.mem_nil_iff, or_false] at h
  rcases h with rfl | rfl | rfl | rfl | rfl | rfl | rfl | rfl | rfl | rfl | rfl | rfl | rfl | rfl <;>
    decide

theorem parseLiteral_of_alphanum (id : String) (h : id.data.all Char.isAlphanum = true) :
    parseLiteral id = some (Regex.str id.data) := by
  unfold parseLiteral
  rw [if_pos]
  rw [List.all_eq_true] at h ⊢
  intro c hc
  have h1 := h c hc
  by_cases hm : c ∈ regexMeta
  · rw [meta_not_alphanum c hm] at h1; exact absurd h1 (by decide)
  · simpa using hm

theorem checkForStatus_eq (message id : String) (h : id.data.all Char.isAlphanum = true) :
    checkForStatus message id =
      some (MatchString (keywordRegex "STARTS".data "BEGINS".data (Regex.str id.data)) message,
        MatchString (keywordRegex "COMPLETES".data "FINISHES".data (Regex.str id.data)) message) := by
  unfold checkForStatus
  rw [parseLiteral_of_alphanum id h]
  simp [startRegex, completeRegex, keywordRegex]

/-! ## Facts about `AddChangeSet` -/

theorem UpdateState_world (up : URLParse) (cfg : Config) (tr : Tracker) (ref state : String) (w : World) :
    (UpdateState up cfg tr ref state w).2 =
      if up ref then { log := w.log ++ [updateRequest cfg ref state], userCache := w.userCache }
      else w := by
  unfold UpdateState doRequest updateRequest
  split_ifs with h
  · cases tr (w.log ++ [postRequest cfg ref (updatePayload state)]) with
    | transportError => rfl
    | response b =>
      dsimp only
      cases b.asUpdate with
      | none => rfl
      | some u =>
        dsimp only
        split_ifs <;> rfl
  · rfl

theorem UpdateState_ret (up : URLParse) (cfg : Config) (tr : Tracker) (ref state : String)
    (w : World) (h : up ref = true) :
    ∃ e, UpdateState up cfg tr ref state w =
      (.ret e, { log := w.log ++ [updateRequest cfg ref state], userCache := w.userCache }) := by
  unfold UpdateState doRequest updateRequest
  rw [if_pos h]
  cases tr (w.log ++ [postRequest cfg ref (updatePayload state)]) with
  | transportError => exact ⟨_, rfl⟩
  | response b =>
    dsimp only
    cases b.asUpdate with
    | none => exact ⟨_, rfl⟩
    | some u =>
      dsimp only
      split_ifs <;> exact ⟨_, rfl⟩

theorem UpdateState_panic (up : URLParse) (cfg : Config) (tr : Tracker) (ref state : String)
    (w : World) (h : up ref = false) : UpdateState up cfg tr ref state w = (.panic, w) := by
  unfold UpdateState
  rw [h]
  rfl

theorem updateRequests_cons (cfg : Config) (message k v : String) (es : List (String × String)) :
    updateRequests cfg message ((k, v) :: es) =
      (match checkForStatus message k with
        | some (starts, completes) =>
          if targetState starts completes = "" then []
          else [updateRequest cfg v (targetState starts completes)]
        | none => []) ++ updateRequests cfg message es := by
  simp only [updateRequests, List.flatMap_cons]

/-- The requests the loop over the resolved artifacts sends are the state updates of the
entries, in their order, up to the point where it stops; when it returns it has sent
them all and has collected one reference for each entry. It does not touch the user
cache. -/
theorem stateLoop_log (up : URLParse) (cfg : Config) (tr : Tracker) (message : String)
    (es : List (String × String)) (refs : List Reference) (w : World) :
    ∃ issued, issued <+: updateRequests cfg message es ∧
      (stateLoop up cfg tr message es refs w).2 =
        { log := w.log ++ issued, userCache := w.userCache } ∧
      (∀ r, (stateLoop up cfg tr message es refs w).1 = .ret r →
        issued = updateRequests cfg message es ∧
        r = refs ++ es.map fun e => { Ref := e.2 }) := by
  induction es generalizing refs w with
  | nil => exact ⟨[], by simp [updateRequests], by simp [stateLoop], by simp [stateLoop, updateRequests]⟩
  | cons e es ih =>
    obtain ⟨k, v⟩ := e
    rw [updateRequests_cons]
    simp only [stateLoop]
    cases hc : checkForStatus message k with
    | none => exact ⟨[], List.nil_prefix, by simp, by intro r hr; simp at hr⟩
    | some p =>
      obtain ⟨st, cp⟩ := p
      dsimp only
      by_cases hs : targetState st cp = ""
      · simp only [hs, bne_self_eq_false, Bool.false_eq_true, if_false, if_true, List.nil_append]
        obtain ⟨issued, h1, h2, h3⟩ := ih (refs ++ [{ Ref := v }]) w
        refine ⟨issued, h1, h2, ?_⟩
        intro r hr
        obtain ⟨h4, h5⟩ := h3 r hr
        exact ⟨h4, by rw [h5]; simp⟩
      · have hne : (targetState st cp != "") = true := by simpa using hs
        simp only [hne, if_true, hs, if_false]
        cases hu : up v with
        | false =>
          rw [UpdateState_panic up cfg tr v _ w hu]
          exact ⟨[], List.nil_prefix, by simp, by intro r hr; simp at hr⟩
        | true =>
          obtain ⟨e, he⟩ := UpdateState_ret up cfg tr v (targetState st cp) w hu
          rw [he]
          dsimp only
          obtain ⟨issued, h1, h2, h3⟩ := ih (refs ++ [{ Ref := v }])
            { log := w.log ++ [updateRequest cfg v (targetState st cp)], userCache := w.userCache }
          refine ⟨updateRequest cfg v (targetState st cp) :: issued, ?_, ?_, ?_⟩
          · simpa [List.cons_prefix_cons] using h1
          · rw [h2]; simp
          · intro r hr
            obtain ⟨h4, h5⟩ := h3 r hr
            exact ⟨by rw [h4]; simp, by rw [h5]; simp⟩

theorem AddChange_world (cfg : Config) (tr : Tracker) (action changeset path uri : String)
    (w : World) :
    (AddChange cfg tr action changeset path uri w).2 =
      { log := w.log ++ [postRequest cfg (cfg.RallyURL ++ "/slm/webservice/v2.0/change/create")
          (changeBody action changeset path uri)], userCache := w.userCache } := by
  unfold AddChange doRequest
  cases tr (w.log ++ [postRequest cfg (cfg.RallyURL ++ "/slm/webservice/v2.0/change/create")
      (changeBody action changeset path uri)]) with
  | transportError => rfl
  | response b =>
    simp only
    cases b.asCreate with
    | none => rfl
    | some u => rfl

theorem changeLoop_world (cfg : Config) (tr : Tracker) (action ref repoURL branch : String)
    (paths : List String) (w : World) :
    changeLoop cfg tr action ref repoURL branch paths w =
      { log := w.log ++ paths.map (changeRequest cfg action ref repoURL branch),
        userCache := w.userCache } := by
  induction paths generalizing w with
  | nil => simp [changeLoop]
  | cons p ps ih =>
    simp only [changeLoop, AddChange_world, ih, List.map_cons, changeRequest]
    simp

theorem stateLoop_ret (up : URLParse) (cfg : Config) (tr : Tracker) (message : String)
    (es : List (String × String)) (hk : AlnumKeys es)
    (hp : ∀ q ∈ updateRequests cfg message es, up q.url = true)
    (refs : List Reference) (w : World) :
    stateLoop up cfg tr message es refs w =
      (.ret (refs ++ es.map fun e => { Ref := e.2 }),
        { log := w.log ++ updateRequests cfg message es, userCache := w.userCache }) := by
  induction es generalizing refs w with
  | nil => simp [stateLoop, updateRequests]
  | cons e es ih =>
    obtain ⟨k, v⟩ := e
    have hk1 : k.data.all Char.isAlphanum = true := hk (k, v) (List.mem_cons_self _ _)
    have hk2 : AlnumKeys es := fun e he => hk e (List.mem_cons_of_mem _ he)
    obtain ⟨st, cp, hc⟩ : ∃ st cp, checkForStatus message k = some (st, cp) :=
      ⟨_, _, checkForStatus_eq message k hk1⟩
    rw [updateRequests_cons, hc] at hp ⊢
    have hp2 : ∀ q ∈ updateRequests cfg message es, up q.url = true :=
      fun q hq => hp q (List.mem_append_right _ hq)
    simp only [stateLoop, hc]
    by_cases hs : targetState st cp = ""
    · simp only [hs, bne_self_eq_false, Bool.false_eq_true, if_false, if_true, List.nil_append]
      rw [ih hk2 hp2]
      simp
    · have hne : (targetState st cp != "") = true := by simpa using hs
      have hu : up v = true :=
        hp (updateRequest cfg v (targetState st cp)) (by simp [hs])
      obtain ⟨e, he⟩ := UpdateState_ret up cfg tr v (targetState st cp) w hu
      simp only [hne, if_true, hs, if_false, he]
      rw [ih hk2 hp2]
      simp

theorem cacheStore_some (author v : String) (w : World) (cache : List (String × String))
    (h : w.userCache = some cache) :
    cacheStore author v w = (.ret (), { w with userCache := some (setEntry author v cache) }) := by
  unfold cacheStore
  rw [h]

theorem cacheUser_some (cfg : Config) (tr : Tracker) (author : String) (w : World)
    (cache : List (String × String)) (h : w.userCache = some cache) :
    cacheUser cfg tr author w =
      match cache.lookup author with
      | some _ => (.ret (), w)
      | none =>
        (.ret (), { log := w.log ++ [userRequest cfg author],
                    userCache := some (setEntry author
                      (userRefOf (tr (w.log ++ [userRequest cfg author]))) cache) }) := by
  unfold cacheUser
  simp only [GoMap.get?, GoMap.entries, h, Option.getD_some]
  cases cache.lookup author with
  | some r => rfl
  | none =>
    simp only [doRequest]
    cases htr : tr (w.log ++ [userRequest cfg author]) with
    | transportError =>
      dsimp only
      rw [cacheStore_some _ _ _ cache (by simpa using h)]; simp [userRefOf]
    | response b =>
      dsimp only
      cases hq : b.asQuery with
      | none =>
        dsimp only
        rw [cacheStore_some _ _ _ cache (by simpa using h)]; simp [userRefOf, hq]
      | some rr =>
        dsimp only
        rcases hres : rr.QueryResult.Results with _ | ⟨r, _ | ⟨r2, rs⟩⟩ <;>
          dsimp only <;>
          rw [cacheStore_some _ _ _ cache (by simpa using h)] <;> simp [userRefOf, hq, hres]

theorem visited_perm (ord : MapOrder) (hfair : ord.fair) (rallyRef : GoMap) (log : List Request) :
    (visited ord rallyRef log).Perm rallyRef.entries := by
  unfold visited
  split_ifs with h
  · exact hfair _ _
  · have : rallyRef.entries = [] := by
      simp only [GoMap.len, gt_iff_lt, List.length_pos, ne_eq, not_not] at h
      exact h
    rw [this]

theorem visited_alnum (ord : MapOrder) (hfair : ord.fair) (rallyRef : GoMap) (log : List Request)
    (hk : AlnumKeys rallyRef.entries) : AlnumKeys (visited ord rallyRef log) :=
  fun e he => hk e ((visited_perm ord hfair rallyRef log).mem_iff.mp he)

theorem buildChangeset_changesetOf (c : Commit) (scmrepo repoURL userRef : String)
    (artifactRefs : List Reference) :
    buildChangeset c scmrepo repoURL userRef artifactRefs =
      changesetOf c scmrepo repoURL userRef artifactRefs := by
  unfold buildChangeset changesetOf
  cases artifactRefs with
  | nil =>
    by_cases h : userRef = ""
    · simp [h]
    · simp [h]
  | cons a as =>
    by_cases h : userRef = ""
    · simp [h]
    · simp [h]

/-- `AddChangeSet` panics where its part up to the changeset-create request does; when
that part returns it sends the changeset-create request for the references collected
and the cached user reference, and goes on by the reply. -/
theorem AddChangeSet_split (up : URLParse) (cfg : Config) (tr : Tracker) (ord : MapOrder)
    (c : Commit) (scmrepo : String) (rallyRef : GoMap) (repoURL branch : String) (w : World) :
    AddChangeSet up cfg tr ord c scmrepo rallyRef repoURL branch w =
      match untilChangeset up cfg tr ord c rallyRef w with
      | (.panic, w2) => (.panic, w2)
      | (.ret artifactRefs, w2) =>
        match tr (w2.log ++ [changesetRequest cfg
            (changesetOf c scmrepo repoURL (w2.userCache.get c.Author.Email) artifactRefs)]) with
        | .transportError =>
          (.ret (some .transport),
            { log := w2.log ++ [changesetRequest cfg
                (changesetOf c scmrepo repoURL (w2.userCache.get c.Author.Email) artifactRefs)],
              userCache := w2.userCache })
        | .response b =>
          match b.asCreate with
          | none =>
            (.ret (some .decode),
              { log := w2.log ++ [changesetRequest cfg
                  (changesetOf c scmrepo repoURL (w2.userCache.get c.Author.Email) artifactRefs)],
                userCache := w2.userCache })
          | some r =>
            if r.CreateResult.Object.Ref = "" then
              (.ret (some (.msg "unable to create changeset")),
                { log := w2.log ++ [changesetRequest cfg
                    (changesetOf c scmrepo repoURL (w2.userCache.get c.Author.Email) artifactRefs)],
                  userCache := w2.userCache })
            else
              (.ret none,
                { log := w2.log ++ changesetRequest cfg
                    (changesetOf c scmrepo repoURL (w2.userCache.get c.Author.Email) artifactRefs) ::
                    changeRequests cfg c r.CreateResult.Object.Ref repoURL branch,
                  userCache := w2.userCache }) := by
  unfold AddChangeSet untilChangeset
  dsimp only
  rcases cacheUser cfg tr c.Author.Email w with ⟨o, w1⟩
  cases o with
  | panic => rfl
  | ret u =>
    dsimp only
    rcases (if rallyRef.len > 0 then
          stateLoop up cfg tr c.Message (ord w1.log rallyRef.entries) [] w1
        else (Outcome.ret [], w1)) with ⟨o2, w2⟩
    cases o2 with
    | panic => rfl
    | ret artifactRefs =>
      simp only [doRequest, buildChangeset_changesetOf, changeLoop_world, changeRequests]
      cases tr (w2.log ++ [changesetRequest cfg
          (changesetOf c scmrepo repoURL (w2.userCache.get c.Author.Email) artifactRefs)]) with
      | transportError => rfl
      | response b =>
        dsimp only
        cases b.asCreate with
        | none => rfl
        | some r =>
          dsimp only
          split_ifs
          · rfl
          · simp

/-- The part of `AddChangeSet` up to the changeset-create request, on an allocated
cache: after the cache block it sends state updates only, those of the visited entries
in their order up to the point where it stops, and leaves the cache as the cache block
left it; when it returns it has sent them all and has collected the references of the
visited entries. -/
theorem untilChangeset_log (up : URLParse) (cfg : Config) (tr : Tracker) (ord : MapOrder)
    (c : Commit) (rallyRef : GoMap) (w : World) (cache : List (String × String))
    (hcache : w.userCache = some cache) :
    ∃ issued, issued <+: updateRequests cfg c.Message (commitEntries cfg tr ord c rallyRef w) ∧
      (untilChangeset up cfg tr ord c rallyRef w).2 =
        { log := (afterCache cfg tr c w).log ++ issued,
          userCache := (afterCache cfg tr c w).userCache } ∧
      (∀ r, (untilChangeset up cfg tr ord c rallyRef w).1 = .ret r →
        issued = updateRequests cfg c.Message (commitEntries cfg tr ord c rallyRef w) ∧
        r = (commitEntries cfg tr ord c rallyRef w).map fun e => { Ref := e.2 }) := by
  have hcu := cacheUser_some cfg tr c.Author.Email w cache hcache
  have hret : ∃ w1, cacheUser cfg tr c.Author.Email w = (.ret (), w1) := by
    rw [hcu]; cases cache.lookup c.Author.Email <;> exact ⟨_, rfl⟩
  obtain ⟨w1, hw1⟩ := hret
  have haf : afterCache cfg tr c w = w1 := by simp [afterCache, hw1]
  unfold untilChangeset
  simp only [hw1, commitEntries, haf, visited]
  split_ifs with h
  · obtain ⟨issued, h1, h2, h3⟩ :=
      stateLoop_log up cfg tr c.Message (ord w1.log rallyRef.entries) [] w1
    exact ⟨issued, h1, h2, fun r hr => by simpa using h3 r hr⟩
  · exact ⟨[], by simp [updateRequests], by simp, by intro r hr; simp at hr; simp [updateRequests, hr]⟩

theorem untilChangeset_eq (up : URLParse) (cfg : Config) (tr : Tracker) (ord : MapOrder)
    (c : Commit) (rallyRef : GoMap) (w : World) (cache : List (String × String))
    (hcache : w.userCache = some cache) (hkeys : AlnumKeys rallyRef.entries) (hfair : ord.fair)
    (hparse : ∀ q ∈ updateRequests cfg c.Message (commitEntries cfg tr ord c rallyRef w),
      up q.url = true) :
    untilChangeset up cfg tr ord c rallyRef w =
      (.ret ((commitEntries cfg tr ord c rallyRef w).map fun e => { Ref := e.2 }),
        beforeChangeset cfg tr ord c rallyRef w) := by
  have hcu := cacheUser_some cfg tr c.Author.Email w cache hcache
  have hret : ∃ w1, cacheUser cfg tr c.Author.Email w = (.ret (), w1) := by
    rw [hcu]; cases cache.lookup c.Author.Email <;> exact ⟨_, rfl⟩
  obtain ⟨w1, hw1⟩ := hret
  have haf : afterCache cfg tr c w = w1 := by simp [afterCache, hw1]
  simp only [commitEntries, haf] at hparse
  have hst := stateLoop_ret up cfg tr c.Message (visited ord rallyRef w1.log)
    (visited_alnum ord hfair rallyRef w1.log hkeys) hparse [] w1
  unfold untilChangeset
  simp only [hw1, beforeChangeset, commitEntries, haf]
  unfold visited at hst ⊢
  split_ifs with h
  · rw [if_pos h] at hst; simpa using hst
  · simp [updateRequests]

/-- `AddChangeSet` on an initialised cache, with resolved artifacts keyed by identifiers
whose state updates go to references that parse, step by step: the cache block, the
state updates, the changeset-create request, and what follows its reply. -/
theorem AddChangeSet_eq (up : URLParse) (cfg : Config) (tr : Tracker) (ord : MapOrder) (c : Commit)
    (scmrepo : String) (rallyRef : GoMap) (repoURL branch : String) (w : World)
    (cache : List (String × String)) (hcache : w.userCache = some cache)
    (hkeys : AlnumKeys rallyRef.entries) (hfair : ord.fair)
    (hparse : ∀ q ∈ updateRequests cfg c.Message (commitEntries cfg tr ord c rallyRef w),
      up q.url = true) :
    AddChangeSet up cfg tr ord c scmrepo rallyRef repoURL branch w =
      match tr ((beforeChangeset cfg tr ord c rallyRef w).log ++
          [changesetRequest cfg (commitChangeset cfg tr ord c scmrepo rallyRef repoURL w)]) with
      | .transportError =>
        (.ret (some .transport),
          { log := (beforeChangeset cfg tr ord c rallyRef w).log ++
              [changesetRequest cfg (commitChangeset cfg tr ord c scmrepo rallyRef repoURL w)],
            userCache := (afterCache cfg tr c w).userCache })
      | .response b =>
        match b.asCreate with
        | none =>
          (.ret (some .decode),
            { log := (beforeChangeset cfg tr ord c rallyRef w).log ++
                [changesetRequest cfg (commitChangeset cfg tr ord c scmrepo rallyRef repoURL w)],
              userCache := (afterCache cfg tr c w).userCache })
        | some r =>
          if r.CreateResult.Object.Ref = "" then
            (.ret (some (.msg "unable to create changeset")),
              { log := (beforeChangeset cfg tr ord c rallyRef w).log ++
                  [changesetRequest cfg (commitChangeset cfg tr ord c scmrepo rallyRef repoURL w)],
                userCache := (afterCache cfg tr c w).userCache })
          else
            (.ret none,
              { log := (beforeChangeset cfg tr ord c rallyRef w).log ++
                  changesetRequest cfg (commitChangeset cfg tr ord c scmrepo rallyRef repoURL w) ::
                  changeRequests cfg c r.CreateResult.Object.Ref repoURL branch,
                userCache := (afterCache cfg tr c w).userCache }) := by
  rw [AddChangeSet_split,
    untilChangeset_eq up cfg tr ord c rallyRef w cache hcache hkeys hfair hparse]
  simp only [commitChangeset, buildChangeset_changesetOf, beforeChangeset]

theorem lookup_append_fields (k : String) (l1 l2 : List (String × Json)) :
    (l1 ++ l2).lookup k = match l1.lookup k with
      | some v => some v
      | none => l2.lookup k := by
  induction l1 with
  | nil => rfl
  | cons e es ih =>
    obtain ⟨a, b⟩ := e
    simp only [List.cons_append, List.lookup_cons]
    cases h : (k == a) with
    | true => rfl
    | false => exact ih

theorem lookup_omitempty (k key value : String) :
    (omitemptyStr key value).lookup k =
      if k = key ∧ value ≠ "" then some (.str value) else none := by
  unfold omitemptyStr
  by_cases hv : value = ""
  · simp [hv]
  · by_cases hk : k = key
    · simp [hv, hk, List.lookup]
    · have : (k == key) = false := by simpa using hk
      simp [hv, hk, List.lookup, this]

theorem field_author (cs : Changeset) :
    (marshalChangeset cs).field "Author" =
      if cs.Author = "" then none else some (.str cs.Author) := by
  simp only [marshalChangeset, Json.field, lookup_append_fields, lookup_omitempty]
  have h1 : ("Author" == "Artifacts") = false := by decide
  by_cases ha : cs.Artifacts.isEmpty = true <;> by_cases hb : cs.Author = "" <;>
    simp [ha, hb, List.lookup, h1]

theorem field_artifacts (cs : Changeset) :
    (marshalChangeset cs).field "Artifacts" =
      if cs.Artifacts.isEmpty then none
      else some (Json.arr (cs.Artifacts.map marshalReference)) := by
  simp only [marshalChangeset, Json.field, lookup_append_fields, lookup_omitempty]
  by_cases ha : cs.Artifacts.isEmpty = true
  · simp [ha, List.lookup]
  · simp [ha, List.lookup]

theorem lookup_omitempty_ne (k key value : String) (h : k ≠ key) :
    (omitemptyStr key value).lookup k = none := by
  rw [lookup_omitempty]
  simp [h]

theorem lookup_omitempty_self (key value : String) :
    (omitemptyStr key value).lookup key = if value = "" then none else some (.str value) := by
  rw [lookup_omitempty]
  by_cases h : value = "" <;> simp [h]

theorem lookup_artifacts_ne (k : String) (refs : List Reference) (h : k ≠ "Artifacts") :
    (if refs.isEmpty then [] else [("Artifacts", Json.arr (refs.map marshalReference))]).lookup k =
      none := by
  have : (k == "Artifacts") = false := by simpa using h
  split_ifs <;> simp [List.lookup, this]

/-- The string members of the encoding of a changeset: each is present exactly when its
value is not empty, and holds that value. -/
theorem field_strings (cs : Changeset) :
    (marshalChangeset cs).field "Author" =
      (if cs.Author = "" then none else some (.str cs.Author)) ∧
    (marshalChangeset cs).field "CommitTimestamp" =
      (if cs.CommitTimestamp = "" then none else some (.str cs.CommitTimestamp)) ∧
    (marshalChangeset cs).field "Message" =
      (if cs.Message = "" then none else some (.str cs.Message)) ∧
    (marshalChangeset cs).field "Revision" =
      (if cs.Revision = "" then none else some (.str cs.Revision)) ∧
    (marshalChangeset cs).field "SCMRepository" =
      (if cs.SCMRepository = "" then none else some (.str cs.SCMRepository)) ∧
    (marshalChangeset cs).field "Uri" =
      (if cs.Uri = "" then none else some (.str cs.Uri)) := by
  refine ⟨?_, ?_, ?_, ?_, ?_, ?_⟩
  · simp only [marshalChangeset, Json.field, lookup_append_fields]
    rw [lookup_artifacts_ne _ _ (by decide)]
    simp only [lookup_omitempty]
    by_cases h : cs.Author = "" <;> simp [h]
  · simp only [marshalChangeset, Json.field, lookup_append_fields]
    rw [lookup_artifacts_ne _ _ (by decide)]
    simp only [lookup_omitempty]
    by_cases h : cs.CommitTimestamp = "" <;> simp [h]
  · simp only [marshalChangeset, Json.field, lookup_append_fields]
    rw [lookup_artifacts_ne _ _ (by decide)]
    simp only [lookup_omitempty]
    by_cases h : cs.Message = "" <;> simp [h]
  · simp only [marshalChangeset, Json.field, lookup_append_fields]
    rw [lookup_artifacts_ne _ _ (by decide)]
    simp only [lookup_omitempty]
    by_cases h : cs.Revision = "" <;> simp [h]
  · simp only [marshalChangeset, Json.field, lookup_append_fields]
    rw [lookup_artifacts_ne _ _ (by decide)]
    simp only [lookup_omitempty]
    by_cases h : cs.SCMRepository = "" <;> simp [h]
  · simp only [marshalChangeset, Json.field, lookup_append_fields]
    rw [lookup_artifacts_ne _ _ (by decide)]
    simp only [lookup_omitempty]
    by_cases h : cs.Uri = "" <;> simp [h]

/-- The encoding of a changeset has no member besides the seven the service sets. -/
theorem field_other (cs : Changeset) (k : String) (h : k ∉ changesetMembers) :
    (marshalChangeset cs).field k = none := by
  simp only [changesetMembers, List.mem_cons, List.mem_singleton, List.mem_nil_iff, or_false,
    not_or] at h
  obtain ⟨h1, h2, h3, h4, h5, h6, h7⟩ := h
  simp only [marshalChangeset, Json.field, lookup_append_fields]
  rw [lookup_artifacts_ne _ _ h1, lookup_omitempty_ne _ _ _ h2, lookup_omitempty_ne _ _ _ h3,
    lookup_omitempty_ne _ _ _ h4, lookup_omitempty_ne _ _ _ h5, lookup_omitempty_ne _ _ _ h6,
    lookup_omitempty_ne _ _ _ h7]

/-- When the part of `AddChangeSet` up to the changeset-create request returns, the
references it collected are those of the entries of the resolved artifacts, one for
each, and the cache is as the cache block left it. -/
theorem untilChangeset_refs (up : URLParse) (cfg : Config) (tr : Tracker) (ord : MapOrder)
    (hfair : ord.fair) (c : Commit) (rallyRef : GoMap) (w : World) (refs : List Reference)
    (h : (untilChangeset up cfg tr ord c rallyRef w).1 = .ret refs) :
    (∃ es : List (String × String), es.Perm rallyRef.entries ∧ refs = es.map fun e => { Ref := e.2 }) ∧
    (untilChangeset up cfg tr ord c rallyRef w).2.userCache =
      (afterCache cfg tr c w).userCache := by
  revert h
  unfold untilChangeset afterCache
  rcases cacheUser cfg tr c.Author.Email w with ⟨o, w1⟩
  cases o with
  | panic => intro h; simp at h
  | ret u =>
    dsimp only
    split_ifs with hlen
    · intro h
      obtain ⟨issued, _, h2, h3⟩ :=
        stateLoop_log up cfg tr c.Message (ord w1.log rallyRef.entries) [] w1
      obtain ⟨_, h5⟩ := h3 refs h
      exact ⟨⟨_, hfair _ _, by simpa using h5⟩, by rw [h2]⟩
    · intro h
      have hnil : rallyRef.entries = [] := by
        simp only [GoMap.len, gt_iff_lt, List.length_pos, ne_eq, not_not] at hlen
        exact hlen
      simp only [Outcome.ret.injEq] at h
      exact ⟨⟨[], by rw [hnil], by simp [← h]⟩, rfl⟩

/-! ## The claims -/

/-- With a tracker whose responses with a non-zero result count carry a result,
`FindRallyArtifact` returns a map after sending one lookup for each leftmost
non-overlapping match, in their order; an identifier is a key of the map exactly when
some lookup for it found something, and its value is what the last such lookup found.
For a message with `US12345` and `TA6789` the map has these two keys when the tracker
knows both, and one key when it knows one. -/
theorem findRallyArtifact_of_wellFormed (cfg : Config) (tr : Tracker) (commit : Commit) (w : World)
    (ms : List IdMatch) (hwf : WellFormed tr) (hs : Scan commit.Message.data ms) :
    (∃ m, FindRallyArtifact cfg tr commit w =
        (.ret m, { log := w.log ++ lookupRequests cfg ms, userCache := w.userCache }) ∧
      ∀ id, m.get? id = lastHit id (lookupTrace cfg tr ms w.log)) ∧
    (FindRallyArtifact cfg0 (knowingTracker ["US12345", "TA6789"])
        (commitOf "US12345 and TA6789") world0).1 =
      .ret (some [("US12345", "https://rally.example/obj/1"),
        ("TA6789", "https://rally.example/obj/1")]) ∧
    (FindRallyArtifact cfg0 (knowingTracker ["US12345"])
        (commitOf "US12345 and TA6789") world0).1 =
      .ret (some [("US12345", "https://rally.example/obj/1")]) := by
  refine ⟨?_, by decide, by decide⟩
  rw [FindRallyArtifact_eq cfg tr commit w ms hs]
  cases ms with
  | nil =>
    exact ⟨none, by simp [lookupRequests], by intro id; simp [GoMap.get?, GoMap.entries, lookupTrace, lastHit]⟩
  | cons m ms =>
    obtain ⟨arts, h1, h2⟩ := findLoop_wellFormed cfg tr hwf (m :: ms) [] w
    refine ⟨some arts, by simpa using h1, ?_⟩
    intro id
    simp only [GoMap.get?, GoMap.entries, Option.getD_some, h2 id]
    cases lastHit id (lookupTrace cfg tr (m :: ms) w.log) <;> simp

/-- C1: the code at the failing input. The message holds the identifier `US1` and the
response to its lookup is decodable and reports one result without carrying any:
`FindRallyArtifact` reads the first result and panics after its one lookup, so no map
is returned (where the claim has a map with the key `US1`). -/
theorem findRallyArtifact_missing_result_panics :
    (FindRallyArtifact cfg0 countOnlyTracker (commitOf "US1") world0).1 = .panic ∧
    (FindRallyArtifact cfg0 countOnlyTracker (commitOf "US1") world0).2.log.map
      (fun r => r.query) = [some "(FormattedID = US1)"] ∧
    FindAllStringSubmatch artifactRegex "US1" = [["US1", "US"]] ∧
    countOnlyTracker [artifactRequest cfg0 "US1" "US"] =
      .response { asQuery := some ⟨⟨1, []⟩⟩, asCreate := none, asUpdate := none } ∧
    ¬ WellFormed countOnlyTracker := by
  refine ⟨by decide, by decide, by decide, rfl, ?_⟩
  intro h
  exact h [] _ ⟨⟨1, []⟩⟩ rfl rfl (by decide) rfl

/-- C2: for a commit message without a substring of the form of an identifier (a
prefix followed by a digit) `FindRallyArtifact` returns a map of length 0 and sends
nothing to the tracker. -/
theorem findRallyArtifact_no_identifier (cfg : Config) (tr : Tracker) (commit : Commit)
    (w : World) (h : ¬ ContainsId commit.Message.data) :
    ∃ m, FindRallyArtifact cfg tr commit w = (.ret m, w) ∧ m.len = 0 := by
  obtain ⟨ms, hms, _⟩ := allMatches_scan commit.Message.data
  have hnil := scan_nil_of_not_containsId hms h
  subst hnil
  rw [FindRallyArtifact_eq cfg tr commit w [] hms]
  exact ⟨none, by simp, rfl⟩

theorem findRallyArtifact_no_identifier_witness :
    ¬ ContainsId (commitOf "Fix the build").Message.data ∧
    ∃ m, FindRallyArtifact cfg0 okTracker (commitOf "Fix the build") world0 = (.ret m, world0) ∧
      m.len = 0 :=
  ⟨not_containsId_of_no_digit _ (by decide),
   findRallyArtifact_no_identifier cfg0 okTracker (commitOf "Fix the build") world0
     (not_containsId_of_no_digit _ (by decide))⟩

/-- C3: the submatches of a commit message are its leftmost non-overlapping matches,
the captured group of each being its prefix: the identifier is the prefix, made of
letters, followed by digits only. The requests `FindRallyArtifact` sends are the lookup
requests of the matches, in their order: the lookup of the first match is always sent,
the lookups of all the matches are sent whenever the call returns, and nothing else is
ever sent. The lookup of a match is a GET of the collection of the match's prefix
(`D`, `DE`: defect; `DS`: defectsuite; `TA`: task; `TC`: testcase; `S`, `US`:
hierarchicalrequirement) with the query `(FormattedID = <identifier>)`; the collection
is never empty. `DE123` is looked up under `DE`, `DS7` under `DS`, `US5` under `US`. -/
theorem findRallyArtifact_lookup_target (cfg : Config) (tr : Tracker) (commit : Commit)
    (w : World) :
    (∃ ms, Scan commit.Message.data ms ∧
      FindAllStringSubmatch artifactRegex commit.Message = ms.map IdMatch.toSubmatch ∧
      (∃ issued, issued <+: lookupRequests cfg ms ∧
        (FindRallyArtifact cfg tr commit w).2.log = w.log ++ issued ∧
        (∀ r, (FindRallyArtifact cfg tr commit w).1 = .ret r →
          issued = lookupRequests cfg ms) ∧
        (∀ m rest, ms = m :: rest → ∃ more, issued = artifactRequest cfg m.id m.pfx :: more)) ∧
      ∀ m ∈ ms,
        m.pfx ∈ artifactPrefixes ∧ m.id.data = m.pfx.data ++ m.digits ∧
        (∀ c ∈ m.pfx.data, c.isAlpha = true) ∧ m.digits ≠ [] ∧
        (∀ d ∈ m.digits, d.isDigit = true) ∧
        artifactRequest cfg m.id m.pfx =
          { method := "GET",
            url := cfg.RallyURL ++ "/slm/webservice/v2.0/" ++ collectionOf m.pfx,
            query := some ("(FormattedID = " ++ m.id ++ ")"),
            header := [("ZSESSIONID", cfg.APIToken)], body := none } ∧
        collectionOf m.pfx ≠ "") ∧
    artifactPrefixes.map collectionOf =
      ["defect", "defect", "defectsuite", "task", "testcase", "hierarchicalrequirement",
       "hierarchicalrequirement"] ∧
    FindAllStringSubmatch artifactRegex "DE123" = [["DE123", "DE"]] ∧
    FindAllStringSubmatch artifactRegex "DS7" = [["DS7", "DS"]] ∧
    FindAllStringSubmatch artifactRegex "US5" = [["US5", "US"]] ∧
    (FindRallyArtifact cfg0 okTracker (commitOf "DE123 DS7 US5") world0).2.log.map
      (fun q => (q.url, q.query)) =
      [("https://rally.example/slm/webservice/v2.0/defect", some "(FormattedID = DE123)"),
       ("https://rally.example/slm/webservice/v2.0/defectsuite", some "(FormattedID = DS7)"),
       ("https://rally.example/slm/webservice/v2.0/hierarchicalrequirement",
        some "(FormattedID = US5)")] := by
  refine ⟨?_, by decide, by decide, by decide, by decide, by decide⟩
  obtain ⟨ms, hms, hall⟩ := allMatches_scan commit.Message.data
  refine ⟨ms, hms, hall, ?_, ?_⟩
  · rw [FindRallyArtifact_eq cfg tr commit w ms hms]
    cases ms with
    | nil =>
      exact ⟨[], by simp [lookupRequests], by simp, by intro r _; simp [lookupRequests],
        by intro m rest h; simp at h⟩
    | cons m ms =>
      obtain ⟨issued, h1, h2, h3⟩ := findLoop_log cfg tr (m :: ms) [] w
      obtain ⟨more, h4⟩ := findLoop_first cfg tr m ms [] w
      have h5 := congrArg World.log h2
      simp only [List.isEmpty_cons, Bool.false_eq_true, if_false]
      refine ⟨issued, h1, h5, h3, ?_⟩
      intro m2 rest hm
      simp only [List.cons.injEq] at hm
      obtain ⟨rfl, _⟩ := hm
      rw [h4] at h5
      exact ⟨more, (List.append_cancel_left h5).symm⟩
  · intro m hm
    obtain ⟨hp, hne, hd⟩ := scan_match_shape hms m hm
    obtain ⟨hr, hc⟩ := artifactRequest_of_prefix cfg m hp
    exact ⟨hp, rfl, prefix_all_alpha m.pfx hp, hne, hd, hr, hc⟩

/-- C4: the code at the failing input. The message `US1 US2` has two matches, and the
response to the first lookup reports one result without carrying any:
`FindRallyArtifact` panics after the first lookup and sends no lookup for `US2`. -/
theorem findRallyArtifact_missing_result_stops_lookups :
    FindAllStringSubmatch artifactRegex "US1 US2" = [["US1", "US"], ["US2", "US"]] ∧
    (FindRallyArtifact cfg0 countOnlyTracker (commitOf "US1 US2") world0).1 = .panic ∧
    (FindRallyArtifact cfg0 countOnlyTracker (commitOf "US1 US2") world0).2.log.map
      (fun r => r.query) = [some "(FormattedID = US1)"] := by
  refine ⟨by decide, by decide, by decide⟩

theorem checkForStatus_signals (message id : String) (hid : id.data.all Char.isAlphanum = true) :
    ∃ start complete, checkForStatus message id = some (start, complete) ∧
      (start = true ↔ Signals ["STARTS", "BEGINS"] message id) ∧
      (complete = true ↔ Signals ["COMPLETES", "FINISHES"] message id) :=
  ⟨_, _, checkForStatus_eq message id hid, matchString_keyword_iff "STARTS" "BEGINS" message id,
    matchString_keyword_iff "COMPLETES" "FINISHES" message id⟩

/-- C5: for an entry `k ↦ v` of the resolved artifacts, `k` an identifier, the loop of
`AddChangeSet` derives the state "In-Progress" when the message signals only a start
for `k`, and "Completed" when it signals a completion for `k` (also when it signals
both), and calls `UpdateState` for that state and the reference `v`, going on with the
next entry when the call returns and stopping with its panic; when the message signals
neither, the state is empty, `UpdateState` is not called and nothing is sent for the
entry. `UpdateState` sends its request when the reference parses and panics, sending
nothing, when it does not. "STARTS US1 - fix" gives "In-Progress" for `US1` and
"COMPLETES US1 - fix" gives "Completed". -/
theorem addChangeSet_target_state (up : URLParse) (cfg : Config) (tr : Tracker)
    (message k v : String)
    (es : List (String × String)) (refs : List Reference) (w : World)
    (hk : k.data.all Char.isAlphanum = true) :
    (Signals ["STARTS", "BEGINS"] message k → ¬ Signals ["COMPLETES", "FINISHES"] message k →
      (checkForStatus message k).map (fun r => targetState r.1 r.2) = some "In-Progress" ∧
      stateLoop up cfg tr message ((k, v) :: es) refs w =
        match UpdateState up cfg tr v "In-Progress" w with
        | (.panic, w1) => (.panic, w1)
        | (.ret _, w1) => stateLoop up cfg tr message es (refs ++ [{ Ref := v }]) w1) ∧
    (Signals ["COMPLETES", "FINISHES"] message k →
      (checkForStatus message k).map (fun r => targetState r.1 r.2) = some "Completed" ∧
      stateLoop up cfg tr message ((k, v) :: es) refs w =
        match UpdateState up cfg tr v "Completed" w with
        | (.panic, w1) => (.panic, w1)
        | (.ret _, w1) => stateLoop up cfg tr message es (refs ++ [{ Ref := v }]) w1) ∧
    (¬ Signals ["STARTS", "BEGINS"] message k → ¬ Signals ["COMPLETES", "FINISHES"] message k →
      (checkForStatus message k).map (fun r => targetState r.1 r.2) = some "" ∧
      stateLoop up cfg tr message ((k, v) :: es) refs w =
        stateLoop up cfg tr message es (refs ++ [{ Ref := v }]) w) ∧
    (∀ state, up v = true → ∃ e, UpdateState up cfg tr v state w =
      (.ret e, { log := w.log ++ [updateRequest cfg v state], userCache := w.userCache })) ∧
    (∀ state, up v = false → UpdateState up cfg tr v state w = (.panic, w)) ∧
    (checkForStatus "STARTS US1 - fix" "US1").map (fun r => targetState r.1 r.2) =
      some "In-Progress" ∧
    (checkForStatus "COMPLETES US1 - fix" "US1").map (fun r => targetState r.1 r.2) =
      some "Completed" ∧
    (checkForStatus "STARTS US1 and COMPLETES US1" "US1").map (fun r => targetState r.1 r.2) =
      some "Completed" := by
  obtain ⟨start, complete, hc, hs, hcm⟩ := checkForStatus_signals message k hk
  refine ⟨?_, ?_, ?_, fun state h => UpdateState_ret up cfg tr v state w h,
    fun state h => UpdateState_panic up cfg tr v state w h, by decide, by decide, by decide⟩
  · intro h1 h2
    have e1 : start = true := hs.mpr h1
    have e2 : complete = false := by
      cases complete with
      | false => rfl
      | true => exact absurd (hcm.mp rfl) h2
    subst e1; subst e2
    refine ⟨by rw [hc]; rfl, ?_⟩
    simp only [stateLoop, hc]
    rfl
  · intro h2
    have e2 : complete = true := hcm.mpr h2
    subst e2
    refine ⟨by rw [hc]; cases start <;> rfl, ?_⟩
    simp only [stateLoop, hc]
    cases start <;> rfl
  · intro h1 h2
    have e1 : start = false := by
      cases start with
      | false => rfl
      | true => exact absurd (hs.mp rfl) h1
    have e2 : complete = false := by
      cases complete with
      | false => rfl
      | true => exact absurd (hcm.mp rfl) h2
    subst e1; subst e2
    refine ⟨by rw [hc]; rfl, ?_⟩
    simp only [stateLoop, hc]
    rfl

theorem addChangeSet_target_state_witness :
    "US1".data.all Char.isAlphanum = true ∧
    (checkForStatus "STARTS US1 - fix" "US1").map (fun r => targetState r.1 r.2) =
      some "In-Progress" :=
  ⟨by decide,
   (addChangeSet_target_state exampleParse cfg0 okTracker "STARTS US1 - fix" "US1"
      "https://rally.example/obj/1" [] [] world0 (by decide)).2.2.2.2.2.1⟩

/-- C6: for an identifier made of letters and digits `checkForStatus` returns
`start = true` exactly when the message contains `STARTS` or `BEGINS`, then one
whitespace character (of the class `\s`), then the identifier, and `complete = true`
exactly when it contains `COMPLETES` or `FINISHES`, then one whitespace character, then
the identifier. The keywords are matched letter for letter: a message that does not
contain a keyword in upper case signals nothing, as `starts US1` and `Completes US1`. -/
theorem checkForStatus_keywords (message id : String)
    (hid : id.data.all Char.isAlphanum = true) :
    (∃ start complete, checkForStatus message id = some (start, complete) ∧
      (start = true ↔ Signals ["STARTS", "BEGINS"] message id) ∧
      (complete = true ↔ Signals ["COMPLETES", "FINISHES"] message id)) ∧
    ((∀ kw ∈ ["STARTS", "BEGINS", "COMPLETES", "FINISHES"], ¬ kw.data <:+: message.data) →
      checkForStatus message id = some (false, false)) ∧
    checkForStatus "starts US1 - fix" "US1" = some (false, false) ∧
    checkForStatus "Starts US1 - fix" "US1" = some (false, false) ∧
    checkForStatus "Completes US1 and finishes US1" "US1" = some (false, false) ∧
    checkForStatus "BEGINS\tUS1 and FINISHES\nUS1" "US1" = some (true, true) := by
  refine ⟨checkForStatus_signals message id hid, ?_, by decide, by decide, by decide, by decide⟩
  intro hno
  obtain ⟨start, complete, hc, hs, hcm⟩ := checkForStatus_signals message id hid
  have key : ∀ kws : List String, (∀ kw ∈ kws, ¬ kw.data <:+: message.data) →
      ¬ Signals kws message id := by
    rintro kws hk ⟨pre, kw, ws, post, hkw, _, e⟩
    exact hk kw hkw ⟨pre, ws :: (id.data ++ post), by rw [e]⟩
  have e1 : start = false := by
    cases start with
    | false => rfl
    | true =>
      exact absurd (hs.mp rfl) (key _ fun kw hkw => hno kw (by
        simp only [List.mem_cons, List.mem_singleton, List.mem_nil_iff, or_false] at hkw ⊢
        tauto))
  have e2 : complete = false := by
    cases complete with
    | false => rfl
    | true =>
      exact absurd (hcm.mp rfl) (key _ fun kw hkw => hno kw (by
        simp only [List.mem_cons, List.mem_singleton, List.mem_nil_iff, or_false] at hkw ⊢
        tauto))
  rw [hc, e1, e2]

theorem checkForStatus_keywords_witness :
    "US12345".data.all Char.isAlphanum = true ∧
    ∃ start complete,
      checkForStatus "STARTS US12345 - misnamed CompletionPercentage" "US12345" =
        some (start, complete) ∧
      (start = true ↔
        Signals ["STARTS", "BEGINS"] "STARTS US12345 - misnamed CompletionPercentage" "US12345") ∧
      (complete = true ↔
        Signals ["COMPLETES", "FINISHES"] "STARTS US12345 - misnamed CompletionPercentage"
          "US12345") :=
  ⟨by decide,
   (checkForStatus_keywords "STARTS US12345 - misnamed CompletionPercentage" "US12345"
      (by decide)).1⟩

/-- C7: the code at the failing input. In "STARTS US12 and touches US1" the keyword is
followed by the identifier `US12`, not `US1`; `checkForStatus` for `US1` returns
`start = true` all the same (its pattern ends with the identifier, whatever follows),
and `AddChangeSet` sends the state update "In-Progress" for `US1`. -/
theorem checkForStatus_prefix_identifier :
    FindAllStringSubmatch artifactRegex "STARTS US12 and touches US1" =
      [["US12", "US"], ["US1", "US"]] ∧
    checkForStatus "STARTS US12 and touches US1" "US1" = some (true, false) ∧
    (updateRequests cfg0 "STARTS US12 and touches US1"
      [("US1", "https://rally.example/obj/1")]).map (fun r => (r.url, r.body.isSome)) =
      [("https://rally.example/obj/1", true)] ∧
    updateRequests cfg0 "STARTS US12 and touches US1" [("US1", "https://rally.example/obj/1")] =
      [updateRequest cfg0 "https://rally.example/obj/1" "In-Progress"] := by
  refine ⟨by decide, by decide, by decide, ?_⟩
  have h : checkForStatus "STARTS US12 and touches US1" "US1" = some (true, false) := by decide
  simp [updateRequests, h, targetState]

theorem buildChangeset_eq (c : Commit) (scmrepo repoURL userRef : String)
    (artifactRefs : List Reference) :
    buildChangeset c scmrepo repoURL userRef artifactRefs =
      { SCMRepository := scmrepo, Revision := c.ID, Message := c.Message,
        Uri := repoURL ++ "/commit/" ++ c.ID, CommitTimestamp := c.Timestamp,
        Author := userRef, Artifacts := artifactRefs } := by
  unfold buildChangeset
  cases artifactRefs with
  | nil =>
    by_cases h : userRef = ""
    · simp [h]
    · simp [h]
  | cons a as =>
    by_cases h : userRef = ""
    · simp [h]
    · simp [h]

theorem refs0_alnum : AlnumKeys refs0.entries := by
  intro e he
  simp only [refs0, GoMap.entries, Option.getD_some, List.mem_singleton] at he
  subst he
  decide

theorem storedOrder_fair : storedOrder.fair := fun _ _ => List.Perm.refl _

/-- C8: whenever `AddChangeSet` gets as far as its changeset-create request (the cache
block and the loop over the resolved artifacts return), that request comes next: a POST
to `<RallyURL>/slm/webservice/v2.0/changeset/create` whose body has the one member
`Changeset`, the changeset with SCMRepository the repository reference, Revision the
commit id, Message the commit message, Uri `<repoURL>/commit/<commit id>`,
CommitTimestamp the commit timestamp, Author the user reference the cache block left in
the cache, and Artifacts one reference for each entry of the resolved artifacts. In the
body each string member is present with its value exactly when the value is not empty
(so Author exactly when the cached reference is not empty), Artifacts is present
exactly when the mapping has an entry, and there is no other member. -/
theorem addChangeSet_changeset_request (up : URLParse) (cfg : Config) (tr : Tracker)
    (ord : MapOrder) (c : Commit) (scmrepo : String) (rallyRef : GoMap)
    (repoURL branch : String) (w : World) (artifactRefs : List Reference) (w2 : World)
    (hfair : ord.fair)
    (hpre : untilChangeset up cfg tr ord c rallyRef w = (.ret artifactRefs, w2)) :
    (∃ rest, (AddChangeSet up cfg tr ord c scmrepo rallyRef repoURL branch w).2.log =
      w2.log ++ changesetRequest cfg
        (changesetOf c scmrepo repoURL (w2.userCache.get c.Author.Email) artifactRefs) :: rest) ∧
    changesetRequest cfg
        (changesetOf c scmrepo repoURL (w2.userCache.get c.Author.Email) artifactRefs) =
      { method := "POST", url := cfg.RallyURL ++ "/slm/webservice/v2.0/changeset/create",
        query := none, header := [("ZSESSIONID", cfg.APIToken)],
        body := some (.obj [("Changeset", marshalChangeset
          (changesetOf c scmrepo repoURL (w2.userCache.get c.Author.Email) artifactRefs))]) } ∧
    w2.userCache = (afterCache cfg tr c w).userCache ∧
    (∃ es : List (String × String), es.Perm rallyRef.entries ∧
      artifactRefs = es.map (fun e => { Ref := e.2 }) ∧
      (marshalChangeset
        (changesetOf c scmrepo repoURL (w2.userCache.get c.Author.Email) artifactRefs)).field
          "Artifacts" =
        (if rallyRef.len = 0 then none
         else some (.arr (es.map fun e => .obj (omitemptyStr "_ref" e.2))))) ∧
    (marshalChangeset
      (changesetOf c scmrepo repoURL (w2.userCache.get c.Author.Email) artifactRefs)).field
        "Author" =
      (if w2.userCache.get c.Author.Email = "" then none
       else some (.str (w2.userCache.get c.Author.Email))) ∧
    (marshalChangeset
      (changesetOf c scmrepo repoURL (w2.userCache.get c.Author.Email) artifactRefs)).field
        "CommitTimestamp" = (if c.Timestamp = "" then none else some (.str c.Timestamp)) ∧
    (marshalChangeset
      (changesetOf c scmrepo repoURL (w2.userCache.get c.Author.Email) artifactRefs)).field
        "Message" = (if c.Message = "" then none else some (.str c.Message)) ∧
    (marshalChangeset
      (changesetOf c scmrepo repoURL (w2.userCache.get c.Author.Email) artifactRefs)).field
        "Revision" = (if c.ID = "" then none else some (.str c.ID)) ∧
    (marshalChangeset
      (changesetOf c scmrepo repoURL (w2.userCache.get c.Author.Email) artifactRefs)).field
        "SCMRepository" = (if scmrepo = "" then none else some (.str scmrepo)) ∧
    (marshalChangeset
      (changesetOf c scmrepo repoURL (w2.userCache.get c.Author.Email) artifactRefs)).field
        "Uri" =
      (if repoURL ++ "/commit/" ++ c.ID = "" then none
       else some (.str (repoURL ++ "/commit/" ++ c.ID))) ∧
    (∀ k, k ∉ changesetMembers →
      (marshalChangeset
        (changesetOf c scmrepo repoURL (w2.userCache.get c.Author.Email) artifactRefs)).field
          k = none) := by
  have h1 : (untilChangeset up cfg tr ord c rallyRef w).1 = .ret artifactRefs := by rw [hpre]
  obtain ⟨⟨es, hperm, hrefs⟩, hcache⟩ :=
    untilChangeset_refs up cfg tr ord hfair c rallyRef w artifactRefs h1
  rw [hpre] at hcache
  obtain ⟨f1, f2, f3, f4, f5, f6⟩ := field_strings
    (changesetOf c scmrepo repoURL (w2.userCache.get c.Author.Email) artifactRefs)
  refine ⟨?_, ?_, hcache, ⟨es, hperm, hrefs, ?_⟩, f1, f2, f3, f4, f5, f6, fun k hk => field_other _ k hk⟩
  · rw [AddChangeSet_split, hpre]
    dsimp only
    cases tr (w2.log ++ [changesetRequest cfg
        (changesetOf c scmrepo repoURL (w2.userCache.get c.Author.Email) artifactRefs)]) with
    | transportError => exact ⟨[], rfl⟩
    | response b =>
      dsimp only
      cases b.asCreate with
      | none => exact ⟨[], rfl⟩
      | some r =>
        dsimp only
        split_ifs
        · exact ⟨[], rfl⟩
        · exact ⟨_, rfl⟩
  · simp [changesetRequest, postRequest, DecorateRequest]
  · rw [field_artifacts]
    have hlen : es.length = rallyRef.len := by
      rw [GoMap.len]; exact hperm.length_eq
    simp only [changesetOf, hrefs, List.map_map]
    by_cases h0 : rallyRef.len = 0
    · have : es = [] := List.length_eq_zero.mp (by omega)
      simp [h0, this]
    · have : (es.map (fun e => ({ Ref := e.2 } : Reference))).isEmpty = false := by
        cases h : es with
        | nil => rw [h] at hlen; simp at hlen; omega
        | cons _ _ => rfl
      simp only [this, h0, if_false]
      rfl

theorem addChangeSet_changeset_request_witness :
    storedOrder.fair ∧
    (untilChangeset exampleParse cfg0 okTracker storedOrder (commitOf "STARTS US1 - fix") refs0
      world0).1 = .ret [{ Ref := "https://rally.example/obj/1" }] ∧
    (marshalChangeset (changesetOf (commitOf "STARTS US1 - fix") "https://rally.example/scm/1"
      "https://github.com/o/r"
      ((untilChangeset exampleParse cfg0 okTracker storedOrder (commitOf "STARTS US1 - fix") refs0
        world0).2.userCache.get (commitOf "STARTS US1 - fix").Author.Email)
      [{ Ref := "https://rally.example/obj/1" }])).field "Revision" = some (.str "abc123") ∧
    ((AddChangeSet exampleParse cfg0 okTracker storedOrder (commitOf "STARTS US1 - fix")
        "https://rally.example/scm/1" refs0 "https://github.com/o/r" "master" world0).2.log.map
          fun q => q.url).take 3 =
      ["https://rally.example/slm/webservice/v2.0/user", "https://rally.example/obj/1",
       "https://rally.example/slm/webservice/v2.0/changeset/create"] := by
  have hpre : untilChangeset exampleParse cfg0 okTracker storedOrder (commitOf "STARTS US1 - fix")
      refs0 world0 = (.ret [{ Ref := "https://rally.example/obj/1" }],
        (untilChangeset exampleParse cfg0 okTracker storedOrder (commitOf "STARTS US1 - fix") refs0
          world0).2) := Prod.ext (by decide) rfl
  have h := addChangeSet_changeset_request exampleParse cfg0 okTracker storedOrder
    (commitOf "STARTS US1 - fix") "https://rally.example/scm/1" refs0 "https://github.com/o/r"
    "master" world0 _ _ storedOrder_fair hpre
  refine ⟨storedOrder_fair, by decide, ?_, by decide⟩
  rw [h.2.2.2.2.2.2.2.1]
  rfl

/-- C9: whenever `AddChangeSet` gets as far as its changeset-create request and the
changeset is created with a non-empty reference, `AddChangeSet` returns nil after
sending, after the changeset-create request, exactly one change-create request for each
added, each modified and each removed path, in that order, a+m+r in all, whatever the
tracker replies to them: a POST to `<RallyURL>/slm/webservice/v2.0/change/create` with
the action `A`, `M` or `R`, the changeset reference, the path and the Uri
`<repoURL>/blob/<branch>/<path>`. -/
theorem addChangeSet_change_requests (up : URLParse) (cfg : Config) (tr : Tracker)
    (ord : MapOrder) (c : Commit) (scmrepo : String) (rallyRef : GoMap)
    (repoURL branch : String) (w : World) (artifactRefs : List Reference) (w2 : World)
    (b : Body) (r : RallyCreateResult)
    (hpre : untilChangeset up cfg tr ord c rallyRef w = (.ret artifactRefs, w2))
    (hreply : tr (w2.log ++ [changesetRequest cfg
      (changesetOf c scmrepo repoURL (w2.userCache.get c.Author.Email) artifactRefs)]) =
        .response b)
    (hb : b.asCreate = some r) (href : r.CreateResult.Object.Ref ≠ "") :
    AddChangeSet up cfg tr ord c scmrepo rallyRef repoURL branch w =
      (.ret none,
        { log := w2.log ++
            changesetRequest cfg
              (changesetOf c scmrepo repoURL (w2.userCache.get c.Author.Email) artifactRefs) ::
            (c.Added.map (changeRequest cfg "A" r.CreateResult.Object.Ref repoURL branch) ++
             c.Modified.map (changeRequest cfg "M" r.CreateResult.Object.Ref repoURL branch) ++
             c.Removed.map (changeRequest cfg "R" r.CreateResult.Object.Ref repoURL branch)),
          userCache := w2.userCache }) ∧
    (c.Added.map (changeRequest cfg "A" r.CreateResult.Object.Ref repoURL branch) ++
      c.Modified.map (changeRequest cfg "M" r.CreateResult.Object.Ref repoURL branch) ++
      c.Removed.map (changeRequest cfg "R" r.CreateResult.Object.Ref repoURL branch)).length =
      c.Added.length + c.Modified.length + c.Removed.length ∧
    ∀ action path, changeRequest cfg action r.CreateResult.Object.Ref repoURL branch path =
      { method := "POST", url := cfg.RallyURL ++ "/slm/webservice/v2.0/change/create",
        query := none, header := [("ZSESSIONID", cfg.APIToken)],
        body := some (.obj [("Change", .obj [("Action", .str action),
          ("Changeset", .str r.CreateResult.Object.Ref), ("PathAndFilename", .str path),
          ("Uri", .str (repoURL ++ "/blob/" ++ branch ++ "/" ++ path))])]) } := by
  refine ⟨?_, by simp [Nat.add_assoc], ?_⟩
  · rw [AddChangeSet_split, hpre]
    dsimp only
    rw [hreply]
    simp only [hb, href, if_false, changeRequests]
  · intro action path
    simp [changeRequest, postRequest, DecorateRequest, changeBody]

theorem addChangeSet_change_requests_witness :
    (untilChangeset exampleParse cfg0 okTracker storedOrder (commitOf "STARTS US1 - fix") refs0
      world0).1 = .ret [{ Ref := "https://rally.example/obj/1" }] ∧
    (AddChangeSet exampleParse cfg0 okTracker storedOrder (commitOf "STARTS US1 - fix")
        "https://rally.example/scm/1" refs0 "https://github.com/o/r" "master" world0).1 =
      .ret none ∧
    ((AddChangeSet exampleParse cfg0 okTracker storedOrder (commitOf "STARTS US1 - fix")
        "https://rally.example/scm/1" refs0 "https://github.com/o/r" "master" world0).2.log.map
      fun q => q.url) =
      ["https://rally.example/slm/webservice/v2.0/user",
       "https://rally.example/obj/1",
       "https://rally.example/slm/webservice/v2.0/changeset/create",
       "https://rally.example/slm/webservice/v2.0/change/create",
       "https://rally.example/slm/webservice/v2.0/change/create",
       "https://rally.example/slm/webservice/v2.0/change/create",
       "https://rally.example/slm/webservice/v2.0/change/create"] := by
  have hpre : untilChangeset exampleParse cfg0 okTracker storedOrder (commitOf "STARTS US1 - fix")
      refs0 world0 = (.ret [{ Ref := "https://rally.example/obj/1" }],
        (untilChangeset exampleParse cfg0 okTracker storedOrder (commitOf "STARTS US1 - fix") refs0
          world0).2) := Prod.ext (by decide) rfl
  have h := (addChangeSet_change_requests exampleParse cfg0 okTracker storedOrder
    (commitOf "STARTS US1 - fix") "https://rally.example/scm/1" refs0 "https://github.com/o/r"
    "master" world0 _ _ _ ⟨⟨⟨"https://rally.example/obj/2"⟩⟩⟩ hpre rfl rfl (by decide)).1
  refine ⟨by decide, by rw [h], ?_⟩
  rw [h]
  decide

/-- C10: whenever `AddChangeSet` gets as far as its changeset-create request and the
call fails in transport, or its response cannot be decoded, or the created object's
reference is empty, `AddChangeSet` returns an error and the changeset-create request is
the last request it sends: no change-create request follows. -/
theorem addChangeSet_create_failure (up : URLParse) (cfg : Config) (tr : Tracker)
    (ord : MapOrder) (c : Commit) (scmrepo : String) (rallyRef : GoMap)
    (repoURL branch : String) (w : World) (artifactRefs : List Reference) (w2 : World)
    (hpre : untilChangeset up cfg tr ord c rallyRef w = (.ret artifactRefs, w2))
    (hfail :
      tr (w2.log ++ [changesetRequest cfg
        (changesetOf c scmrepo repoURL (w2.userCache.get c.Author.Email) artifactRefs)]) =
          .transportError ∨
      ∃ b, tr (w2.log ++ [changesetRequest cfg
        (changesetOf c scmrepo repoURL (w2.userCache.get c.Author.Email) artifactRefs)]) =
          .response b ∧
        (b.asCreate = none ∨ ∃ r, b.asCreate = some r ∧ r.CreateResult.Object.Ref = "")) :
    (∃ err, (AddChangeSet up cfg tr ord c scmrepo rallyRef repoURL branch w).1 =
      .ret (some err)) ∧
    (AddChangeSet up cfg tr ord c scmrepo rallyRef repoURL branch w).2.log =
      w2.log ++ [changesetRequest cfg
        (changesetOf c scmrepo repoURL (w2.userCache.get c.Author.Email) artifactRefs)] ∧
    (tr (w2.log ++ [changesetRequest cfg
        (changesetOf c scmrepo repoURL (w2.userCache.get c.Author.Email) artifactRefs)]) =
          .transportError →
      (AddChangeSet up cfg tr ord c scmrepo rallyRef repoURL branch w).1 =
        .ret (some .transport)) ∧
    (∀ b, tr (w2.log ++ [changesetRequest cfg
        (changesetOf c scmrepo repoURL (w2.userCache.get c.Author.Email) artifactRefs)]) =
          .response b → b.asCreate = none →
      (AddChangeSet up cfg tr ord c scmrepo rallyRef repoURL branch w).1 =
        .ret (some .decode)) ∧
    (∀ b r, tr (w2.log ++ [changesetRequest cfg
        (changesetOf c scmrepo repoURL (w2.userCache.get c.Author.Email) artifactRefs)]) =
          .response b → b.asCreate = some r → r.CreateResult.Object.Ref = "" →
      (AddChangeSet up cfg tr ord c scmrepo rallyRef repoURL branch w).1 =
        .ret (some (.msg "unable to create changeset"))) := by
  rw [AddChangeSet_split, hpre]
  dsimp only
  refine ⟨?_, ?_, ?_, ?_, ?_⟩
  · rcases hfail with h | ⟨b, h, hb | ⟨r, hb, hr⟩⟩
    · rw [h]; exact ⟨_, rfl⟩
    · rw [h]; dsimp only; rw [hb]; exact ⟨_, rfl⟩
    · rw [h]; dsimp only; rw [hb]; dsimp only; rw [if_pos hr]; exact ⟨_, rfl⟩
  · rcases hfail with h | ⟨b, h, hb | ⟨r, hb, hr⟩⟩
    · rw [h]
    · rw [h]; dsimp only; rw [hb]
    · rw [h]; dsimp only; rw [hb]; dsimp only; rw [if_pos hr]
  · intro h; rw [h]
  · intro b h hb; rw [h]; dsimp only; rw [hb]
  · intro b r h hb hr; rw [h]; dsimp only; rw [hb]; dsimp only; rw [if_pos hr]

theorem addChangeSet_create_failure_witness :
    (untilChangeset exampleParse cfg0 downTracker storedOrder (commitOf "STARTS US1 - fix")
      refs0 world0).1 = .ret [{ Ref := "https://rally.example/obj/1" }] ∧
    (AddChangeSet exampleParse cfg0 downTracker storedOrder (commitOf "STARTS US1 - fix")
        "https://rally.example/scm/1" refs0 "https://github.com/o/r" "master" world0).1 =
      .ret (some .transport) ∧
    ((AddChangeSet exampleParse cfg0 downTracker storedOrder (commitOf "STARTS US1 - fix")
        "https://rally.example/scm/1" refs0 "https://github.com/o/r" "master" world0).2.log.map
      fun q => q.url) =
      ["https://rally.example/slm/webservice/v2.0/user",
       "https://rally.example/obj/1",
       "https://rally.example/slm/webservice/v2.0/changeset/create"] := by
  have hpre : untilChangeset exampleParse cfg0 downTracker storedOrder
      (commitOf "STARTS US1 - fix") refs0 world0 =
      (.ret [{ Ref := "https://rally.example/obj/1" }],
        (untilChangeset exampleParse cfg0 downTracker storedOrder (commitOf "STARTS US1 - fix")
          refs0 world0).2) := Prod.ext (by decide) rfl
  have h := addChangeSet_create_failure exampleParse cfg0 downTracker storedOrder
    (commitOf "STARTS US1 - fix") "https://rally.example/scm/1" refs0 "https://github.com/o/r"
    "master" world0 _ _ hpre (Or.inl rfl)
  refine ⟨by decide, h.2.2.1 rfl, ?_⟩
  rw [h.2.1]
  decide

theorem validateOrg_eq (cfg : Config) (tr : Tracker) (orgname : String) (w : World) :
    ValidateOrg cfg tr orgname w =
      (match (tr (w.log ++ [workspaceRequest cfg orgname])).results with
        | some [r] => (r.Ref, true)
        | _ => ("", false),
       { log := w.log ++ [workspaceRequest cfg orgname], userCache := w.userCache }) := by
  unfold ValidateOrg doRequest
  cases tr (w.log ++ [workspaceRequest cfg orgname]) with
  | transportError => rfl
  | response b =>
    dsimp only [Reply.results]
    cases b.asQuery with
    | none => rfl
    | some rr =>
      dsimp only
      rcases rr.QueryResult.Results with _ | ⟨r, _ | ⟨r2, rs⟩⟩ <;> rfl

/-- C12: when the workspace lookup does not yield exactly one result (a transport
failure, an undecodable response, no result or several results), `ReceivePush` returns
the result "workspace not found" with a non-nil error and starts no goroutine: the
workspace query is the only request of the push. -/
theorem receivePush_workspace_not_found (up : URLParse) (cfg : Config) (tr : Tracker) (ord : MapOrder)
    (event : PushEvent) (w : World)
    (h : ∀ r, (tr (w.log ++ [workspaceRequest cfg cfg.Workspace])).results ≠ some [r]) :
    ReceivePush cfg tr event w =
      ({ response := { Result := "workspace not found" },
         err := some (.msg "workspace not found"), started := none },
       { log := w.log ++ [workspaceRequest cfg cfg.Workspace], userCache := w.userCache }) ∧
    handlePush up cfg tr ord event w =
      ({ response := { Result := "workspace not found" },
         err := some (.msg "workspace not found"), started := none }, .ret (),
       { log := w.log ++ [workspaceRequest cfg cfg.Workspace], userCache := w.userCache }) ∧
    workspaceRequest cfg cfg.Workspace =
      { method := "GET", url := cfg.RallyURL ++ "/slm/webservice/v2.0/workspace",
        query := some ("(name = " ++ cfg.Workspace ++ ")"),
        header := [("ZSESSIONID", cfg.APIToken)], body := none } := by
  have hrp : ReceivePush cfg tr event w =
      ({ response := { Result := "workspace not found" },
         err := some (.msg "workspace not found"), started := none },
       { log := w.log ++ [workspaceRequest cfg cfg.Workspace], userCache := w.userCache }) := by
    unfold ReceivePush
    rw [validateOrg_eq]
    rcases hres : (tr (w.log ++ [workspaceRequest cfg cfg.Workspace])).results with
      _ | _ | ⟨r, _ | ⟨r2, rs⟩⟩
    · rfl
    · rfl
    · exact absurd hres (h r)
    · rfl
  refine ⟨hrp, ?_, ?_⟩
  · unfold handlePush
    rw [hrp]
  · simp [workspaceRequest, getRequest, DecorateRequest]

theorem receivePush_workspace_not_found_witness :
    (∀ r, (downTracker (world0.log ++ [workspaceRequest cfg0 cfg0.Workspace])).results ≠
      some [r]) ∧
    (handlePush exampleParse cfg0 downTracker storedOrder event0 world0).1 =
      { response := { Result := "workspace not found" },
        err := some (.msg "workspace not found"), started := none } ∧
    (handlePush exampleParse cfg0 garbageTracker storedOrder event0 world0).1.err =
      some (.msg "workspace not found") ∧
    (handlePush exampleParse cfg0 emptyRefTracker storedOrder event0 world0).1.err =
      some (.msg "workspace not found") ∧
    (handlePush exampleParse cfg0 twoResultsTracker storedOrder event0 world0).1.err =
      some (.msg "workspace not found") ∧
    ((handlePush exampleParse cfg0 twoResultsTracker storedOrder event0 world0).2.2.log.map fun q => q.url) =
      ["https://rally.example/slm/webservice/v2.0/workspace"] := by
  have h1 : ∀ r, (downTracker (world0.log ++ [workspaceRequest cfg0 cfg0.Workspace])).results ≠
      some [r] := fun r => by simp [downTracker, Reply.results]
  have h2 : ∀ r, (garbageTracker (world0.log ++ [workspaceRequest cfg0 cfg0.Workspace])).results ≠
      some [r] := fun r => by simp [garbageTracker, Reply.results]
  have h3 : ∀ r, (emptyRefTracker (world0.log ++ [workspaceRequest cfg0 cfg0.Workspace])).results ≠
      some [r] := fun r => by simp [emptyRefTracker, Reply.results]
  have h4 : ∀ r, (twoResultsTracker (world0.log ++ [workspaceRequest cfg0 cfg0.Workspace])).results ≠
      some [r] := fun r => by simp [twoResultsTracker, Reply.results]
  refine ⟨h1, ?_, ?_, ?_, ?_, ?_⟩
  · rw [(receivePush_workspace_not_found exampleParse cfg0 downTracker storedOrder event0 world0 h1).2.1]
  · rw [(receivePush_workspace_not_found exampleParse cfg0 garbageTracker storedOrder event0 world0 h2).2.1]
  · rw [(receivePush_workspace_not_found exampleParse cfg0 emptyRefTracker storedOrder event0 world0 h3).2.1]
  · rw [(receivePush_workspace_not_found exampleParse cfg0 twoResultsTracker storedOrder event0 world0 h4).2.1]
  · rw [(receivePush_workspace_not_found exampleParse cfg0 twoResultsTracker storedOrder event0 world0 h4).2.1]
    decide

/-- C13: when the workspace lookup yields exactly one result, `ReceivePush` returns the
response with the result "created" and a nil error, and starts the goroutine with the
reference of that result; the response and the error are the same whatever the
goroutine then gets from the tracker and however it ends. -/
theorem receivePush_created (up : URLParse) (cfg : Config) (tr : Tracker) (ord : MapOrder)
    (event : PushEvent) (w : World) (r : RallyResult)
    (h : (tr (w.log ++ [workspaceRequest cfg cfg.Workspace])).results = some [r]) :
    ReceivePush cfg tr event w =
      ({ response := { Result := "created" }, err := none,
         started := some { repo := event.Repository.Name, repoURL := event.Repository.URL,
                           branch := branchOf event.Ref, workspaceRef := r.Ref } },
       { log := w.log ++ [workspaceRequest cfg cfg.Workspace], userCache := w.userCache }) ∧
    (handlePush up cfg tr ord event w).1.response = { Result := "created" } ∧
    (handlePush up cfg tr ord event w).1.err = none := by
  have hrp : ReceivePush cfg tr event w =
      ({ response := { Result := "created" }, err := none,
         started := some { repo := event.Repository.Name, repoURL := event.Repository.URL,
                           branch := branchOf event.Ref, workspaceRef := r.Ref } },
       { log := w.log ++ [workspaceRequest cfg cfg.Workspace], userCache := w.userCache }) := by
    unfold ReceivePush
    rw [validateOrg_eq, h]
  refine ⟨hrp, ?_, ?_⟩ <;>
  · unfold handlePush
    rw [hrp]

theorem receivePush_created_witness :
    (okTracker (world0.log ++ [workspaceRequest cfg0 cfg0.Workspace])).results =
      some [⟨"https://rally.example/obj/1"⟩] ∧
    (handlePush exampleParse cfg0 okTracker storedOrder event0 world0).1.response = { Result := "created" } ∧
    (handlePush exampleParse cfg0 okTracker storedOrder event0 world0).1.err = none :=
  ⟨rfl,
   (receivePush_created exampleParse cfg0 okTracker storedOrder event0 world0 ⟨"https://rally.example/obj/1"⟩
      rfl).2⟩

/-- For a reference that parses `UpdateState` sends one request, a POST to the reference
whose body holds the requested state as the `ScheduleState` of a
`HierarchicalRequirement`, and returns nil exactly when the call succeeds, the response
decodes and the state it reports is the requested state; in every other case (a
transport failure, an undecodable response, a different state) it returns an error. -/
theorem updateState_of_parse (up : URLParse) (cfg : Config) (tr : Tracker) (ref state : String)
    (w : World) (hup : up ref = true) :
    (UpdateState up cfg tr ref state w).2 =
      { log := w.log ++ [updateRequest cfg ref state], userCache := w.userCache } ∧
    updateRequest cfg ref state =
      { method := "POST", url := ref, query := none,
        header := [("ZSESSIONID", cfg.APIToken)],
        body := some (.obj [("HierarchicalRequirement",
          .obj [("ScheduleState", .str state)])]) } ∧
    ((UpdateState up cfg tr ref state w).1 = .ret none ↔
      ∃ b u, tr (w.log ++ [updateRequest cfg ref state]) = .response b ∧
        b.asUpdate = some u ∧ u.OperationResult.Object.ScheduleState = state) ∧
    (tr (w.log ++ [updateRequest cfg ref state]) = .transportError →
      (UpdateState up cfg tr ref state w).1 = .ret (some .transport)) ∧
    (∀ b, tr (w.log ++ [updateRequest cfg ref state]) = .response b → b.asUpdate = none →
      (UpdateState up cfg tr ref state w).1 = .ret (some .decode)) ∧
    (∀ b u, tr (w.log ++ [updateRequest cfg ref state]) = .response b → b.asUpdate = some u →
      u.OperationResult.Object.ScheduleState ≠ state →
      (UpdateState up cfg tr ref state w).1 = .ret (some (.msg "failed to update state"))) := by
  refine ⟨by rw [UpdateState_world, if_pos hup],
    by simp [updateRequest, postRequest, DecorateRequest, updatePayload], ?_, ?_, ?_, ?_⟩
  · unfold UpdateState doRequest
    rw [if_pos hup,
      show postRequest cfg ref (updatePayload state) = updateRequest cfg ref state from rfl]
    cases htr : tr (w.log ++ [updateRequest cfg ref state]) with
    | transportError => simp
    | response b =>
      dsimp only
      cases hu : b.asUpdate with
      | none => simp [hu]
      | some u =>
        dsimp only
        by_cases hs : u.OperationResult.Object.ScheduleState = state
        · simp [hs, hu]
        · simp [hs, hu]
  · intro htr
    unfold UpdateState doRequest
    rw [if_pos hup,
      show postRequest cfg ref (updatePayload state) = updateRequest cfg ref state from rfl, htr]
  · intro b htr hu
    unfold UpdateState doRequest
    rw [if_pos hup,
      show postRequest cfg ref (updatePayload state) = updateRequest cfg ref state from rfl, htr]
    dsimp only
    rw [hu]
  · intro b u htr hu hs
    unfold UpdateState doRequest
    rw [if_pos hup,
      show postRequest cfg ref (updatePayload state) = updateRequest cfg ref state from rfl, htr]
    dsimp only
    rw [hu]
    simp [hs]

/-- C17: the code at the failing input. The reference `https://rally.example/obj/%zz`
does not parse as a URL (its path has an invalid escape): `http.NewRequest` returns a
nil request, `UpdateState` drops its error and `DecorateRequest` dereferences the nil
request, so `UpdateState` panics: the requested state is not sent to the reference and
no error is returned. For a reference that parses the request is sent and the result is
an error unless the response echoes the state. -/
theorem updateState_unparsable_reference :
    exampleParse badRef = false ∧
    UpdateState exampleParse cfg0 okTracker badRef "In-Progress" world0 = (.panic, world0) ∧
    (UpdateState exampleParse cfg0 okTracker badRef "In-Progress" world0).2.log = [] ∧
    (∀ e, (UpdateState exampleParse cfg0 okTracker badRef "In-Progress" world0).1 ≠ .ret e) ∧
    (UpdateState exampleParse cfg0 okTracker "https://rally.example/obj/1" "In-Progress"
      world0).1 = .ret (some .decode) ∧
    (UpdateState exampleParse cfg0 okTracker "https://rally.example/obj/1" "In-Progress"
      world0).2.log = [updateRequest cfg0 "https://rally.example/obj/1" "In-Progress"] := by
  have h : UpdateState exampleParse cfg0 okTracker badRef "In-Progress" world0 =
      (.panic, world0) := UpdateState_panic _ _ _ _ _ _ (by decide)
  refine ⟨by decide, h, by rw [h]; rfl, ?_, by decide, ?_⟩
  · intro e he
    rw [h] at he
    exact Outcome.noConfusion he
  · rw [UpdateState_world, if_pos (by decide)]
    rfl

/-- C19: `GetOrCreateSCMRepository` first queries the repository by its name. When the
query returns one result it returns the reference of that result with a nil error and
sends nothing else. When the query returns no result it sends one create request, a
POST to `<RallyURL>/slm/webservice/v2.0/scmrepository/create` carrying the SCMType
"GitHub", the name, the workspace reference and the Uri of the repository, and, the
response decoded, returns the reference of the created object. -/
theorem getOrCreateSCMRepository_get_or_create (cfg : Config) (tr : Tracker)
    (repo repoURL workspace : String) (w : World) :
    scmRepositoryRequest cfg repo =
      { method := "GET", url := cfg.RallyURL ++ "/slm/webservice/v2.0/scmrepository",
        query := some ("(name = " ++ repo ++ ")"),
        header := [("ZSESSIONID", cfg.APIToken)], body := none } ∧
    scmCreateRequest cfg repo repoURL workspace =
      { method := "POST",
        url := cfg.RallyURL ++ "/slm/webservice/v2.0/scmrepository" ++ "/create",
        query := none, header := [("ZSESSIONID", cfg.APIToken)],
        body := some (.obj [("SCMRepository", .obj [
          ("Description", .str "GitHub-Service push Changesets"), ("Name", .str repo),
          ("SCMType", .str "GitHub"), ("Uri", .str repoURL),
          ("Workspace", .str workspace)])]) } ∧
    (∀ r, (tr (w.log ++ [scmRepositoryRequest cfg repo])).results = some [r] →
      GetOrCreateSCMRepository cfg tr repo repoURL workspace w =
        ((r.Ref, none),
         { log := w.log ++ [scmRepositoryRequest cfg repo], userCache := w.userCache })) ∧
    ((tr (w.log ++ [scmRepositoryRequest cfg repo])).results = some [] →
      (GetOrCreateSCMRepository cfg tr repo repoURL workspace w).2 =
        { log := w.log ++ [scmRepositoryRequest cfg repo,
            scmCreateRequest cfg repo repoURL workspace],
          userCache := w.userCache } ∧
      ∀ b created,
        tr (w.log ++ [scmRepositoryRequest cfg repo] ++
          [scmCreateRequest cfg repo repoURL workspace]) = .response b →
        b.asCreate = some created →
        (GetOrCreateSCMRepository cfg tr repo repoURL workspace w).1 =
          (created.CreateResult.Object.Ref, none)) := by
  refine ⟨by simp [scmRepositoryRequest, getRequest, DecorateRequest],
    by simp [scmCreateRequest, postRequest, DecorateRequest, scmCreateBody], ?_, ?_⟩
  · intro r h
    unfold GetOrCreateSCMRepository doRequest
    cases htr : tr (w.log ++ [scmRepositoryRequest cfg repo]) with
    | transportError => rw [htr] at h; simp [Reply.results] at h
    | response b =>
      rw [htr] at h
      dsimp only [Reply.results] at h ⊢
      cases hq : b.asQuery with
      | none => rw [hq] at h; simp at h
      | some rr =>
        rw [hq] at h
        simp only [Option.some.injEq] at h
        dsimp only
        rw [h]
  · intro h
    have hq : ∃ b rr, tr (w.log ++ [scmRepositoryRequest cfg repo]) = .response b ∧
        b.asQuery = some rr ∧ rr.QueryResult.Results = [] := by
      cases htr : tr (w.log ++ [scmRepositoryRequest cfg repo]) with
      | transportError => rw [htr] at h; simp [Reply.results] at h
      | response b =>
        rw [htr] at h
        dsimp only [Reply.results] at h
        cases hq : b.asQuery with
        | none => rw [hq] at h; simp at h
        | some rr =>
          rw [hq] at h
          simp only [Option.some.injEq] at h
          exact ⟨b, rr, rfl, hq, h⟩
    obtain ⟨b, rr, htr, hq, hres⟩ := hq
    constructor
    · unfold GetOrCreateSCMRepository doRequest
      rw [htr]
      dsimp only
      rw [hq]
      dsimp only
      rw [hres]
      dsimp only
      cases tr (w.log ++ [scmRepositoryRequest cfg repo] ++
          [scmCreateRequest cfg repo repoURL workspace]) with
      | transportError => simp
      | response b2 =>
        dsimp only
        cases b2.asCreate with
        | none => simp
        | some cr => simp
    · intro b2 created htr2 hc
      unfold GetOrCreateSCMRepository doRequest
      rw [htr]
      dsimp only
      rw [hq]
      dsimp only
      rw [hres]
      dsimp only
      rw [htr2]
      dsimp only
      rw [hc]

theorem getOrCreateSCMRepository_get_or_create_witness :
    (okTracker (world0.log ++ [scmRepositoryRequest cfg0 "r"])).results =
      some [⟨"https://rally.example/obj/1"⟩] ∧
    (GetOrCreateSCMRepository cfg0 okTracker "r" "https://github.com/o/r"
        "https://rally.example/ws/1" world0).1 = ("https://rally.example/obj/1", none) ∧
    (emptyRefTracker (world0.log ++ [scmRepositoryRequest cfg0 "r"])).results = some [] ∧
    ((GetOrCreateSCMRepository cfg0 emptyRefTracker "r" "https://github.com/o/r"
        "https://rally.example/ws/1" world0).2.log.map fun q => (q.method, q.url)) =
      [("GET", "https://rally.example/slm/webservice/v2.0/scmrepository"),
       ("POST", "https://rally.example/slm/webservice/v2.0/scmrepository/create")] := by
  have h := getOrCreateSCMRepository_get_or_create cfg0 okTracker "r" "https://github.com/o/r"
    "https://rally.example/ws/1" world0
  have h2 := getOrCreateSCMRepository_get_or_create cfg0 emptyRefTracker "r"
    "https://github.com/o/r" "https://rally.example/ws/1" world0
  refine ⟨rfl, ?_, rfl, ?_⟩
  · rw [h.2.2.1 ⟨"https://rally.example/obj/1"⟩ rfl]
  · rw [(h2.2.2.2 rfl).1]
    decide

/-- C20: the code at the failing input. The repository query finds nothing and the
response to the create request decodes to an object with an empty reference:
`GetOrCreateSCMRepository` returns the empty reference with a nil error (where
`AddChangeSet`, given the same response to its create request, returns the error
"unable to create changeset"). -/
theorem getOrCreateSCMRepository_empty_reference :
    (emptyRefTracker [scmRepositoryRequest cfg0 "r"]).results = some [] ∧
    emptyRefTracker [scmRepositoryRequest cfg0 "r",
        scmCreateRequest cfg0 "r" "https://github.com/o/r" "https://rally.example/ws/1"] =
      .response { asQuery := some ⟨⟨0, []⟩⟩, asCreate := some ⟨⟨⟨""⟩⟩⟩, asUpdate := none } ∧
    (GetOrCreateSCMRepository cfg0 emptyRefTracker "r" "https://github.com/o/r"
        "https://rally.example/ws/1" world0).1 = ("", none) ∧
    (AddChangeSet exampleParse cfg0 emptyRefTracker storedOrder (commitOf "Fix the build") "" none
        "https://github.com/o/r" "master" world0).1 =
      .ret (some (.msg "unable to create changeset")) := by
  refine ⟨rfl, rfl, by decide, by decide⟩

/-! ## Facts about the user cache and the order of the requests -/

theorem setEntry_of_lookup_none (k v : String) (es : List (String × String))
    (h : es.lookup k = none) : setEntry k v es = es ++ [(k, v)] := by
  induction es with
  | nil => rfl
  | cons e es ih =>
    obtain ⟨a, b⟩ := e
    simp only [List.lookup_cons] at h
    cases hka : (k == a) with
    | true => rw [hka] at h; simp at h
    | false =>
      rw [hka] at h
      have hne : ¬ a = k := by
        intro e; subst e; simp at hka
      simp only [setEntry, hne, if_false, List.cons_append, ih h]

theorem updateRequests_post (cfg : Config) (message : String) (es : List (String × String)) :
    ∀ q ∈ updateRequests cfg message es, q.method = "POST" := by
  intro q hq
  simp only [updateRequests, List.mem_flatMap] at hq
  obtain ⟨e, _, hq⟩ := hq
  cases hc : checkForStatus message e.1 with
  | none => rw [hc] at hq; simp at hq
  | some r =>
    obtain ⟨st, cp⟩ := r
    rw [hc] at hq
    dsimp only at hq
    split_ifs at hq
    · simp at hq
    · simp only [List.mem_singleton] at hq
      rw [hq]; rfl

theorem changeRequests_post (cfg : Config) (c : Commit) (ref repoURL branch : String) :
    ∀ q ∈ changeRequests cfg c ref repoURL branch, q.method = "POST" := by
  intro q hq
  simp only [changeRequests, List.mem_append, List.mem_map] at hq
  rcases hq with (⟨p, _, rfl⟩ | ⟨p, _, rfl⟩) | ⟨p, _, rfl⟩ <;> rfl

/-- The requests `AddChangeSet` sends after its cache block, on an initialised cache and
with state updates that go to references that parse: the state updates, the
changeset-create request, and the change-create requests if the changeset was created.
The cache is as the cache block left it. -/
theorem AddChangeSet_world (up : URLParse) (cfg : Config) (tr : Tracker) (ord : MapOrder) (c : Commit)
    (scmrepo : String) (rallyRef : GoMap) (repoURL branch : String) (w : World)
    (cache : List (String × String)) (hcache : w.userCache = some cache)
    (hkeys : AlnumKeys rallyRef.entries) (hfair : ord.fair)
    (hparse : ∀ q ∈ updateRequests cfg c.Message (commitEntries cfg tr ord c rallyRef w),
      up q.url = true) :
    ∃ e rest, AddChangeSet up cfg tr ord c scmrepo rallyRef repoURL branch w =
        (.ret e,
         { log := (afterCache cfg tr c w).log ++
             updateRequests cfg c.Message (commitEntries cfg tr ord c rallyRef w) ++
             changesetRequest cfg (commitChangeset cfg tr ord c scmrepo rallyRef repoURL w) ::
               rest,
           userCache := (afterCache cfg tr c w).userCache }) ∧
      (rest = [] ∨ ∃ ref, rest = changeRequests cfg c ref repoURL branch) := by
  rw [AddChangeSet_eq up cfg tr ord c scmrepo rallyRef repoURL branch w cache hcache hkeys hfair
    hparse]
  cases tr ((beforeChangeset cfg tr ord c rallyRef w).log ++
      [changesetRequest cfg (commitChangeset cfg tr ord c scmrepo rallyRef repoURL w)]) with
  | transportError => exact ⟨some .transport, [], by simp [beforeChangeset], Or.inl rfl⟩
  | response b =>
    dsimp only
    cases b.asCreate with
    | none => exact ⟨some .decode, [], by simp [beforeChangeset], Or.inl rfl⟩
    | some r =>
      dsimp only
      split_ifs
      · exact ⟨some (.msg "unable to create changeset"), [], by simp [beforeChangeset],
          Or.inl rfl⟩
      · exact ⟨none, changeRequests cfg c r.CreateResult.Object.Ref repoURL branch,
          by simp [beforeChangeset], Or.inr ⟨_, rfl⟩⟩

theorem afterCache_hit (cfg : Config) (tr : Tracker) (c : Commit) (w : World)
    (cache : List (String × String)) (ref : String) (hcache : w.userCache = some cache)
    (hhit : cache.lookup c.Author.Email = some ref) : afterCache cfg tr c w = w := by
  unfold afterCache
  rw [cacheUser_some cfg tr c.Author.Email w cache hcache, hhit]

theorem afterCache_miss (cfg : Config) (tr : Tracker) (c : Commit) (w : World)
    (cache : List (String × String)) (hcache : w.userCache = some cache)
    (hmiss : cache.lookup c.Author.Email = none) :
    afterCache cfg tr c w =
      { log := w.log ++ [userRequest cfg c.Author.Email],
        userCache := some (cache ++ [(c.Author.Email,
          userRefOf (tr (w.log ++ [userRequest cfg c.Author.Email])))]) } := by
  unfold afterCache
  rw [cacheUser_some cfg tr c.Author.Email w cache hcache, hmiss]
  simp only [setEntry_of_lookup_none _ _ _ hmiss]

theorem userRefOf_one (reply : Reply) (r : RallyResult) (h : reply.results = some [r]) :
    userRefOf reply = r.Ref := by
  cases reply with
  | transportError => simp [Reply.results] at h
  | response b =>
    dsimp only [Reply.results, userRefOf] at h ⊢
    cases hq : b.asQuery with
    | none => rw [hq] at h; simp at h
    | some rr =>
      rw [hq] at h
      simp only [Option.some.injEq] at h
      dsimp only
      rw [h]

theorem userRefOf_other (reply : Reply) (h : ∀ r, reply.results ≠ some [r]) :
    userRefOf reply = "" := by
  cases reply with
  | transportError => rfl
  | response b =>
    dsimp only [Reply.results, userRefOf] at h ⊢
    cases hq : b.asQuery with
    | none => rfl
    | some rr =>
      rw [hq] at h
      dsimp only at h ⊢
      rcases hres : rr.QueryResult.Results with _ | ⟨r, _ | ⟨r2, rs⟩⟩
      · rfl
      · exact absurd (by rw [hres]) (h r)
      · rfl

/-- On an allocated cache, whatever the resolved artifacts are and however the run ends:
after its cache block `AddChangeSet` sends POSTs only and leaves the cache as the cache
block left it. -/
theorem addChangeSet_requests_after_cache (up : URLParse) (cfg : Config) (tr : Tracker)
    (ord : MapOrder)
    (c : Commit) (scmrepo : String) (rallyRef : GoMap) (repoURL branch : String) (w : World)
    (cache : List (String × String)) (hcache : w.userCache = some cache)
    (_ : AlnumKeys rallyRef.entries) (_ : ord.fair) :
    ∃ rest, (AddChangeSet up cfg tr ord c scmrepo rallyRef repoURL branch w).2 =
        { log := (afterCache cfg tr c w).log ++ rest,
          userCache := (afterCache cfg tr c w).userCache } ∧
      ∀ q ∈ rest, q.method = "POST" := by
  obtain ⟨issued, hpre, h2, _⟩ := untilChangeset_log up cfg tr ord c rallyRef w cache hcache
  have hissued : ∀ q ∈ issued, q.method = "POST" :=
    fun q hq => updateRequests_post _ _ _ q (hpre.subset hq)
  have hcons : ∀ (x : Request) (rest2 : List Request), x.method = "POST" →
      (∀ q ∈ rest2, q.method = "POST") → ∀ q ∈ issued ++ x :: rest2, q.method = "POST" := by
    intro x rest2 hx hr q hq
    rcases List.mem_append.mp hq with hq | hq
    · exact hissued q hq
    · rcases List.mem_cons.mp hq with rfl | hq
      · exact hx
      · exact hr q hq
  rw [AddChangeSet_split]
  rcases hu : untilChangeset up cfg tr ord c rallyRef w with ⟨o, w2⟩
  rw [hu] at h2
  simp only at h2
  subst h2
  cases o with
  | panic => exact ⟨issued, rfl, hissued⟩
  | ret artifactRefs =>
    dsimp only
    have hx : (changesetRequest cfg
        (changesetOf c scmrepo repoURL ((afterCache cfg tr c w).userCache.get c.Author.Email)
          artifactRefs)).method = "POST" := rfl
    have hone : ∀ q ∈ issued ++ [changesetRequest cfg
        (changesetOf c scmrepo repoURL ((afterCache cfg tr c w).userCache.get c.Author.Email)
          artifactRefs)], q.method = "POST" := hcons _ [] hx (by intro q hq; simp at hq)
    cases tr ((afterCache cfg tr c w).log ++ issued ++ [changesetRequest cfg
        (changesetOf c scmrepo repoURL ((afterCache cfg tr c w).userCache.get c.Author.Email)
          artifactRefs)]) with
    | transportError => exact ⟨_, by simp only [List.append_assoc], hone⟩
    | response b =>
      dsimp only
      cases b.asCreate with
      | none => exact ⟨_, by simp only [List.append_assoc], hone⟩
      | some r =>
        dsimp only
        split_ifs
        · exact ⟨_, by simp only [List.append_assoc], hone⟩
        · exact ⟨issued ++ _ :: changeRequests cfg c r.CreateResult.Object.Ref repoURL branch,
            by simp only [List.append_assoc], hcons _ _ hx (changeRequests_post _ _ _ _ _)⟩

/-- C14: on an allocated user cache without an entry for the author's email,
`AddChangeSet` first sends the user query `(UserName = <email>)`, the only GET among
its requests, and adds one entry for the email to the cache, which it then leaves as it
is: the reference of the result when the query returns exactly one result, and the empty
string when it returns none or several, when the response cannot be decoded and when
the call fails in transport. -/
theorem addChangeSet_cache_miss (up : URLParse) (cfg : Config) (tr : Tracker) (ord : MapOrder)
    (c : Commit) (scmrepo : String) (rallyRef : GoMap) (repoURL branch : String) (w : World)
    (cache : List (String × String)) (hcache : w.userCache = some cache)
    (hmiss : cache.lookup c.Author.Email = none)
    (hkeys : AlnumKeys rallyRef.entries) (hfair : ord.fair) :
    userRequest cfg c.Author.Email =
      { method := "GET", url := cfg.RallyURL ++ "/slm/webservice/v2.0/user",
        query := some ("(UserName = " ++ c.Author.Email ++ ")"),
        header := [("ZSESSIONID", cfg.APIToken)], body := none } ∧
    (∃ rest, (AddChangeSet up cfg tr ord c scmrepo rallyRef repoURL branch w).2.log =
        w.log ++ userRequest cfg c.Author.Email :: rest ∧
      ∀ q ∈ rest, q.method = "POST") ∧
    (AddChangeSet up cfg tr ord c scmrepo rallyRef repoURL branch w).2.userCache =
      some (cache ++ [(c.Author.Email,
        userRefOf (tr (w.log ++ [userRequest cfg c.Author.Email])))]) ∧
    (∀ r, (tr (w.log ++ [userRequest cfg c.Author.Email])).results = some [r] →
      userRefOf (tr (w.log ++ [userRequest cfg c.Author.Email])) = r.Ref) ∧
    ((∀ r, (tr (w.log ++ [userRequest cfg c.Author.Email])).results ≠ some [r]) →
      userRefOf (tr (w.log ++ [userRequest cfg c.Author.Email])) = "") := by
  obtain ⟨rest, h, hpost⟩ := addChangeSet_requests_after_cache up cfg tr ord c scmrepo rallyRef
    repoURL branch w cache hcache hkeys hfair
  rw [afterCache_miss cfg tr c w cache hcache hmiss] at h
  refine ⟨by simp [userRequest, getRequest, DecorateRequest], ⟨rest, by rw [h]; simp, hpost⟩,
    by rw [h], fun r hr => userRefOf_one _ r hr, fun hr => userRefOf_other _ hr⟩

theorem addChangeSet_cache_miss_witness :
    world0.userCache = some [] ∧
    ([] : List (String × String)).lookup (commitOf "STARTS US1 - fix").Author.Email = none ∧
    AlnumKeys refs0.entries ∧ storedOrder.fair ∧
    (AddChangeSet exampleParse cfg0 okTracker storedOrder (commitOf "STARTS US1 - fix")
        "https://rally.example/scm/1" refs0 "https://github.com/o/r" "master" world0).2.userCache =
      some [("dev@example.com", "https://rally.example/obj/1")] ∧
    (AddChangeSet exampleParse cfg0 twoResultsTracker storedOrder (commitOf "STARTS US1 - fix")
        "https://rally.example/scm/1" refs0 "https://github.com/o/r" "master" world0).2.userCache =
      some [("dev@example.com", "")] := by
  refine ⟨rfl, rfl, refs0_alnum, storedOrder_fair, ?_, ?_⟩
  · rw [(addChangeSet_cache_miss exampleParse cfg0 okTracker storedOrder (commitOf "STARTS US1 - fix")
      "https://rally.example/scm/1" refs0 "https://github.com/o/r" "master" world0 [] rfl rfl
      refs0_alnum storedOrder_fair).2.2.1]
    rfl
  · rw [(addChangeSet_cache_miss exampleParse cfg0 twoResultsTracker storedOrder (commitOf "STARTS US1 - fix")
      "https://rally.example/scm/1" refs0 "https://github.com/o/r" "master" world0 [] rfl rfl
      refs0_alnum storedOrder_fair).2.2.1]
    rfl

/-- With state updates that go to references that parse: on an allocated user cache
`AddChangeSet` sends, after its cache block, the state updates of the visited entries,
one for each entry whose derived state is not empty, whatever the tracker replies to
them; the changeset-create request comes next, and only change-create requests follow
it. -/
theorem addChangeSet_updates_then_changeset (up : URLParse) (cfg : Config) (tr : Tracker)
    (ord : MapOrder)
    (c : Commit) (scmrepo : String) (rallyRef : GoMap) (repoURL branch : String) (w : World)
    (cache : List (String × String)) (hcache : w.userCache = some cache)
    (hkeys : AlnumKeys rallyRef.entries) (hfair : ord.fair)
    (hparse : ∀ q ∈ updateRequests cfg c.Message (commitEntries cfg tr ord c rallyRef w),
      up q.url = true) :
    (∃ rest, (AddChangeSet up cfg tr ord c scmrepo rallyRef repoURL branch w).2.log =
        (afterCache cfg tr c w).log ++
          updateRequests cfg c.Message (commitEntries cfg tr ord c rallyRef w) ++
          changesetRequest cfg (commitChangeset cfg tr ord c scmrepo rallyRef repoURL w) ::
            rest ∧
      (rest = [] ∨ ∃ ref, rest = changeRequests cfg c ref repoURL branch)) ∧
    (commitEntries cfg tr ord c rallyRef w).Perm rallyRef.entries ∧
    (∀ q ∈ updateRequests cfg c.Message (commitEntries cfg tr ord c rallyRef w),
      q ≠ changesetRequest cfg (commitChangeset cfg tr ord c scmrepo rallyRef repoURL w)) := by
  obtain ⟨e, rest, h, hrest⟩ :=
    AddChangeSet_world up cfg tr ord c scmrepo rallyRef repoURL branch w cache hcache hkeys hfair
      hparse
  refine ⟨⟨rest, by rw [h], hrest⟩, visited_perm ord hfair rallyRef _, ?_⟩
  intro q hq heq
  simp only [updateRequests, List.mem_flatMap] at hq
  obtain ⟨en, _, hq⟩ := hq
  cases hc : checkForStatus c.Message en.1 with
  | none => rw [hc] at hq; simp at hq
  | some r =>
    obtain ⟨st, cp⟩ := r
    rw [hc] at hq
    dsimp only at hq
    split_ifs at hq
    · simp at hq
    · simp only [List.mem_singleton] at hq
      rw [hq] at heq
      simp [updateRequest, changesetRequest, postRequest, DecorateRequest, updatePayload] at heq

/-- C18: the code at the failing input. The commit signals a start for `US1` and for
`US2`; `US1` resolved to the reference `https://rally.example/obj/%zz`, which does not
parse as a URL. `UpdateState` for `US1` panics before it sends anything, and the panic
ends `AddChangeSet`: the state update of `US2` is not sent and the changeset-create
request is not sent, the user query being the only request. (State updates that fail in
transport abort nothing: with references that parse and a tracker that is down both
updates and the changeset-create request are sent.) -/
theorem addChangeSet_update_panic_aborts :
    exampleParse badRef = false ∧
    (updateRequests cfg0 "STARTS US1 and STARTS US2"
      [("US1", badRef), ("US2", "https://rally.example/obj/2")]).map (fun q => q.url) =
      [badRef, "https://rally.example/obj/2"] ∧
    (AddChangeSet exampleParse cfg0 okTracker storedOrder (commitOf "STARTS US1 and STARTS US2")
      "https://rally.example/scm/1" (some [("US1", badRef), ("US2", "https://rally.example/obj/2")])
      "https://github.com/o/r" "master" world0).1 = .panic ∧
    ((AddChangeSet exampleParse cfg0 okTracker storedOrder (commitOf "STARTS US1 and STARTS US2")
      "https://rally.example/scm/1" (some [("US1", badRef), ("US2", "https://rally.example/obj/2")])
      "https://github.com/o/r" "master" world0).2.log.map fun q => (q.method, q.url)) =
      [("GET", "https://rally.example/slm/webservice/v2.0/user")] ∧
    ((AddChangeSet exampleParse cfg0 downTracker storedOrder
      (commitOf "STARTS US1 and STARTS US2") "https://rally.example/scm/1"
      (some [("US1", "https://rally.example/obj/1"), ("US2", "https://rally.example/obj/2")])
      "https://github.com/o/r" "master" world0).2.log.map fun q => (q.method, q.url)) =
      [("GET", "https://rally.example/slm/webservice/v2.0/user"),
       ("POST", "https://rally.example/obj/1"),
       ("POST", "https://rally.example/obj/2"),
       ("POST", "https://rally.example/slm/webservice/v2.0/changeset/create")] := by
  refine ⟨by decide, by decide, by decide, by decide, by decide⟩

theorem getOrCreate_requests (cfg : Config) (tr : Tracker) (repo repoURL workspace : String)
    (w : World) :
    ∃ reqs, (GetOrCreateSCMRepository cfg tr repo repoURL workspace w).2 =
        { log := w.log ++ reqs, userCache := w.userCache } ∧
      ∀ q ∈ reqs, q.isChangesetCreate = false := by
  have one : ∀ q ∈ [scmRepositoryRequest cfg repo], q.isChangesetCreate = false := by
    intro q hq
    simp only [List.mem_singleton] at hq
    rw [hq]; rfl
  have two : ∀ q ∈ [scmRepositoryRequest cfg repo, scmCreateRequest cfg repo repoURL workspace],
      q.isChangesetCreate = false := by
    intro q hq
    simp only [List.mem_cons, List.mem_singleton, List.mem_nil_iff, or_false] at hq
    rcases hq with rfl | rfl
    · rfl
    · simp only [Request.isChangesetCreate, scmCreateRequest, postRequest, DecorateRequest,
        scmCreateBody]
      decide
  unfold GetOrCreateSCMRepository doRequest
  cases tr (w.log ++ [scmRepositoryRequest cfg repo]) with
  | transportError => exact ⟨_, rfl, one⟩
  | response b =>
    dsimp only
    cases b.asQuery with
    | none => exact ⟨_, rfl, one⟩
    | some rr =>
      dsimp only
      rcases rr.QueryResult.Results with _ | ⟨r, _ | ⟨r2, rs⟩⟩
      · dsimp only
        cases tr (w.log ++ [scmRepositoryRequest cfg repo] ++
            [scmCreateRequest cfg repo repoURL workspace]) with
        | transportError => exact ⟨_, by simp, two⟩
        | response b2 =>
          dsimp only
          cases b2.asCreate <;> exact ⟨_, by simp, two⟩
      · exact ⟨_, rfl, one⟩
      · dsimp only
        cases tr (w.log ++ [scmRepositoryRequest cfg repo] ++
            [scmCreateRequest cfg repo repoURL workspace]) with
        | transportError => exact ⟨_, by simp, two⟩
        | response b2 =>
          dsimp only
          cases b2.asCreate <;> exact ⟨_, by simp, two⟩

/-- C11: the code at the failing input. The workspace resolves and the push has two
commits; the lookup of `US1` of the first commit is answered with a response that
reports one result and carries none. The goroutine panics in `FindRallyArtifact` of the
first commit: no changeset-create request is sent, for the first commit or for the
second. -/
theorem pushTask_missing_result_drops_commits :
    event0.Commits.length = 2 ∧
    (handlePush exampleParse cfg0 missingResultTracker storedOrder event0 world0).1.response =
      { Result := "created" } ∧
    (handlePush exampleParse cfg0 missingResultTracker storedOrder event0 world0).2.1 = .panic ∧
    ((handlePush exampleParse cfg0 missingResultTracker storedOrder event0 world0).2.2.log.map
      fun q => (q.method, q.url)) =
      [("GET", "https://rally.example/slm/webservice/v2.0/workspace"),
       ("GET", "https://rally.example/slm/webservice/v2.0/scmrepository"),
       ("GET", "https://rally.example/slm/webservice/v2.0/hierarchicalrequirement")] ∧
    ((handlePush exampleParse cfg0 okTracker storedOrder event0 world0).2.2.log.map
      fun q => (q.method, q.url)) =
      [("GET", "https://rally.example/slm/webservice/v2.0/workspace"),
       ("GET", "https://rally.example/slm/webservice/v2.0/scmrepository"),
       ("GET", "https://rally.example/slm/webservice/v2.0/hierarchicalrequirement"),
       ("GET", "https://rally.example/slm/webservice/v2.0/user"),
       ("POST", "https://rally.example/obj/1"),
       ("POST", "https://rally.example/slm/webservice/v2.0/changeset/create"),
       ("POST", "https://rally.example/slm/webservice/v2.0/change/create"),
       ("POST", "https://rally.example/slm/webservice/v2.0/change/create"),
       ("POST", "https://rally.example/slm/webservice/v2.0/change/create"),
       ("POST", "https://rally.example/slm/webservice/v2.0/change/create"),
       ("POST", "https://rally.example/slm/webservice/v2.0/changeset/create"),
       ("POST", "https://rally.example/slm/webservice/v2.0/change/create"),
       ("POST", "https://rally.example/slm/webservice/v2.0/change/create"),
       ("POST", "https://rally.example/slm/webservice/v2.0/change/create"),
       ("POST", "https://rally.example/slm/webservice/v2.0/change/create")] := by
  refine ⟨rfl, by decide, by decide, by decide, by decide⟩

/-! ## Facts about the goroutine of `ReceivePush` -/

theorem mem_setEntry (k v : String) (es : List (String × String)) (e : String × String)
    (h : e ∈ setEntry k v es) : e = (k, v) ∨ e ∈ es := by
  induction es with
  | nil => simp [setEntry] at h; exact Or.inl h
  | cons a as ih =>
    simp only [setEntry] at h
    split_ifs at h
    · rcases List.mem_cons.mp h with h | h
      · exact Or.inl h
      · exact Or.inr (List.mem_cons_of_mem _ h)
    · rcases List.mem_cons.mp h with h | h
      · exact Or.inr (h ▸ List.mem_cons_self _ _)
      · rcases ih h with h | h
        · exact Or.inl h
        · exact Or.inr (List.mem_cons_of_mem _ h)

theorem id_alphanum (m : IdMatch) (hp : m.pfx ∈ artifactPrefixes)
    (hd : ∀ d ∈ m.digits, d.isDigit = true) : m.id.data.all Char.isAlphanum = true := by
  rw [List.all_eq_true]
  intro ch hc
  simp only [IdMatch.id, List.mem_append] at hc
  rcases hc with hc | hc
  · simp [Char.isAlphanum, prefix_all_alpha m.pfx hp ch hc]
  · simp [Char.isAlphanum, hd ch hc]

theorem findLoop_keys (cfg : Config) (tr : Tracker) (ms : List IdMatch)
    (hms : ∀ m ∈ ms, m.id.data.all Char.isAlphanum = true)
    (artifacts : List (String × String)) (ha : AlnumKeys artifacts) (w : World) (res : GoMap)
    (h : (findLoop cfg tr (ms.map IdMatch.toSubmatch) artifacts w).1 = .ret res) :
    AlnumKeys res.entries := by
  induction ms generalizing artifacts w with
  | nil =>
    simp only [List.map_nil, findLoop, Outcome.ret.injEq] at h
    rw [← h]; exact ha
  | cons m ms ih =>
    have hms2 : ∀ m2 ∈ ms, m2.id.data.all Char.isAlphanum = true :=
      fun m2 h2 => hms m2 (List.mem_cons_of_mem _ h2)
    rw [List.map_cons, findLoop_cons] at h
    cases htr : tr (w.log ++ [artifactRequest cfg m.id m.pfx]) with
    | transportError => rw [htr] at h; exact ih hms2 artifacts ha _ h
    | response b =>
      rw [htr] at h
      dsimp only at h
      cases hq : b.asQuery with
      | none => rw [hq] at h; exact ih hms2 artifacts ha _ h
      | some rr =>
        rw [hq] at h
        dsimp only at h
        by_cases hc : rr.QueryResult.TotalResultCount = 0
        · rw [if_pos hc] at h; exact ih hms2 artifacts ha _ h
        · rw [if_neg hc] at h
          cases hres : rr.QueryResult.Results[0]? with
          | none => rw [hres] at h; simp at h
          | some r =>
            rw [hres] at h
            dsimp only at h
            refine ih hms2 (setEntry m.id r.Ref artifacts) ?_ _ h
            intro e he
            rcases mem_setEntry _ _ _ _ he with rfl | he
            · exact hms m (List.mem_cons_self _ _)
            · exact ha e he

/-- With a well-formed tracker `FindRallyArtifact` returns a map keyed by identifiers;
it sends lookups only and leaves the user cache as it is. -/
theorem findRallyArtifact_ret (cfg : Config) (tr : Tracker) (hwf : WellFormed tr)
    (commit : Commit) (w : World) :
    ∃ res ms, FindRallyArtifact cfg tr commit w =
        (.ret res, { log := w.log ++ lookupRequests cfg ms, userCache := w.userCache }) ∧
      AlnumKeys res.entries := by
  obtain ⟨ms, hms, _⟩ := allMatches_scan commit.Message.data
  have hshape : ∀ m ∈ ms, m.id.data.all Char.isAlphanum = true := by
    intro m hm
    obtain ⟨hp, _, hd⟩ := scan_match_shape hms m hm
    exact id_alphanum m hp hd
  rw [FindRallyArtifact_eq cfg tr commit w ms hms]
  cases ms with
  | nil =>
    refine ⟨none, [], by simp [lookupRequests], ?_⟩
    intro e he; simp [GoMap.entries] at he
  | cons m ms =>
    obtain ⟨arts, h1, _⟩ := findLoop_wellFormed cfg tr hwf (m :: ms) [] w
    refine ⟨some arts, m :: ms, by simpa using h1, ?_⟩
    exact findLoop_keys cfg tr (m :: ms) hshape [] (by intro e he; simp at he) w (some arts)
      (by rw [h1])

theorem filter_nil_of_forall {α : Type} (f : α → Bool) (l : List α)
    (h : ∀ x ∈ l, f x = false) : l.filter f = [] := by
  rw [List.filter_eq_nil_iff]
  intro x hx
  simp [h x hx]

theorem lookupRequests_not_changeset (cfg : Config) (ms : List IdMatch) :
    ∀ q ∈ lookupRequests cfg ms, q.isChangesetCreate = false := by
  intro q hq
  simp only [lookupRequests, List.mem_map] at hq
  obtain ⟨m, _, rfl⟩ := hq
  rfl

theorem updateRequests_not_changeset (cfg : Config) (message : String)
    (es : List (String × String)) :
    ∀ q ∈ updateRequests cfg message es, q.isChangesetCreate = false := by
  intro q hq
  simp only [updateRequests, List.mem_flatMap] at hq
  obtain ⟨e, _, hq⟩ := hq
  cases hc : checkForStatus message e.1 with
  | none => rw [hc] at hq; simp at hq
  | some r =>
    obtain ⟨st, cp⟩ := r
    rw [hc] at hq
    dsimp only at hq
    split_ifs at hq
    · simp at hq
    · simp only [List.mem_singleton] at hq
      rw [hq]
      simp only [Request.isChangesetCreate, updateRequest, postRequest, DecorateRequest,
        updatePayload]
      decide

theorem changeRequests_not_changeset (cfg : Config) (c : Commit) (ref repoURL branch : String) :
    ∀ q ∈ changeRequests cfg c ref repoURL branch, q.isChangesetCreate = false := by
  intro q hq
  simp only [changeRequests, List.mem_append, List.mem_map] at hq
  rcases hq with (⟨p, _, rfl⟩ | ⟨p, _, rfl⟩) | ⟨p, _, rfl⟩ <;>
  · simp only [Request.isChangesetCreate, changeRequest, postRequest, DecorateRequest, changeBody]
    decide

theorem changesetRequest_isChangesetCreate (cfg : Config) (cs : Changeset) :
    (changesetRequest cfg cs).isChangesetCreate = true := by
  simp only [Request.isChangesetCreate, changesetRequest, postRequest, DecorateRequest]
  decide

theorem afterCache_shape (cfg : Config) (tr : Tracker) (c : Commit) (w : World)
    (cache : List (String × String)) (hcache : w.userCache = some cache) :
    ∃ pre cache2, afterCache cfg tr c w = { log := w.log ++ pre, userCache := some cache2 } ∧
      ∀ q ∈ pre, q.isChangesetCreate = false := by
  cases hl : cache.lookup c.Author.Email with
  | some ref =>
    refine ⟨[], cache, ?_, by intro q hq; simp at hq⟩
    rw [afterCache_hit cfg tr c w cache ref hcache hl, ← hcache]
    simp
  | none =>
    refine ⟨[userRequest cfg c.Author.Email], _, afterCache_miss cfg tr c w cache hcache hl, ?_⟩
    intro q hq
    simp only [List.mem_singleton] at hq
    rw [hq]; rfl

theorem updateRequests_parse (up : URLParse) (cfg : Config) (message : String)
    (es : List (String × String)) (h : ∀ e ∈ es, up e.2 = true) :
    ∀ q ∈ updateRequests cfg message es, up q.url = true := by
  intro q hq
  simp only [updateRequests, List.mem_flatMap] at hq
  obtain ⟨e, he, hq⟩ := hq
  cases hc : checkForStatus message e.1 with
  | none => rw [hc] at hq; simp at hq
  | some r =>
    obtain ⟨st, cp⟩ := r
    rw [hc] at hq
    dsimp only at hq
    split_ifs at hq
    · simp at hq
    · simp only [List.mem_singleton] at hq
      rw [hq]
      exact h e he

theorem findLoop_values (up : URLParse) (cfg : Config) (tr : Tracker)
    (hrp : FoundRefsParse up tr) (ms : List IdMatch)
    (artifacts : List (String × String)) (ha : ∀ e ∈ artifacts, up e.2 = true) (w : World)
    (res : GoMap)
    (h : (findLoop cfg tr (ms.map IdMatch.toSubmatch) artifacts w).1 = .ret res) :
    ∀ e ∈ res.entries, up e.2 = true := by
  induction ms generalizing artifacts w with
  | nil =>
    simp only [List.map_nil, findLoop, Outcome.ret.injEq] at h
    rw [← h]; exact ha
  | cons m ms ih =>
    rw [List.map_cons, findLoop_cons] at h
    cases htr : tr (w.log ++ [artifactRequest cfg m.id m.pfx]) with
    | transportError => rw [htr] at h; exact ih artifacts ha _ h
    | response b =>
      rw [htr] at h
      dsimp only at h
      cases hq : b.asQuery with
      | none => rw [hq] at h; exact ih artifacts ha _ h
      | some rr =>
        rw [hq] at h
        dsimp only at h
        by_cases hc : rr.QueryResult.TotalResultCount = 0
        · rw [if_pos hc] at h; exact ih artifacts ha _ h
        · rw [if_neg hc] at h
          cases hres : rr.QueryResult.Results with
          | nil => rw [hres] at h; simp at h
          | cons r rs =>
            rw [hres] at h
            simp only [List.getElem?_cons_zero] at h
            have hfound : (tr (w.log ++ [artifactRequest cfg m.id m.pfx])).found = some r.Ref := by
              simp [htr, Reply.found, hq, hc, hres]
            refine ih (setEntry m.id r.Ref artifacts) ?_ _ h
            intro e he
            rcases mem_setEntry _ _ _ _ he with rfl | he
            · exact hrp _ _ hfound
            · exact ha e he

theorem findRallyArtifact_values (up : URLParse) (cfg : Config) (tr : Tracker)
    (hrp : FoundRefsParse up tr) (commit : Commit) (w : World) (res : GoMap)
    (h : (FindRallyArtifact cfg tr commit w).1 = .ret res) :
    ∀ e ∈ res.entries, up e.2 = true := by
  obtain ⟨ms, hms, _⟩ := allMatches_scan commit.Message.data
  rw [FindRallyArtifact_eq cfg tr commit w ms hms] at h
  cases ms with
  | nil =>
    simp only [List.isEmpty_nil, if_true, Outcome.ret.injEq] at h
    rw [← h]
    intro e he; simp [GoMap.entries] at he
  | cons m ms =>
    simp only [List.isEmpty_cons, Bool.false_eq_true, if_false] at h
    exact findLoop_values up cfg tr hrp (m :: ms) [] (by intro e he; simp at he) w res h

/-- With a well-formed tracker whose references parse, one commit processed on an
allocated cache: the
artifacts are resolved, the changeset is added, and among the requests sent there is
exactly one changeset-create request, for this commit. -/
theorem commitStep_changeset (up : URLParse) (cfg : Config) (tr : Tracker) (ord : MapOrder)
    (hwf : WellFormed tr) (hrp : FoundRefsParse up tr) (hfair : ord.fair) (scmrepo repoURL branch : String) (c : Commit)
    (w : World) (cache : List (String × String)) (hcache : w.userCache = some cache) :
    ∃ res w1 e w2 newlog cs cache2,
      FindRallyArtifact cfg tr c w = (.ret res, w1) ∧
      AddChangeSet up cfg tr ord c scmrepo res repoURL branch w1 = (.ret e, w2) ∧
      w2.log = w.log ++ newlog ∧ w2.userCache = some cache2 ∧
      newlog.filter Request.isChangesetCreate = [changesetRequest cfg cs] ∧
      cs.Revision = c.ID ∧ cs.Message = c.Message ∧ cs.SCMRepository = scmrepo := by
  obtain ⟨res, ms, hF, hk⟩ := findRallyArtifact_ret cfg tr hwf c w
  have hval := findRallyArtifact_values up cfg tr hrp c w res (by rw [hF])
  have hparse : ∀ q ∈ updateRequests cfg c.Message (commitEntries cfg tr ord c res
      { log := w.log ++ lookupRequests cfg ms, userCache := w.userCache }), up q.url = true :=
    updateRequests_parse up cfg c.Message _
      (fun e he => hval e ((visited_perm ord hfair res _).mem_iff.mp he))
  obtain ⟨e, rest, hA, hrest⟩ := AddChangeSet_world up cfg tr ord c scmrepo res repoURL branch
    { log := w.log ++ lookupRequests cfg ms, userCache := w.userCache } cache hcache hk hfair
    hparse
  obtain ⟨pre, cache2, hac, hpre⟩ := afterCache_shape cfg tr c
    { log := w.log ++ lookupRequests cfg ms, userCache := w.userCache } cache hcache
  rw [hac] at hA
  refine ⟨res, _, e, _,
    lookupRequests cfg ms ++ pre ++
      updateRequests cfg c.Message (commitEntries cfg tr ord c res
        { log := w.log ++ lookupRequests cfg ms, userCache := w.userCache }) ++
      changesetRequest cfg (commitChangeset cfg tr ord c scmrepo res repoURL
        { log := w.log ++ lookupRequests cfg ms, userCache := w.userCache }) :: rest,
    commitChangeset cfg tr ord c scmrepo res repoURL
      { log := w.log ++ lookupRequests cfg ms, userCache := w.userCache },
    cache2, hF, hA, by simp, rfl, ?_, ?_, ?_, ?_⟩
  · have hrest2 : ∀ q ∈ rest, q.isChangesetCreate = false := by
      rcases hrest with rfl | ⟨ref, rfl⟩
      · intro q hq; simp at hq
      · exact changeRequests_not_changeset _ _ _ _ _
    simp only [List.filter_append, List.filter_cons, changesetRequest_isChangesetCreate, if_true,
      filter_nil_of_forall _ _ (lookupRequests_not_changeset cfg ms),
      filter_nil_of_forall _ _ hpre,
      filter_nil_of_forall _ _ (updateRequests_not_changeset cfg c.Message _),
      filter_nil_of_forall _ _ hrest2, List.nil_append]
  · simp [commitChangeset, buildChangeset_eq]
  · simp [commitChangeset, buildChangeset_eq]
  · simp [commitChangeset, buildChangeset_eq]

theorem commitLoop_changesets (up : URLParse) (cfg : Config) (tr : Tracker) (ord : MapOrder)
    (hwf : WellFormed tr) (hrp : FoundRefsParse up tr) (hfair : ord.fair) (scmrepo repoURL branch : String)
    (commits : List Commit) (w : World) (cache : List (String × String))
    (hcache : w.userCache = some cache) :
    ∃ w2 newlog css, commitLoop up cfg tr ord scmrepo repoURL branch commits w = (.ret (), w2) ∧
      w2.log = w.log ++ newlog ∧
      newlog.filter Request.isChangesetCreate = css.map (changesetRequest cfg) ∧
      List.Forall₂ (fun c cs => cs.Revision = c.ID ∧ cs.Message = c.Message ∧
        cs.SCMRepository = scmrepo) commits css := by
  induction commits generalizing w cache with
  | nil => exact ⟨w, [], [], rfl, by simp, rfl, List.Forall₂.nil⟩
  | cons c cs ih =>
    obtain ⟨res, w1, e, w2, newlog, chs, cache2, hF, hA, hlog, hc2, hfil, h1, h2, h3⟩ :=
      commitStep_changeset up cfg tr ord hwf hrp hfair scmrepo repoURL branch c w cache hcache
    obtain ⟨w3, newlog2, css, hL, hlog2, hfil2, hall⟩ := ih w2 cache2 hc2
    refine ⟨w3, newlog ++ newlog2, chs :: css, ?_, ?_, ?_, List.Forall₂.cons ⟨h1, h2, h3⟩ hall⟩
    · simp only [commitLoop, hF, hA, hL]
    · rw [hlog2, hlog]; simp
    · rw [List.filter_append, hfil, hfil2]; rfl

/-- With a tracker whose responses with a non-zero result count carry a result, and
whose lookups find references that parse, the goroutine of `ReceivePush` runs to its
end, whatever else the tracker replies, and the
changeset-create requests it sends are one for each commit of the push, in the order
of the commits. -/
theorem pushTask_changesets (up : URLParse) (cfg : Config) (tr : Tracker) (ord : MapOrder)
    (hwf : WellFormed tr) (hrp : FoundRefsParse up tr) (hfair : ord.fair) (event : PushEvent)
    (repo repoURL branch workspaceRef : String) (w : World) :
    ∃ w2 newlog css,
      pushTask up cfg tr ord event repo repoURL branch workspaceRef w = (.ret (), w2) ∧
      w2.log = w.log ++ newlog ∧
      newlog.filter Request.isChangesetCreate = css.map (changesetRequest cfg) ∧
      List.Forall₂ (fun c cs => cs.Revision = c.ID ∧ cs.Message = c.Message ∧
        cs.SCMRepository =
          (GetOrCreateSCMRepository cfg tr repo repoURL workspaceRef w).1.1) event.Commits css := by
  obtain ⟨reqs, hg, hreqs⟩ := getOrCreate_requests cfg tr repo repoURL workspaceRef w
  unfold pushTask
  rcases hG : GetOrCreateSCMRepository cfg tr repo repoURL workspaceRef w with ⟨⟨scm, e⟩, w1⟩
  rw [hG] at hg
  simp only at hg
  obtain ⟨w2, newlog, css, hL, hlog, hfil, hall⟩ := commitLoop_changesets up cfg tr ord hwf hrp hfair
    scm repoURL branch event.Commits { w1 with userCache := some [] } [] rfl
  refine ⟨w2, reqs ++ newlog, css, hL, ?_, ?_, hall⟩
  · rw [hlog, hg]; simp
  · rw [List.filter_append, filter_nil_of_forall _ _ hreqs, hfil]; rfl

/-- A push stopped by a reference that does not parse: the lookup of `US1` of the first
commit finds `https://rally.example/obj/%zz`, the state update for it panics in
`UpdateState`, and the goroutine ends after the user query without sending a
changeset-create request for either commit. -/
theorem pushTask_unparsable_reference :
    (handlePush exampleParse cfg0 badRefTracker storedOrder event0 world0).2.1 = .panic ∧
    ((handlePush exampleParse cfg0 badRefTracker storedOrder event0 world0).2.2.log.map
      fun q => (q.method, q.url)) =
      [("GET", "https://rally.example/slm/webservice/v2.0/workspace"),
       ("GET", "https://rally.example/slm/webservice/v2.0/scmrepository"),
       ("GET", "https://rally.example/slm/webservice/v2.0/hierarchicalrequirement"),
       ("GET", "https://rally.example/slm/webservice/v2.0/user")] ∧
    WellFormed badRefTracker ∧ ¬ FoundRefsParse exampleParse badRefTracker := by
  refine ⟨by decide, by decide, ?_, ?_⟩
  · intro log b rr hb hq _
    unfold badRefTracker okTracker at hb
    split_ifs at hb
    · simp only [Reply.response.injEq] at hb
      rw [← hb] at hq
      simp only [Option.some.injEq] at hq
      rw [← hq]; simp
    · simp only [Reply.response.injEq] at hb
      rw [← hb] at hq
      simp only [Option.some.injEq] at hq
      rw [← hq]; simp
  · intro h
    have h2 := h [artifactRequest cfg0 "US1" "US"] badRef (by decide)
    exact absurd h2 (by decide)

/-! ## Facts about the totality of `FindRallyArtifact` and identifiers inside words -/

/-- A response to the first lookup that reports results and carries none makes
`FindRallyArtifact` panic, whatever the message and the later replies are. -/
theorem findRallyArtifact_panics_of_missing_result (cfg : Config) (tr : Tracker) (commit : Commit)
    (w : World) (m : IdMatch) (ms : List IdMatch) (hs : Scan commit.Message.data (m :: ms))
    (b : Body) (rr : RallyQueryResults)
    (hreply : tr (w.log ++ [artifactRequest cfg m.id m.pfx]) = .response b)
    (hb : b.asQuery = some rr) (hcount : rr.QueryResult.TotalResultCount ≠ 0)
    (hres : rr.QueryResult.Results = []) :
    FindRallyArtifact cfg tr commit w =
      (.panic, { log := w.log ++ [artifactRequest cfg m.id m.pfx], userCache := w.userCache }) := by
  rw [FindRallyArtifact_eq cfg tr commit w (m :: ms) hs]
  simp only [List.isEmpty_cons, Bool.false_eq_true, if_false, List.map_cons]
  rw [findLoop_cons, hreply]
  simp only [hb, hcount, if_false, hres, List.getElem?_nil]

/-- C26: the code at the failing input. The message holds the identifier `DE7` and the
response to its lookup decodes, with `TotalResultCount` 1 and an empty `Results` list:
`FindRallyArtifact` reads `Results[0]` of the empty list and panics, returning no
mapping. It takes the first result whenever the count is not zero, whether or not the
result exists. -/
theorem findRallyArtifact_not_total :
    countOnlyTracker [artifactRequest cfg0 "DE7" "DE"] =
      .response { asQuery := some ⟨⟨1, []⟩⟩, asCreate := none, asUpdate := none } ∧
    (FindRallyArtifact cfg0 countOnlyTracker (commitOf "Fixes DE7") world0).1 = .panic ∧
    (∀ m, (FindRallyArtifact cfg0 countOnlyTracker (commitOf "Fixes DE7") world0).1 ≠ .ret m) ∧
    (FindRallyArtifact cfg0 countOnlyTracker (commitOf "Fixes DE7") world0).2.log.map
      (fun r => (r.url, r.query)) =
      [("https://rally.example/slm/webservice/v2.0/defect", some "(FormattedID = DE7)")] := by
  have h : (FindRallyArtifact cfg0 countOnlyTracker (commitOf "Fixes DE7") world0).1 = .panic := by
    decide
  refine ⟨rfl, h, ?_, by decide⟩
  intro m hm
  rw [h] at hm
  exact Outcome.noConfusion hm

theorem not_idStart_of_lower (c : Char) (cs : List Char) (hc : c.isLower = true) :
    ¬ IdStart (c :: cs) := by
  rintro ⟨p, hp, d, t, _, h⟩
  simp only [artifactPrefixes, List.mem_cons, List.mem_singleton, List.mem_nil_iff, or_false] at hp
  rcases hp with rfl | rfl | rfl | rfl | rfl | rfl | rfl <;>
    · simp only [List.cons_append, List.cons.injEq] at h
      obtain ⟨rfl, _⟩ := h
      revert hc
      decide

theorem scan_lower_prefix (word : List Char) (hw : ∀ c ∈ word, c.isLower = true)
    (s : List Char) (ms : List IdMatch) (h : Scan s ms) : Scan (word ++ s) ms := by
  induction word with
  | nil => exact h
  | cons c cs ih =>
    have h1 : ∀ x ∈ cs, x.isLower = true := fun x hx => hw x (List.mem_cons_of_mem _ hx)
    exact Scan.skip c (cs ++ s) ms (not_idStart_of_lower c _ (hw c (List.mem_cons_self _ _)))
      (ih h1)

theorem scan_single (p : String) (hp : p ∈ artifactPrefixes) (ds : List Char) (hne : ds ≠ [])
    (hd : ∀ d ∈ ds, d.isDigit = true) : Scan (p.data ++ ds) [⟨p, ds⟩] := by
  have h := Scan.take p ds [] [] hp hne hd (fun d t e => by simp at e) Scan.done
  simpa using h

theorem findLoop_single (cfg : Config) (tr : Tracker) (m : IdMatch) (w : World) :
    (findLoop cfg tr [m.toSubmatch] [] w).2 =
      { log := w.log ++ [artifactRequest cfg m.id m.pfx], userCache := w.userCache } := by
  rw [findLoop_cons]
  cases tr (w.log ++ [artifactRequest cfg m.id m.pfx]) with
  | transportError => rfl
  | response b =>
    dsimp only
    cases b.asQuery with
    | none => rfl
    | some rr =>
      dsimp only
      split_ifs
      · rfl
      · cases rr.QueryResult.Results[0]? <;> rfl

/-- C27: a message made of lower-case letters followed by an identifier (a prefix, then
one or more digits) has one submatch, the identifier with its prefix, as the identifier
alone has; `FindRallyArtifact` sends exactly one request for it, whatever the tracker
replies: the lookup of the identifier in the collection of its prefix. -/
theorem findRallyArtifact_embedded_identifier (cfg : Config) (tr : Tracker) (commit : Commit)
    (w : World) (word : List Char) (p : String) (ds : List Char)
    (hp : p ∈ artifactPrefixes) (hne : ds ≠ []) (hd : ∀ d ∈ ds, d.isDigit = true)
    (hw : ∀ c ∈ word, c.isLower = true)
    (hmsg : commit.Message.data = word ++ (p.data ++ ds)) :
    FindAllStringSubmatch artifactRegex commit.Message = [[String.mk (p.data ++ ds), p]] ∧
    FindAllStringSubmatch artifactRegex (String.mk (p.data ++ ds)) =
      [[String.mk (p.data ++ ds), p]] ∧
    (FindRallyArtifact cfg tr commit w).2.log =
      w.log ++ [artifactRequest cfg (String.mk (p.data ++ ds)) p] ∧
    artifactRequest cfg (String.mk (p.data ++ ds)) p =
      { method := "GET", url := cfg.RallyURL ++ "/slm/webservice/v2.0/" ++ collectionOf p,
        query := some ("(FormattedID = " ++ String.mk (p.data ++ ds) ++ ")"),
        header := [("ZSESSIONID", cfg.APIToken)], body := none } ∧
    collectionOf p ≠ "" := by
  have h1 := scan_single p hp ds hne hd
  have h2 : Scan commit.Message.data [⟨p, ds⟩] := by
    rw [hmsg]; exact scan_lower_prefix word hw _ _ h1
  obtain ⟨hr, hc⟩ := artifactRequest_of_prefix cfg ⟨p, ds⟩ hp
  refine ⟨?_, ?_, ?_, hr, hc⟩
  · rw [findAll_of_scan commit.Message _ h2]; rfl
  · rw [findAll_of_scan (String.mk (p.data ++ ds)) _ h1]; rfl
  · rw [FindRallyArtifact_eq cfg tr commit w _ h2]
    simp only [List.isEmpty_cons, Bool.false_eq_true, if_false, List.map_cons, List.map_nil]
    rw [findLoop_single]
    rfl

theorem findRallyArtifact_embedded_identifier_witness :
    "US" ∈ artifactPrefixes ∧ (∀ c ∈ "prefix".data, c.isLower = true) ∧
    FindAllStringSubmatch artifactRegex "prefixUS12" = [["US12", "US"]] ∧
    (FindRallyArtifact cfg0 downTracker (commitOf "prefixUS12") world0).2.log =
      [artifactRequest cfg0 "US12" "US"] :=
  ⟨by decide, by decide,
   (findRallyArtifact_embedded_identifier cfg0 downTracker (commitOf "prefixUS12") world0
      "prefix".data "US" "12".data (by decide) (by decide) (by decide) (by decide) rfl).1,
   (findRallyArtifact_embedded_identifier cfg0 downTracker (commitOf "prefixUS12") world0
      "prefix".data "US" "12".data (by decide) (by decide) (by decide) (by decide) rfl).2.2.1⟩

/-! ## Facts about the state update -/

/-- C30: for a resolved identifier of any prefix (`D`, `DE`, `DS`, `TA`, `TC`, `S`,
`US`) whose start or completion the message signals, the loop of `AddChangeSet` calls
`UpdateState` with the reference the identifier resolved to and the state
"In-Progress" or "Completed", whatever the prefix is; when the reference parses the
call sends its request, and when it does not the call panics before sending. The
request is a POST to the reference whose body is the object with the one member
`HierarchicalRequirement`, itself the object with the one member `ScheduleState`
holding the state. The request is made of the reference and the state only, so its body
is the same for every kind of artifact: `typeMap` sends the seven prefixes to five
collections, and a completion is found for an identifier of each prefix. -/
theorem stateLoop_update_every_kind (up : URLParse) (cfg : Config) (tr : Tracker)
    (message v : String)
    (m : IdMatch) (es : List (String × String)) (refs : List Reference) (w : World)
    (hp : m.pfx ∈ artifactPrefixes) (hd : ∀ d ∈ m.digits, d.isDigit = true) :
    (Signals ["STARTS", "BEGINS"] message m.id ∨ Signals ["COMPLETES", "FINISHES"] message m.id →
      ∃ state, (state = "In-Progress" ∨ state = "Completed") ∧
        (checkForStatus message m.id).map (fun r => targetState r.1 r.2) = some state ∧
        stateLoop up cfg tr message ((m.id, v) :: es) refs w =
          (match UpdateState up cfg tr v state w with
            | (.panic, w1) => (.panic, w1)
            | (.ret _, w1) => stateLoop up cfg tr message es (refs ++ [{ Ref := v }]) w1) ∧
        (up v = true → ∃ e, UpdateState up cfg tr v state w =
          (.ret e, { log := w.log ++ [updateRequest cfg v state], userCache := w.userCache })) ∧
        (up v = false → UpdateState up cfg tr v state w = (.panic, w))) ∧
    (∀ ref state, updateRequest cfg ref state =
      { method := "POST", url := ref, query := none,
        header := [("ZSESSIONID", cfg.APIToken)],
        body := some (.obj [("HierarchicalRequirement",
          .obj [("ScheduleState", .str state)])]) }) ∧
    artifactPrefixes.map typeMap.lookup =
      [some "defect", some "defect", some "defectsuite", some "task", some "testcase",
       some "hierarchicalrequirement", some "hierarchicalrequirement"] ∧
    artifactPrefixes.map (fun p => checkForStatus ("FINISHES " ++ p ++ "7") (p ++ "7")) =
      List.replicate 7 (some (false, true)) ∧
    artifactPrefixes.map (fun p =>
      (stateLoop exampleParse cfg0 okTracker ("FINISHES " ++ p ++ "7")
        [(p ++ "7", "https://rally.example/obj/1")] [] world0).2.log.map
          fun q => (q.method, q.url)) =
      List.replicate 7 [("POST", "https://rally.example/obj/1")] := by
  refine ⟨?_, fun ref state => rfl, by decide, by decide, by decide⟩
  intro hsig
  obtain ⟨start, complete, hc, hs, hcm⟩ :=
    checkForStatus_signals message m.id (id_alphanum m hp hd)
  have hor : start = true ∨ complete = true := by
    rcases hsig with h | h
    · exact Or.inl (hs.mpr h)
    · exact Or.inr (hcm.mpr h)
  refine ⟨targetState start complete, ?_, by rw [hc]; rfl, ?_,
    fun h => UpdateState_ret up cfg tr v _ w h, fun h => UpdateState_panic up cfg tr v _ w h⟩
  · cases start <;> cases complete <;> simp [targetState] at hor ⊢
  · have hne : (targetState start complete != "") = true := by
      cases start <;> cases complete <;> simp [targetState] at hor ⊢
    simp only [stateLoop, hc, hne, if_true]

theorem stateLoop_update_every_kind_witness :
    "DE" ∈ artifactPrefixes ∧ Signals ["COMPLETES", "FINISHES"] "FINISHES DE7" "DE7" ∧
    ∃ state, (state = "In-Progress" ∨ state = "Completed") ∧
      (checkForStatus "FINISHES DE7" "DE7").map (fun r => targetState r.1 r.2) = some state ∧
      (exampleParse "https://rally.example/obj/1" = true → ∃ e,
        UpdateState exampleParse cfg0 okTracker "https://rally.example/obj/1" state world0 =
          (.ret e, { log := world0.log ++ [updateRequest cfg0 "https://rally.example/obj/1" state],
                     userCache := world0.userCache })) :=
  have hsig : Signals ["COMPLETES", "FINISHES"] "FINISHES DE7" "DE7" :=
    ⟨[], "FINISHES", ' ', [], by simp, by simp [isWhitespace], by decide⟩
  have h := (stateLoop_update_every_kind exampleParse cfg0 okTracker "FINISHES DE7"
      "https://rally.example/obj/1" ⟨"DE", "7".data⟩ [] [] world0 (by decide) (by decide)).1
      (Or.inr hsig)
  match h with
  | ⟨state, h1, h2, _, h4, _⟩ => ⟨by decide, hsig, state, h1, h2, h4⟩

/-! ## The requests of a push -/

theorem Sends.refl (P : Request → Prop) (w : World) : Sends P w w :=
  ⟨[], by simp, by intro q hq; simp at hq⟩

theorem Sends.of_log_eq (P : Request → Prop) (w w2 : World) (h : w2.log = w.log) : Sends P w w2 :=
  ⟨[], by simp [h], by intro q hq; simp at hq⟩

theorem Sends.trans {P : Request → Prop} {w w2 w3 : World} (h1 : Sends P w w2)
    (h2 : Sends P w2 w3) : Sends P w w3 := by
  obtain ⟨n1, e1, p1⟩ := h1
  obtain ⟨n2, e2, p2⟩ := h2
  refine ⟨n1 ++ n2, by rw [e2, e1, List.append_assoc], ?_⟩
  intro q hq
  rcases List.mem_append.mp hq with h | h
  · exact p1 q h
  · exact p2 q h

theorem Sends.of_list {P : Request → Prop} (w w2 : World) (l : List Request)
    (h : w2.log = w.log ++ l) (hl : ∀ q ∈ l, P q) : Sends P w w2 :=
  ⟨l, h, hl⟩

theorem FindRallyArtifact_sends (cfg : Config) (tr : Tracker) (repoURL branch : String)
    (c : Commit) (w : World) :
    Sends (ServiceRequest cfg repoURL branch) w (FindRallyArtifact cfg tr c w).2 := by
  obtain ⟨ms, hms, _⟩ := allMatches_scan c.Message.data
  rw [FindRallyArtifact_eq cfg tr c w ms hms]
  cases ms with
  | nil => exact Sends.refl _ _
  | cons m ms =>
    obtain ⟨issued, h1, h2, _⟩ := findLoop_log cfg tr (m :: ms) [] w
    simp only [List.isEmpty_cons, Bool.false_eq_true, if_false]
    refine Sends.of_list _ _ issued (by rw [h2]) ?_
    intro q hq
    have hq2 := h1.subset hq
    simp only [lookupRequests, List.mem_map] at hq2
    obtain ⟨m2, _, rfl⟩ := hq2
    exact ServiceRequest.artifact _ _

theorem cacheStore_log (author v : String) (w : World) : (cacheStore author v w).2.log = w.log := by
  unfold cacheStore
  cases w.userCache <;> rfl

theorem cacheUser_sends (cfg : Config) (tr : Tracker) (repoURL branch : String)
    (author : String) (w : World) :
    Sends (ServiceRequest cfg repoURL branch) w (cacheUser cfg tr author w).2 := by
  have one : ∀ v, Sends (ServiceRequest cfg repoURL branch) w
      (cacheStore author v { w with log := w.log ++ [userRequest cfg author] }).2 := by
    intro v
    refine Sends.of_list _ _ [userRequest cfg author] (by rw [cacheStore_log]) ?_
    intro q hq
    simp only [List.mem_singleton] at hq
    rw [hq]
    exact ServiceRequest.user _
  unfold cacheUser doRequest
  cases w.userCache.get? author with
  | some r => exact Sends.refl _ _
  | none =>
    dsimp only
    cases tr (w.log ++ [userRequest cfg author]) with
    | transportError => exact one _
    | response b =>
      dsimp only
      cases b.asQuery with
      | none => exact one _
      | some rr =>
        dsimp only
        rcases rr.QueryResult.Results with _ | ⟨r, _ | ⟨r2, rs⟩⟩ <;> exact one _

theorem stateLoop_sends (up : URLParse) (cfg : Config) (tr : Tracker) (repoURL branch : String)
    (message : String) (es : List (String × String)) (refs : List Reference) (w : World) :
    Sends (ServiceRequest cfg repoURL branch) w (stateLoop up cfg tr message es refs w).2 := by
  obtain ⟨issued, h1, h2, _⟩ := stateLoop_log up cfg tr message es refs w
  refine Sends.of_list _ _ issued (by rw [h2]) ?_
  intro q hq
  have hq2 := h1.subset hq
  simp only [updateRequests, List.mem_flatMap] at hq2
  obtain ⟨e, _, hq2⟩ := hq2
  cases hc : checkForStatus message e.1 with
  | none => rw [hc] at hq2; simp at hq2
  | some r =>
    obtain ⟨st, cp⟩ := r
    rw [hc] at hq2
    dsimp only at hq2
    split_ifs at hq2
    · simp at hq2
    · simp only [List.mem_singleton] at hq2
      rw [hq2]
      exact ServiceRequest.update _ _

theorem changeLoop_sends (cfg : Config) (tr : Tracker) (repoURL branch : String)
    (action ref : String) (paths : List String) (w : World) :
    Sends (ServiceRequest cfg repoURL branch) w
      (changeLoop cfg tr action ref repoURL branch paths w) := by
  refine Sends.of_list _ _ (paths.map (changeRequest cfg action ref repoURL branch))
    (by rw [changeLoop_world]) ?_
  intro q hq
  simp only [List.mem_map] at hq
  obtain ⟨path, _, rfl⟩ := hq
  exact ServiceRequest.change _ _ _

theorem AddChangeSet_sends (up : URLParse) (cfg : Config) (tr : Tracker) (ord : MapOrder) (c : Commit)
    (scmrepo : String) (rallyRef : GoMap) (repoURL branch : String) (w : World) :
    Sends (ServiceRequest cfg repoURL branch) w
      (AddChangeSet up cfg tr ord c scmrepo rallyRef repoURL branch w).2 := by
  have h1 := cacheUser_sends cfg tr repoURL branch c.Author.Email w
  unfold AddChangeSet
  dsimp only
  rcases hcu : cacheUser cfg tr c.Author.Email w with ⟨o, w1⟩
  rw [hcu] at h1
  cases o with
  | panic => exact h1
  | ret u =>
    dsimp only
    have hst : Sends (ServiceRequest cfg repoURL branch) w1 (if rallyRef.len > 0 then
          stateLoop up cfg tr c.Message (ord w1.log rallyRef.entries) [] w1
        else (Outcome.ret [], w1)).2 := by
      split_ifs
      · exact stateLoop_sends _ _ _ _ _ _ _ _ _
      · exact Sends.refl _ _
    rcases hsl : (if rallyRef.len > 0 then
          stateLoop up cfg tr c.Message (ord w1.log rallyRef.entries) [] w1
        else (Outcome.ret [], w1)) with ⟨o2, w2⟩
    rw [hsl] at hst
    have h2 := Sends.trans h1 hst
    cases o2 with
    | panic => exact h2
    | ret artifactRefs =>
      have h3 : Sends (ServiceRequest cfg repoURL branch) w
          { w2 with log := w2.log ++ [changesetRequest cfg
            (buildChangeset c scmrepo repoURL (w2.userCache.get c.Author.Email) artifactRefs)] } := by
        refine Sends.trans h2 (Sends.of_list _ _ [_] rfl ?_)
        intro q hq
        simp only [List.mem_singleton] at hq
        rw [hq]
        exact ServiceRequest.changeset _
      dsimp only [doRequest]
      cases tr (w2.log ++ [changesetRequest cfg
          (buildChangeset c scmrepo repoURL (w2.userCache.get c.Author.Email) artifactRefs)]) with
      | transportError => exact h3
      | response b =>
        dsimp only
        cases b.asCreate with
        | none => exact h3
        | some r =>
          dsimp only
          split_ifs
          · exact h3
          · exact Sends.trans h3 (Sends.trans (changeLoop_sends _ _ _ _ _ _ _ _)
              (Sends.trans (changeLoop_sends _ _ _ _ _ _ _ _) (changeLoop_sends _ _ _ _ _ _ _ _)))

theorem commitLoop_sends (up : URLParse) (cfg : Config) (tr : Tracker) (ord : MapOrder)
    (scmrepo repoURL branch : String) (commits : List Commit) (w : World) :
    Sends (ServiceRequest cfg repoURL branch) w
      (commitLoop up cfg tr ord scmrepo repoURL branch commits w).2 := by
  induction commits generalizing w with
  | nil => exact Sends.refl _ _
  | cons c cs ih =>
    simp only [commitLoop]
    have h1 := FindRallyArtifact_sends cfg tr repoURL branch c w
    rcases hf : FindRallyArtifact cfg tr c w with ⟨o, w1⟩
    rw [hf] at h1
    cases o with
    | panic => exact h1
    | ret refs =>
      dsimp only
      have h2 := AddChangeSet_sends up cfg tr ord c scmrepo refs repoURL branch w1
      rcases ha : AddChangeSet up cfg tr ord c scmrepo refs repoURL branch w1 with ⟨o2, w2⟩
      rw [ha] at h2
      cases o2 with
      | panic => exact Sends.trans h1 h2
      | ret e => exact Sends.trans h1 (Sends.trans h2 (ih w2))

theorem getOrCreate_sends (cfg : Config) (tr : Tracker) (branch : String)
    (repo repoURL workspace : String) (w : World) :
    Sends (ServiceRequest cfg repoURL branch) w
      (GetOrCreateSCMRepository cfg tr repo repoURL workspace w).2 := by
  have one : ∀ q ∈ [scmRepositoryRequest cfg repo], ServiceRequest cfg repoURL branch q := by
    intro q hq
    simp only [List.mem_singleton] at hq
    rw [hq]
    exact ServiceRequest.repository _
  have two : ∀ q ∈ [scmRepositoryRequest cfg repo, scmCreateRequest cfg repo repoURL workspace],
      ServiceRequest cfg repoURL branch q := by
    intro q hq
    simp only [List.mem_cons, List.mem_singleton, List.mem_nil_iff, or_false] at hq
    rcases hq with rfl | rfl
    · exact ServiceRequest.repository _
    · exact ServiceRequest.repositoryCreate _ _ _
  unfold GetOrCreateSCMRepository doRequest
  cases tr (w.log ++ [scmRepositoryRequest cfg repo]) with
  | transportError => exact Sends.of_list _ _ _ rfl one
  | response b =>
    dsimp only
    cases b.asQuery with
    | none => exact Sends.of_list _ _ _ rfl one
    | some rr =>
      dsimp only
      rcases rr.QueryResult.Results with _ | ⟨r, _ | ⟨r2, rs⟩⟩
      · dsimp only
        cases tr (w.log ++ [scmRepositoryRequest cfg repo] ++
            [scmCreateRequest cfg repo repoURL workspace]) with
        | transportError => exact Sends.of_list _ _ _ (by simp) two
        | response b2 =>
          dsimp only
          cases b2.asCreate <;> exact Sends.of_list _ _ _ (by simp) two
      · exact Sends.of_list _ _ _ rfl one
      · dsimp only
        cases tr (w.log ++ [scmRepositoryRequest cfg repo] ++
            [scmCreateRequest cfg repo repoURL workspace]) with
        | transportError => exact Sends.of_list _ _ _ (by simp) two
        | response b2 =>
          dsimp only
          cases b2.asCreate <;> exact Sends.of_list _ _ _ (by simp) two

theorem pushTask_sends (up : URLParse) (cfg : Config) (tr : Tracker) (ord : MapOrder) (event : PushEvent)
    (repo repoURL branch workspaceRef : String) (w : World) :
    Sends (ServiceRequest cfg repoURL branch) w
      (pushTask up cfg tr ord event repo repoURL branch workspaceRef w).2 := by
  have h1 := getOrCreate_sends cfg tr branch repo repoURL workspaceRef w
  unfold pushTask
  rcases hG : GetOrCreateSCMRepository cfg tr repo repoURL workspaceRef w with ⟨⟨scm, e⟩, w1⟩
  rw [hG] at h1
  dsimp only
  exact Sends.trans h1 (Sends.trans (Sends.of_log_eq _ w1 { w1 with userCache := some [] } rfl)
    (commitLoop_sends _ _ _ _ _ _ _ _ _))

/-- Every request of a push handled to its end, however it ends, is one of the
requests of the service for the repository URL of the event and the branch taken from
its ref. -/
theorem handlePush_sends (up : URLParse) (cfg : Config) (tr : Tracker) (ord : MapOrder) (event : PushEvent)
    (w : World) :
    Sends (ServiceRequest cfg event.Repository.URL (branchOf event.Ref)) w
      (handlePush up cfg tr ord event w).2.2 := by
  have h1 : Sends (ServiceRequest cfg event.Repository.URL (branchOf event.Ref)) w
      (ValidateOrg cfg tr cfg.Workspace w).2 := by
    rw [validateOrg_eq]
    refine Sends.of_list _ _ [workspaceRequest cfg cfg.Workspace] rfl ?_
    intro q hq
    simp only [List.mem_singleton] at hq
    rw [hq]
    exact ServiceRequest.workspace _
  unfold handlePush ReceivePush
  dsimp only
  rcases hv : ValidateOrg cfg tr cfg.Workspace w with ⟨⟨ref, ok⟩, w1⟩
  rw [hv] at h1
  cases ok with
  | false => exact h1
  | true => exact Sends.trans h1 (pushTask_sends _ _ _ _ _ _ _ _ _ _)

theorem serviceRequest_header (cfg : Config) (repoURL branch : String) (q : Request)
    (h : ServiceRequest cfg repoURL branch q) : q.header = [("ZSESSIONID", cfg.APIToken)] := by
  cases h <;> rfl

theorem serviceRequest_changeUri (cfg : Config) (repoURL branch : String) (q : Request)
    (h : ServiceRequest cfg repoURL branch q) (uri : String) (hu : q.changeUri = some uri) :
    ∃ path, uri = repoURL ++ "/blob/" ++ branch ++ "/" ++ path := by
  cases h with
  | change action ref path =>
    refine ⟨path, ?_⟩
    have : (changeRequest cfg action ref repoURL branch path).changeUri =
        some (repoURL ++ "/blob/" ++ branch ++ "/" ++ path) := by
      simp [Request.changeUri, changeRequest, postRequest, DecorateRequest, changeBody, Json.field,
        List.lookup]
    rw [this] at hu
    exact (Option.some.inj hu).symm
  | update ref state =>
    simp [Request.changeUri, updateRequest, postRequest, DecorateRequest, updatePayload] at hu
  | changeset cs =>
    simp [Request.changeUri, changesetRequest, postRequest, DecorateRequest] at hu
  | repositoryCreate repo url workspace =>
    simp [Request.changeUri, scmCreateRequest, postRequest, DecorateRequest, scmCreateBody] at hu
  | workspace orgname => simp [Request.changeUri, workspaceRequest, getRequest, DecorateRequest] at hu
  | repository repo => simp [Request.changeUri, scmRepositoryRequest, getRequest, DecorateRequest] at hu
  | artifact a b => simp [Request.changeUri, artifactRequest, getRequest, DecorateRequest] at hu
  | user a => simp [Request.changeUri, userRequest, getRequest, DecorateRequest] at hu

theorem Sends.authenticated {cfg : Config} {repoURL branch : String} {w w2 : World}
    (h : Sends (ServiceRequest cfg repoURL branch) w w2) : Sends (Authenticated cfg) w w2 := by
  obtain ⟨new, e, hp⟩ := h
  exact ⟨new, e, fun q hq => serviceRequest_header cfg repoURL branch q (hp q hq)⟩

/-- C21: every request of a push handled to its end, however it ends, is one of the
eight requests of the service (workspace query, repository query and create, artifact
query, user query, state update, changeset create, change create) and carries the
header `ZSESSIONID` with the configured API token, as its only header line; so do the
requests each method of the service sends when it is called on its own.
`DecorateRequest` sets the header on any request, once. The fifteen requests of the
concrete push carry the token of the concrete configuration. -/
theorem requests_carry_api_token (up : URLParse) (cfg : Config) (tr : Tracker) (ord : MapOrder)
    (event : PushEvent) (w : World) :
    (∃ new, (handlePush up cfg tr ord event w).2.2.log = w.log ++ new ∧
      ∀ q ∈ new, ServiceRequest cfg event.Repository.URL (branchOf event.Ref) q ∧
        q.header = [("ZSESSIONID", cfg.APIToken)] ∧
        q.header.lookup "ZSESSIONID" = some cfg.APIToken) ∧
    (∀ repoURL branch q, ServiceRequest cfg repoURL branch q →
      q.header.lookup "ZSESSIONID" = some cfg.APIToken) ∧
    (∀ c w0, Sends (Authenticated cfg) w0 (FindRallyArtifact cfg tr c w0).2) ∧
    (∀ c scmrepo rallyRef repoURL branch w0, Sends (Authenticated cfg) w0
      (AddChangeSet up cfg tr ord c scmrepo rallyRef repoURL branch w0).2) ∧
    (∀ ref state w0, Sends (Authenticated cfg) w0 (UpdateState up cfg tr ref state w0).2) ∧
    (∀ action changeset path uri w0, Sends (Authenticated cfg) w0
      (AddChange cfg tr action changeset path uri w0).2) ∧
    (∀ orgname w0, Sends (Authenticated cfg) w0 (ValidateOrg cfg tr orgname w0).2) ∧
    (∀ repo repoURL workspace w0, Sends (Authenticated cfg) w0
      (GetOrCreateSCMRepository cfg tr repo repoURL workspace w0).2) ∧
    (∀ req, (DecorateRequest cfg req).header.lookup "ZSESSIONID" = some cfg.APIToken ∧
      ((DecorateRequest cfg req).header.filter fun h => h.1 == "ZSESSIONID") =
        [("ZSESSIONID", cfg.APIToken)]) ∧
    (handlePush exampleParse cfg0 okTracker storedOrder event0 world0).2.2.log.map (fun q => q.header) =
      List.replicate 15 [("ZSESSIONID", "1234abcde")] := by
  refine ⟨?_, ?_, ?_, ?_, ?_, ?_, ?_, ?_, ?_, by decide⟩
  · obtain ⟨new, e, hp⟩ := handlePush_sends up cfg tr ord event w
    refine ⟨new, e, fun q hq => ⟨hp q hq, serviceRequest_header _ _ _ q (hp q hq), ?_⟩⟩
    rw [serviceRequest_header _ _ _ q (hp q hq)]
    simp [List.lookup]
  · intro repoURL branch q hq
    rw [serviceRequest_header _ _ _ q hq]
    simp [List.lookup]
  · intro c w0
    exact (FindRallyArtifact_sends cfg tr "" "" c w0).authenticated
  · intro c scmrepo rallyRef repoURL branch w0
    exact (AddChangeSet_sends up cfg tr ord c scmrepo rallyRef repoURL branch w0).authenticated
  · intro ref state w0
    rw [UpdateState_world]
    split_ifs
    · refine Sends.of_list _ _ [updateRequest cfg ref state] rfl ?_
      intro q hq
      simp only [List.mem_singleton] at hq
      rw [hq]; rfl
    · exact Sends.refl _ _
  · intro action changeset path uri w0
    refine Sends.of_list _ _ [_] (by rw [AddChange_world]) ?_
    intro q hq
    simp only [List.mem_singleton] at hq
    rw [hq]; rfl
  · intro orgname w0
    rw [validateOrg_eq]
    refine Sends.of_list _ _ [workspaceRequest cfg orgname] rfl ?_
    intro q hq
    simp only [List.mem_singleton] at hq
    rw [hq]; rfl
  · intro repo repoURL workspace w0
    exact (getOrCreate_sends cfg tr "" repo repoURL workspace w0).authenticated
  · intro req
    constructor
    · simp [DecorateRequest, List.lookup]
    · simp only [DecorateRequest, List.filter_cons, beq_self_eq_true, if_true, List.filter_filter]
      congr 1
      apply filter_nil_of_forall
      intro h _
      cases hh : (h.1 != "ZSESSIONID") <;> simp_all

/-! ## Facts about the branch of a push -/

theorem splitSlash_shape (s : List Char) :
    ∃ init last, splitSlash s = init ++ [last] ∧ '/' ∉ last ∧
      ((init = [] ∧ s = last) ∨ (init ≠ [] ∧ ∃ pre, s = pre ++ '/' :: last)) := by
  induction s with
  | nil => exact ⟨[], [], rfl, by simp, Or.inl ⟨rfl, rfl⟩⟩
  | cons c cs ih =>
    obtain ⟨init, last, hsp, hno, hcase⟩ := ih
    by_cases hc : c = '/'
    · subst hc
      refine ⟨[] :: init, last, by simp [splitSlash, hsp], hno, Or.inr ⟨by simp, ?_⟩⟩
      rcases hcase with ⟨_, h2⟩ | ⟨_, pre, h2⟩
      · exact ⟨[], by simp [h2]⟩
      · exact ⟨'/' :: pre, by simp [h2]⟩
    · cases init with
      | nil =>
        rcases hcase with ⟨_, h2⟩ | ⟨h1, _⟩
        · refine ⟨[], c :: last, by simp [splitSlash, hc, hsp], ?_, Or.inl ⟨rfl, by rw [h2]⟩⟩
          intro hmem
          rcases List.mem_cons.mp hmem with h | h
          · exact hc h.symm
          · exact hno h
        · exact absurd rfl h1
      | cons i is =>
        rcases hcase with ⟨h1, _⟩ | ⟨_, pre, h2⟩
        · exact absurd h1 (by simp)
        · exact ⟨(c :: i) :: is, last, by simp [splitSlash, hc, hsp], hno,
            Or.inr ⟨by simp, c :: pre, by simp [h2]⟩⟩

theorem branchOf_shape (ref : String) :
    '/' ∉ (branchOf ref).data ∧
    (ref.data = (branchOf ref).data ∨ ∃ pre, ref.data = pre ++ '/' :: (branchOf ref).data) := by
  obtain ⟨init, last, hsp, hno, hcase⟩ := splitSlash_shape ref.data
  have hb : branchOf ref = String.mk last := by
    simp [branchOf, hsp]
  rw [hb]
  refine ⟨hno, ?_⟩
  rcases hcase with ⟨_, h2⟩ | ⟨_, pre, h2⟩
  · exact Or.inl h2
  · exact Or.inr ⟨pre, h2⟩

theorem branchOf_of_no_slash (ref : String) (h : '/' ∉ ref.data) : branchOf ref = ref := by
  obtain ⟨_, h2⟩ := branchOf_shape ref
  rcases h2 with h2 | ⟨pre, h2⟩
  · exact (String.ext h2).symm
  · exact absurd (by rw [h2]; simp) h

theorem branchOf_of_trailing_slash (ref : String) (pre : List Char)
    (h : ref.data = pre ++ ['/']) : branchOf ref = "" := by
  obtain ⟨h1, h2⟩ := branchOf_shape ref
  have hmem : '/' ∈ ref.data := by rw [h]; simp
  rcases h2 with h2 | ⟨pre2, h2⟩
  · rw [h2] at hmem; exact absurd hmem h1
  · have h3 : (pre ++ ['/']).reverse = (pre2 ++ '/' :: (branchOf ref).data).reverse := by
      rw [← h, h2]
    simp only [List.reverse_append, List.reverse_cons, List.reverse_nil, List.nil_append,
      List.singleton_append, List.append_assoc] at h3
    cases hr : (branchOf ref).data.reverse with
    | nil =>
      have : (branchOf ref).data = [] := by simpa using hr
      exact String.ext this
    | cons x xs =>
      rw [hr] at h3
      simp only [List.cons_append, List.cons.injEq] at h3
      have hx : x ∈ (branchOf ref).data := by
        have : x ∈ (branchOf ref).data.reverse := by rw [hr]; simp
        simpa using this
      rw [← h3.1] at hx
      exact absurd hx h1

/-- C28: the branch `ReceivePush` hands to the goroutine is the part of the ref after
its last `/`: it has no `/`, and the ref is the branch itself or ends with a `/`
followed by the branch; it is the whole ref when the ref has no `/` and the empty string
when the ref ends in `/`. Every change-create request of the push, however the run
ends, has the Uri `<repository URL>/blob/<branch>/<path>` with this branch. For the ref
`refs/heads/feature/x` the branch is `x` and the blob URLs are built with `x`. -/
theorem receivePush_branch (up : URLParse) (cfg : Config) (tr : Tracker) (ord : MapOrder) (event : PushEvent)
    (w : World) :
    '/' ∉ (branchOf event.Ref).data ∧
    (event.Ref.data = (branchOf event.Ref).data ∨
      ∃ pre, event.Ref.data = pre ++ '/' :: (branchOf event.Ref).data) ∧
    ('/' ∉ event.Ref.data → branchOf event.Ref = event.Ref) ∧
    (∀ pre, event.Ref.data = pre ++ ['/'] → branchOf event.Ref = "") ∧
    (∀ g, (ReceivePush cfg tr event w).1.started = some g → g.branch = branchOf event.Ref) ∧
    (∃ new, (handlePush up cfg tr ord event w).2.2.log = w.log ++ new ∧
      ∀ q ∈ new, ∀ uri, q.changeUri = some uri →
        ∃ path, uri = event.Repository.URL ++ "/blob/" ++ branchOf event.Ref ++ "/" ++ path) ∧
    branchOf "refs/heads/feature/x" = "x" ∧ branchOf "master" = "master" ∧
    branchOf "refs/heads/" = "" ∧
    (handlePush exampleParse cfg0 okTracker storedOrder event2 world0).2.2.log.filterMap Request.changeUri =
      ["https://github.com/o/r/blob/x/a.go", "https://github.com/o/r/blob/x/m1.go",
       "https://github.com/o/r/blob/x/m2.go", "https://github.com/o/r/blob/x/r.go"] := by
  refine ⟨(branchOf_shape event.Ref).1, (branchOf_shape event.Ref).2,
    branchOf_of_no_slash event.Ref, branchOf_of_trailing_slash event.Ref, ?_, ?_,
    by decide, by decide, by decide, by decide⟩
  · intro g hg
    unfold ReceivePush at hg
    dsimp only at hg
    rcases hv : ValidateOrg cfg tr cfg.Workspace w with ⟨⟨ref, ok⟩, w1⟩
    rw [hv] at hg
    cases ok with
    | false => simp at hg
    | true =>
      simp only [Option.some.injEq] at hg
      rw [← hg]
  · obtain ⟨new, e, hp⟩ := handlePush_sends up cfg tr ord event w
    exact ⟨new, e, fun q hq uri hu => serviceRequest_changeUri _ _ _ q (hp q hq) uri hu⟩

/-! ## Facts about a push whose repository cannot be resolved -/

theorem getOrCreate_error_ref (cfg : Config) (tr : Tracker) (repo repoURL workspace : String)
    (w : World) (h : (GetOrCreateSCMRepository cfg tr repo repoURL workspace w).1.2 ≠ none) :
    (GetOrCreateSCMRepository cfg tr repo repoURL workspace w).1.1 = "" := by
  revert h
  unfold GetOrCreateSCMRepository doRequest
  cases tr (w.log ++ [scmRepositoryRequest cfg repo]) with
  | transportError => intro _; rfl
  | response b =>
    dsimp only
    cases b.asQuery with
    | none => intro _; rfl
    | some rr =>
      dsimp only
      rcases rr.QueryResult.Results with _ | ⟨r, _ | ⟨r2, rs⟩⟩
      · dsimp only
        cases tr (w.log ++ [scmRepositoryRequest cfg repo] ++
            [scmCreateRequest cfg repo repoURL workspace]) with
        | transportError => intro _; rfl
        | response b2 =>
          dsimp only
          cases b2.asCreate with
          | none => intro _; rfl
          | some r => intro h; exact absurd rfl h
      · intro h; exact absurd rfl h
      · dsimp only
        cases tr (w.log ++ [scmRepositoryRequest cfg repo] ++
            [scmCreateRequest cfg repo repoURL workspace]) with
        | transportError => intro _; rfl
        | response b2 =>
          dsimp only
          cases b2.asCreate with
          | none => intro _; rfl
          | some r => intro h; exact absurd rfl h

theorem field_scmRepository (cs : Changeset) :
    (marshalChangeset cs).field "SCMRepository" =
      if cs.SCMRepository = "" then none else some (.str cs.SCMRepository) := by
  simp only [marshalChangeset, Json.field, lookup_append_fields, lookup_omitempty]
  have h1 : ("SCMRepository" == "Artifacts") = false := by decide
  by_cases ha : cs.Artifacts.isEmpty = true <;> by_cases hb : cs.SCMRepository = "" <;>
    simp [ha, hb, List.lookup, h1]

theorem changesetHas_repository (cfg : Config) (cs : Changeset) :
    (changesetRequest cfg cs).changesetHas "SCMRepository" = !(cs.SCMRepository == "") := by
  have h0 : (changesetRequest cfg cs).body = some (.obj [("Changeset", marshalChangeset cs)]) := rfl
  have h1 : (Json.obj [("Changeset", marshalChangeset cs)]).field "Changeset" =
      some (marshalChangeset cs) := by
    simp [Json.field, List.lookup]
  simp only [Request.changesetHas, h0, h1, field_scmRepository]
  by_cases hb : cs.SCMRepository = "" <;> simp [hb]

/-- With a tracker whose responses with a non-zero result count carry a result, and
whose lookups find references that parse: when `GetOrCreateSCMRepository` returns an
error, the goroutine of `ReceivePush` still runs
to its end and sends one changeset-create request for each commit, in their order, the
changeset having an empty repository reference and its body no member
`SCMRepository`. -/
theorem pushTask_repository_failure (up : URLParse) (cfg : Config) (tr : Tracker) (ord : MapOrder)
    (hwf : WellFormed tr) (hrp : FoundRefsParse up tr) (hfair : ord.fair) (event : PushEvent)
    (repo repoURL branch workspaceRef : String) (w : World)
    (herr : (GetOrCreateSCMRepository cfg tr repo repoURL workspaceRef w).1.2 ≠ none) :
    ∃ w2 newlog css,
      pushTask up cfg tr ord event repo repoURL branch workspaceRef w = (.ret (), w2) ∧
      w2.log = w.log ++ newlog ∧
      newlog.filter Request.isChangesetCreate = css.map (changesetRequest cfg) ∧
      List.Forall₂ (fun c cs => cs.Revision = c.ID ∧ cs.Message = c.Message ∧
        cs.SCMRepository = "" ∧
        (changesetRequest cfg cs).changesetHas "SCMRepository" = false) event.Commits css := by
  obtain ⟨w2, newlog, css, h1, h2, h3, h4⟩ :=
    pushTask_changesets up cfg tr ord hwf hrp hfair event repo repoURL branch workspaceRef w
  refine ⟨w2, newlog, css, h1, h2, h3, ?_⟩
  rw [getOrCreate_error_ref cfg tr repo repoURL workspaceRef w herr] at h4
  refine List.Forall₂.imp ?_ h4
  intro c cs hc
  refine ⟨hc.1, hc.2.1, hc.2.2, ?_⟩
  rw [changesetHas_repository, hc.2.2]
  rfl

/-- C29: the code at the failing input. The workspace resolves, the repository query
gets no answer, so that `GetOrCreateSCMRepository` fails, and the push has two commits;
the lookup of `US1` of the first commit is answered with a response that reports one
result and carries none. The goroutine panics in `FindRallyArtifact` of the first
commit and sends no changeset-create request for either commit. (With the same
repository failure and well-formed lookup responses it sends one for each commit,
without the member `SCMRepository`.) -/
theorem pushTask_repository_failure_missing_result :
    (GetOrCreateSCMRepository cfg0 (repositoryDownTracker missingResultTracker) "r"
      "https://github.com/o/r" "https://rally.example/obj/1"
      { log := [workspaceRequest cfg0 "Comcast"], userCache := none }).1 =
      ("", some .transport) ∧
    event0.Commits.length = 2 ∧
    (handlePush exampleParse cfg0 (repositoryDownTracker missingResultTracker) storedOrder event0 world0).2.1 =
      .panic ∧
    ((handlePush exampleParse cfg0 (repositoryDownTracker missingResultTracker) storedOrder event0
      world0).2.2.log.map fun q => (q.method, q.url)) =
      [("GET", "https://rally.example/slm/webservice/v2.0/workspace"),
       ("GET", "https://rally.example/slm/webservice/v2.0/scmrepository"),
       ("GET", "https://rally.example/slm/webservice/v2.0/hierarchicalrequirement")] ∧
    ((handlePush exampleParse cfg0 (repositoryDownTracker missingResultTracker) storedOrder event0
      world0).2.2.log.filter Request.isChangesetCreate).length = 0 ∧
    (handlePush exampleParse cfg0 (repositoryDownTracker okTracker) storedOrder event0 world0).2.1 =
      .ret () ∧
    (((handlePush exampleParse cfg0 (repositoryDownTracker okTracker) storedOrder event0
      world0).2.2.log.filter Request.isChangesetCreate).map
        fun q => (q.changesetHas "Revision", q.changesetHas "SCMRepository")) =
      [(true, false), (true, false)] := by
  refine ⟨by decide, rfl, by decide, by decide, by decide, by decide, by decide⟩

/-! ## Facts about the transport -/

theorem checkHMAC_event (sg : Signing) (a : Authorizor) (signature : Option String)
    (event : PushEvent) :
    CheckHMAC sg a signature (.pushEvent event) =
      if signature = none ∧ a.SignatureRequired = false then .ret none
      else
        match sg.marshal event with
        | .error err => .ret (some err)
        | .ok requestBytes => .ret (sg.verify requestBytes (signature.getD "") a.SecretToken) := by
  unfold CheckHMAC
  cases signature <;> cases hr : a.SignatureRequired <;> simp <;>
    · cases sg.marshal event with
      | error err => rfl
      | ok bytes =>
        dsimp only
        cases sg.verify bytes _ a.SecretToken <;> rfl

/-- C22: for a push event `CheckHMAC` returns, and it returns no error exactly when the
context holds no signature and none is required, or the event can be serialised and
the signature of the context (the empty string when there is none) verifies for the
serialised event under `SecretToken`; as the empty string is the signature of no text,
this is the case only for a signature the context holds. A signature made by a signing function that the
verification accepts is accepted, and a signature the verification rejects is rejected
with an error. With the stand-in signing method: the signature of the event is
accepted, an arbitrary string is rejected whether or not a signature is required, and
a missing signature passes only when none is required. -/
theorem checkHMAC_accepts_iff (sg : Signing) (a : Authorizor) (signature : Option String)
    (event : PushEvent) :
    (CheckHMAC sg a signature (.pushEvent event) = .ret none ↔
      (signature = none ∧ a.SignatureRequired = false) ∨
      ∃ bytes, sg.marshal event = .ok bytes ∧
        sg.verify bytes (signature.getD "") a.SecretToken = none) ∧
    (∃ r, CheckHMAC sg a signature (.pushEvent event) = .ret r) ∧
    ((∀ text key, sg.verify text "" key ≠ none) →
      (CheckHMAC sg a signature (.pushEvent event) = .ret none ↔
        (signature = none ∧ a.SignatureRequired = false) ∨
        ∃ s bytes, signature = some s ∧ sg.marshal event = .ok bytes ∧
          sg.verify bytes s a.SecretToken = none)) ∧
    (∀ sign : String → String → String,
      (∀ text key, sg.verify text (sign text key) key = none) →
      ∀ bytes, sg.marshal event = .ok bytes →
        CheckHMAC sg a (some (sign bytes a.SecretToken)) (.pushEvent event) = .ret none) ∧
    (∀ sig bytes, sg.marshal event = .ok bytes → sg.verify bytes sig a.SecretToken ≠ none →
      ∃ err, CheckHMAC sg a (some sig) (.pushEvent event) = .ret (some err)) ∧
    CheckHMAC exampleSigning auth0 (some (exampleSign "refs/heads/master" "secret"))
      (.pushEvent event0) = .ret none ∧
    CheckHMAC exampleSigning auth0 (some "somerandostring") (.pushEvent event0) =
      .ret (some (.msg "signature is invalid")) ∧
    CheckHMAC exampleSigning auth1 (some "somerandostring") (.pushEvent event0) =
      .ret (some (.msg "signature is invalid")) ∧
    CheckHMAC exampleSigning auth1 none (.pushEvent event0) = .ret none ∧
    CheckHMAC exampleSigning auth0 none (.pushEvent event0) =
      .ret (some (.msg "signature is invalid")) := by
  have main : CheckHMAC sg a signature (.pushEvent event) = .ret none ↔
      (signature = none ∧ a.SignatureRequired = false) ∨
      ∃ bytes, sg.marshal event = .ok bytes ∧
        sg.verify bytes (signature.getD "") a.SecretToken = none := by
    rw [checkHMAC_event]
    by_cases h : signature = none ∧ a.SignatureRequired = false
    · simp [h]
    · rw [if_neg h]
      cases hm : sg.marshal event with
      | error err =>
        simp [h]
      | ok bytes =>
        simp [h]
  refine ⟨main, ?_, ?_, ?_, ?_, by decide, by decide, by decide, by decide, by decide⟩
  · rw [checkHMAC_event]
    split_ifs
    · exact ⟨_, rfl⟩
    · cases sg.marshal event with
      | error err => exact ⟨_, rfl⟩
      | ok bytes => exact ⟨_, rfl⟩
  · intro hempty
    rw [main]
    constructor
    · rintro (h | ⟨bytes, hm, hv⟩)
      · exact Or.inl h
      · cases signature with
        | none => exact absurd hv (hempty _ _)
        | some s => exact Or.inr ⟨s, bytes, rfl, hm, hv⟩
    · rintro (h | ⟨s, bytes, rfl, hm, hv⟩)
      · exact Or.inl h
      · exact Or.inr ⟨bytes, hm, hv⟩
  · intro sign hsign bytes hm
    rw [checkHMAC_event, hm]
    simp [hsign]
  · intro sig bytes hm hv
    rw [checkHMAC_event, hm]
    cases hx : sg.verify bytes sig a.SecretToken with
    | none => exact absurd hx hv
    | some err => exact ⟨err, by simp [hx]⟩

/-- C23: `encodeError` writes 400 for `ErrInvalidArgument`, 401 for `ErrUnauthorized` and
for `ErrInvalidToken`, 403 for `ErrForbidden`, and 500 for every other error, among
them `ErrBadRouting` and the errors of the service. A body that cannot be decoded as a
push event makes `decodePushEventRequest` return `ErrInvalidArgument`, and a request
that is not a push event makes the endpoint return it, without calling `ReceivePush`;
the status of both is 400, and the server answers an undecodable body with 400 without
sending anything to the tracker. -/
theorem encodeError_status (sg : Signing) (a : Authorizor) (cfg : Config) (tr : Tracker)
    (header : String) (w : World) :
    encodeError .ErrInvalidArgument = 400 ∧ encodeError .ErrUnauthorized = 401 ∧
    encodeError .ErrInvalidToken = 401 ∧ encodeError .ErrForbidden = 403 ∧
    encodeError .ErrBadRouting = 500 ∧ (∀ e, encodeError (.other e) = 500) ∧
    (∀ err, encodeError err =
      if err = .ErrInvalidArgument then 400
      else if err = .ErrUnauthorized ∨ err = .ErrInvalidToken then 401
      else if err = .ErrForbidden then 403
      else 500) ∧
    decodePushEventRequest none = .error .ErrInvalidArgument ∧
    MakePushEventEndpoint cfg tr .otherValue w =
      ({ result := none, err := some .ErrInvalidArgument }, w) ∧
    (match decodePushEventRequest none with
      | .error err => encodeError err
      | .ok _ => 200) = 400 ∧
    (MakePushEventEndpoint cfg tr .otherValue w).1.err.map encodeError = some 400 ∧
    servePush sg a cfg tr header none w = (.ret { status := 400, result := none }, w) := by
  refine ⟨rfl, rfl, rfl, rfl, rfl, fun e => rfl, ?_, rfl, rfl, rfl, rfl, rfl⟩
  intro err
  cases err <;> simp [encodeError]

theorem httpToContext_of_ne (header : String) (h : header ≠ "") :
    HTTPToContext header = some header := by
  unfold HTTPToContext
  have : header.length ≠ 0 := by
    intro h0
    apply h
    apply String.ext
    have h1 : header.data.length = 0 := h0
    exact List.length_eq_zero.mp h1
  rw [if_neg this]

/-- C24: a push whose body decodes and whose header `X-Hub-Signature` is not empty and
does not verify for the event (the event cannot be serialised, or the verification of
the signature against the serialised event returns an error) is answered with the
status 500; `ReceivePush` is not called and nothing is sent to the tracker, the state
of the process being what it was. With the stand-in signing method an arbitrary
signature gives 500 and no request, and the signature of the event gives 200 and the
workspace query. -/
theorem servePush_invalid_signature (sg : Signing) (a : Authorizor) (cfg : Config)
    (tr : Tracker) (header : String) (event : PushEvent) (w : World)
    (hsig : header ≠ "")
    (hbad : ∀ bytes, sg.marshal event = .ok bytes →
      sg.verify bytes header a.SecretToken ≠ none) :
    servePush sg a cfg tr header (some event) w = (.ret { status := 500, result := none }, w) ∧
    (∃ err, ValidatePayload sg a (some header) (MakePushEventEndpoint cfg tr)
      (.pushEvent event) w = (.ret { result := none, err := some (.other err) }, w)) ∧
    (servePush exampleSigning auth0 cfg0 okTracker "somerandomvalue" (some event0) world0).1 =
      .ret { status := 500, result := none } ∧
    (servePush exampleSigning auth0 cfg0 okTracker "somerandomvalue" (some event0)
      world0).2.log.length = 0 ∧
    (servePush exampleSigning auth0 cfg0 okTracker (exampleSign "refs/heads/master" "secret")
      (some event0) world0).1 =
      .ret { status := 200,
             result := some { response := { Result := "created" }, err := none,
                              started := some { repo := "r", repoURL := "https://github.com/o/r",
                                                branch := "master",
                                                workspaceRef := "https://rally.example/obj/1" } } } ∧
    (servePush exampleSigning auth0 cfg0 okTracker (exampleSign "refs/heads/master" "secret")
      (some event0) world0).2.log = [workspaceRequest cfg0 "Comcast"] := by
  have hcheck : ∃ err, CheckHMAC sg a (some header) (.pushEvent event) = .ret (some err) := by
    rw [checkHMAC_event]
    simp only [reduceCtorEq, false_and, if_false, Option.getD_some]
    cases hm : sg.marshal event with
    | error err => exact ⟨err, rfl⟩
    | ok bytes =>
      cases hx : sg.verify bytes header a.SecretToken with
      | none => exact absurd hx (hbad bytes hm)
      | some err => exact ⟨err, by simp only [hx]⟩
  obtain ⟨err, hc⟩ := hcheck
  have hv : ValidatePayload sg a (some header) (MakePushEventEndpoint cfg tr)
      (.pushEvent event) w = (.ret { result := none, err := some (.other err) }, w) := by
    simp only [ValidatePayload, hc]
  refine ⟨?_, ⟨err, hv⟩, ?_, ?_, ?_, ?_⟩
  · simp only [servePush, httpToContext_of_ne header hsig, decodePushEventRequest, hv]
    rfl
  · rfl
  · rfl
  · rfl
  · rfl

theorem servePush_invalid_signature_witness :
    "somerandomvalue" ≠ "" ∧
    (∀ bytes, exampleSigning.marshal event0 = .ok bytes →
      exampleSigning.verify bytes "somerandomvalue" auth0.SecretToken ≠ none) ∧
    servePush exampleSigning auth0 cfg0 okTracker "somerandomvalue" (some event0) world0 =
      (.ret { status := 500, result := none }, world0) :=
  have hbad : ∀ bytes, exampleSigning.marshal event0 = .ok bytes →
      exampleSigning.verify bytes "somerandomvalue" auth0.SecretToken ≠ none := by
    intro bytes hb
    have : bytes = "refs/heads/master" := by
      simp only [exampleSigning, event0, Except.ok.injEq] at hb
      exact hb.symm
    subst this
    decide
  ⟨by decide, hbad,
   (servePush_invalid_signature exampleSigning auth0 cfg0 okTracker "somerandomvalue" event0
      world0 (by decide) hbad).1⟩

end Rally
